import Mathlib

/-! # ai-file-sorter: taxonomy resolver, reply parser, label validation, orchestrator,
categorization cache, backend selection

A shallow embedding of parts of `app/lib/DatabaseManager.cpp`,
`app/lib/CategorizationService.cpp` and `app/lib/LocalLLMClient.cpp`, followed by the
theorems about them.

Modelling conventions

* `std::string` is a list of characters (`Str`); every element stands for one `char`
  of the C++ string, and the `<cctype>` predicates are those of the "C" locale
  (anything outside ASCII is neither a letter, a digit, a space nor a control character).
* `std::unordered_map` is an association list read with `map_find` and written with
  `map_set` (the newest binding of a key shadows the older ones, as `m[k] = v` overwrites).
* A `double` is a rational number (`ℚ`).  In `string_similarity` and `find_fuzzy_match`
  every operation is followed by `round_double`, the rounding of IEEE 754 binary64
  (round to nearest, ties to even), so that scores compare as the program compares them.
  The layer estimation of `LocalLLMClient.cpp` is modelled in exact arithmetic.
* `int` identifiers are unbounded integers; `-1` is the source's "no id" value.
* The SQLite tables are lists of rows inside the manager state.  The model covers a
  manager whose database is open (`db != nullptr`) and whose statements execute without
  an I/O failure; a violated UNIQUE constraint is modelled.  A text is bound through
  `c_str()`, so the strings that reach a table are taken to contain no NUL character.
* The orchestrator is a function from an environment (`Env`: settings, collaborators,
  the answers of the model client, the stop flag, the callbacks that are set) and a world
  (`World`: database, emitted messages, counters) to a result and a new world; a C++
  exception is an `Except.error`.  Logging is not modelled.
* The backend selection of `LocalLLMClient.cpp` is the branch compiled without
  `GGML_USE_METAL`; the process environment is a list of bindings, and the probes and
  library calls are the fields of a record (`GpuHost`).
* The model load is a function on a state that records the loads attempted and the
  consultations of the fallback callback (`LoadState`); whether a load succeeds is a field
  of a record (`LoadHost`).
* A C string is a function from indices to characters (`c_string_at`): the characters of
  the name, the terminator, then the memory that follows, which is a parameter.
-/

namespace Sorter

/-! ## Characters and strings -/

abbrev Str := List Char

/-- `std::isspace` in the "C" locale: space, `\t`, `\n`, `\v`, `\f`, `\r`. -/
def isspace (ch : Char) : Bool := ch.toNat = 32 || (9 ≤ ch.toNat && ch.toNat ≤ 13)

/-- `std::isdigit`. -/
def isdigit (ch : Char) : Bool := 48 ≤ ch.toNat && ch.toNat ≤ 57

/-- `std::isupper` in the "C" locale. -/
def isupper (ch : Char) : Bool := 65 ≤ ch.toNat && ch.toNat ≤ 90

/-- `std::islower` in the "C" locale. -/
def islower (ch : Char) : Bool := 97 ≤ ch.toNat && ch.toNat ≤ 122

/-- `std::isalpha` in the "C" locale. -/
def isalpha (ch : Char) : Bool := isupper ch || islower ch

/-- `std::isalnum` in the "C" locale. -/
def isalnum (ch : Char) : Bool := isalpha ch || isdigit ch

/-- `std::iscntrl` in the "C" locale: codes 0..31 and 127. -/
def iscntrl (ch : Char) : Bool := ch.toNat < 32 || ch.toNat = 127

/-- `std::tolower` in the "C" locale. -/
def tolower (ch : Char) : Char := if isupper ch then Char.ofNat (ch.toNat + 32) else ch

/-- `to_lower_copy` / `to_lower_copy_str`: lower-case every character. -/
def to_lower_copy_str (value : Str) : Str := value.map tolower

/-- `trim_copy`: erase the leading and then the trailing `isspace` characters. -/
def trim_copy (value : Str) : Str :=
  ((value.dropWhile isspace).reverse.dropWhile isspace).reverse

/-- `unordered_map::find`. -/
def map_find {κ ν : Type} [DecidableEq κ] (m : List (κ × ν)) (key : κ) : Option ν :=
  match m with
  | [] => none
  | (k, v) :: rest => if k = key then some v else map_find rest key

/-- `m[key] = value`. -/
def map_set {κ ν : Type} (m : List (κ × ν)) (key : κ) (value : ν) : List (κ × ν) :=
  (key, value) :: m

/-! ## Label normalisation (`DatabaseManager.cpp`) -/

/-- One iteration of the loop of `normalize_label`; the state is
`(result, last_was_space)`. -/
def normalize_step (acc : Str × Bool) (ch : Char) : Str × Bool :=
  if isalnum ch then (acc.1 ++ [tolower ch], false)
  else if isspace ch then
    (if !acc.2 then (acc.1 ++ [' '], true) else acc)
  else acc

/-- `DatabaseManager::normalize_label`. -/
def normalize_label (input : Str) : Str :=
  let result := (input.foldl normalize_step ([], true)).1
  ((result.dropWhile (fun c => c == ' ')).reverse.dropWhile (fun c => c == ' ')).reverse

/-- The loop `while (iss >> token) tokens.push_back(token)`: the maximal runs of
non-space characters.  `cur` is the token being read. -/
def read_tokens : Str → Str → List Str
  | [], cur => if cur.isEmpty then [] else [cur]
  | ch :: rest, cur =>
    if isspace ch then
      (if cur.isEmpty then read_tokens rest [] else cur :: read_tokens rest [])
    else read_tokens rest (cur ++ [ch])

/-- The set `kStopwords` of `strip_trailing_stopwords`. -/
def kStopwords : List Str :=
  ["file", "files", "doc", "docs", "document", "documents",
   "image", "images", "photo", "photos", "pic", "pics"].map String.toList

/-- The loop `while (tokens.size() > 1 && kStopwords.contains(tokens.back())) pop_back()`,
run on the reversed token vector (its head is `tokens.back()`). -/
def pop_stopwords : List Str → List Str
  | [] => []
  | [t] => [t]
  | t :: u :: rest => if kStopwords.contains t then pop_stopwords (u :: rest) else t :: u :: rest

/-- Join tokens with single spaces (the final loop of `strip_trailing_stopwords`). -/
def join_tokens : List Str → Str
  | [] => []
  | [t] => t
  | t :: u :: rest => t ++ ' ' :: join_tokens (u :: rest)

/-- `strip_trailing_stopwords`. -/
def strip_trailing_stopwords (normalized : Str) : Str :=
  if normalized.isEmpty then normalized
  else
    let tokens := read_tokens normalized []
    if tokens.length ≤ 1 then normalized
    else
      let kept := (pop_stopwords tokens.reverse).reverse
      if kept.isEmpty then normalized else join_tokens kept

/-- `struct CanonicalCategoryLabel`. -/
structure CanonicalCategoryLabel where
  normalized : Str
  display : Str
deriving DecidableEq, Repr

/-- The set `kImageLike` of `is_image_like_label`. -/
def kImageLike : List Str :=
  ["image", "images", "image file", "image files", "photo", "photos",
   "graphic", "graphics", "picture", "pictures", "pic", "pics",
   "screenshot", "screenshots", "wallpaper", "wallpapers"].map String.toList

/-- `is_image_like_label`. -/
def is_image_like_label (normalized : Str) : Bool :=
  if normalized.isEmpty then false
  else if kImageLike.contains normalized then true
  else kImageLike.contains (strip_trailing_stopwords normalized)

/-- The four targets of the synonym table. -/
def archivesLabel : CanonicalCategoryLabel := ⟨"archives".toList, "Archives".toList⟩

def documentsLabel : CanonicalCategoryLabel := ⟨"documents".toList, "Documents".toList⟩

def softwareLabel : CanonicalCategoryLabel := ⟨"software".toList, "Software".toList⟩

def imagesLabel : CanonicalCategoryLabel := ⟨"images".toList, "Images".toList⟩

/-- The table `kCategorySynonyms` of `canonicalize_category_label`. -/
def kCategorySynonyms : List (Str × CanonicalCategoryLabel) :=
  (["archive", "archives", "backup", "backups", "backup file", "backup files"].map
      (fun k => (String.toList k, archivesLabel))) ++
  (["document", "documents", "doc", "docs", "text", "texts", "paper", "papers",
    "report", "reports", "spreadsheet", "spreadsheets", "table", "tables",
    "office file", "office files"].map
      (fun k => (String.toList k, documentsLabel))) ++
  (["software", "application", "applications", "app", "apps", "program", "programs",
    "installer", "installers", "installation", "installations",
    "installation file", "installation files",
    "software installation", "software installations",
    "software installation file", "software installation files",
    "setup", "setups", "setup file", "setup files", "update", "updates",
    "software update", "software updates", "patch", "patches",
    "upgrade", "upgrades", "updater", "updaters"].map
      (fun k => (String.toList k, softwareLabel))) ++
  (["image", "images", "image file", "image files", "photo", "photos",
    "graphic", "graphics", "picture", "pictures", "pic", "pics",
    "screenshot", "screenshots", "wallpaper", "wallpapers"].map
      (fun k => (String.toList k, imagesLabel)))

/-- `kCategorySynonyms.find(key)`. -/
def synonym_find (key : Str) : Option CanonicalCategoryLabel :=
  map_find kCategorySynonyms key

/-- `canonicalize_category_label`. -/
def canonicalize_category_label (normalized_category normalized_subcategory : Str) :
    CanonicalCategoryLabel :=
  match synonym_find normalized_category with
  | some label => label
  | none =>
    let stripped_category := strip_trailing_stopwords normalized_category
    match synonym_find stripped_category with
    | some label => label
    | none =>
      if (normalized_category = "media".toList || stripped_category = "media".toList) &&
          is_image_like_label normalized_subcategory then
        imagesLabel
      else ⟨normalized_category, []⟩

/-! ## Similarity and fuzzy matching -/

/-- The inner `for j` loop of `string_similarity` for one character `ai` of `a`:
`b` is what is left of `b`, `prev` starts at `prev[j-1]`, `left` is `curr[j-1]`. -/
def lev_row_aux (ai : Char) : Str → List Nat → Nat → List Nat
  | bj :: bs, pd :: pj :: ps, left =>
    let cost := if ai = bj then 0 else 1
    let v := min (min (pj + 1) (left + 1)) (pd + cost)
    v :: lev_row_aux ai bs (pj :: ps) v
  | _, _, _ => []

/-- One iteration of the outer `for i` loop: the row `curr` computed from `prev`
(`curr[0] = i`). -/
def lev_row (ai : Char) (i : Nat) (prev : List Nat) (b : Str) : List Nat :=
  i :: lev_row_aux ai b prev i

/-- The outer loop of `string_similarity`, started at row index `i`; returns the last row. -/
def lev_rows : Str → Nat → List Nat → Str → List Nat
  | [], _, prev, _ => prev
  | ai :: as, i, prev, b => lev_rows as (i + 1) (lev_row ai i prev b) b

/-- `prev[n]` after the loops of `string_similarity`. -/
def edit_distance (a b : Str) : Nat :=
  (lev_rows a 1 (List.range (b.length + 1)) b).getD b.length 0

/-- The integer nearest to `n / d` (for `d > 0`), a tie going to the even neighbour. -/
def round_half_even (n d : Nat) : Nat :=
  let q := n / d
  let r := n % d
  if 2 * r < d then q
  else if d < 2 * r then q + 1
  else if q % 2 = 0 then q else q + 1

/-- `floor(log2(n))` for positive `n`; `fuel` bounds the number of halvings. -/
def log2_floor : Nat → Nat → Nat
  | 0, _ => 0
  | fuel + 1, n => if n < 2 then 0 else log2_floor fuel (n / 2) + 1

/-- `floor(log2(n / d))` for positive `n` and `d`. -/
def floor_log2 (n d : Nat) : Int :=
  let e : Int := (log2_floor n n : Int) - (log2_floor d d : Int)
  if 0 ≤ e then (if d * 2 ^ e.toNat ≤ n then e else e - 1)
  else (if d ≤ n * 2 ^ (-e).toNat then e else e - 1)

/-- The `double` nearest to the positive rational `n / d`: with `e = floor(log2(n / d))`
the value is rounded to a multiple of `2^(e - 52)` (53 significant bits), or of `2^-1074`
in the subnormal range, a tie going to the even multiple. -/
def round_double_pos (n d : Nat) : ℚ :=
  let k : Int := max (floor_log2 n d - 52) (-1074)
  if 0 ≤ k then ((round_half_even n (d * 2 ^ k.toNat) * 2 ^ k.toNat : Nat) : ℚ)
  else mkRat (round_half_even (n * 2 ^ (-k).toNat) d : Nat) (2 ^ (-k).toNat)

/-- The rounding of IEEE 754 binary64 arithmetic (round to nearest, ties to even): the
`double` that an operation delivers when its exact result is `x`.  Overflow to infinity
(a result of magnitude `2^1024` or more) is left out: no operation of the functions that
use this rounding reaches it. -/
def round_double (x : ℚ) : ℚ :=
  if x = 0 then 0
  else if 0 < x then round_double_pos x.num.natAbs x.den
  else - round_double_pos x.num.natAbs x.den

/-- Arithmetic without rounding: every operation delivers its exact result. -/
def exact_arithmetic (x : ℚ) : ℚ := x

/-- `DatabaseManager::string_similarity`.  `fl` is the rounding of the `double`
arithmetic, applied to the two conversions from `size_t`, to the division and to the
subtraction: `round_double` for the program as it runs, `exact_arithmetic` for the
function read in exact arithmetic. -/
def string_similarity (fl : ℚ → ℚ) (a b : Str) : ℚ :=
  if a = b then 1
  else if a.isEmpty || b.isEmpty then 0
  else
    let dist := fl (edit_distance a b : ℚ)
    let max_len := fl (max a.length b.length : ℚ)
    fl (1 - fl (dist / max_len))

/-- `constexpr double kSimilarityThreshold = 0.85`: the `double` nearest to 0.85, which is
`7656119366529843 / 2^53`, a little below 0.85. -/
def kSimilarityThreshold : ℚ := round_double (85 / 100)

/-- `DatabaseManager::make_key`. -/
def make_key (norm_category norm_subcategory : Str) : Str :=
  norm_category ++ "::".toList ++ norm_subcategory

/-- `struct TaxonomyEntry` (the fields the resolver fills in). -/
structure TaxonomyEntry where
  id : Int
  category : Str
  subcategory : Str
  normalized_category : Str
  normalized_subcategory : Str
deriving DecidableEq, Repr

/-- `struct ResolvedCategory`. -/
structure ResolvedCategory where
  taxonomy_id : Int
  category : Str
  subcategory : Str
deriving DecidableEq, Repr

/-- A row of the table `file_categorization` (without the `timestamp` column).
Columns that the schema lets be NULL are options. -/
structure CacheRow where
  file_name : Str
  file_type : Str
  dir_path : Str
  category : Option Str
  subcategory : Option Str
  suggested_name : Option Str
  taxonomy_id : Option Int
  categorization_style : Option Int
  rename_only : Option Int
  rename_applied : Option Int
deriving DecidableEq, Repr

/-- The state of a `DatabaseManager`: the in-memory taxonomy caches and the three tables.
`taxonomy_seq` is the AUTOINCREMENT counter of `category_taxonomy`. -/
structure DatabaseManager where
  taxonomy_entries : List TaxonomyEntry
  canonical_lookup : List (Str × Int)
  alias_lookup : List (Str × Int)
  taxonomy_index : List (Int × Nat)
  category_taxonomy : List TaxonomyEntry
  category_alias : List (Str × Str × Int)
  taxonomy_seq : Int
  file_categorization : List CacheRow
deriving Repr

/-- A manager on a fresh database file: empty tables, empty caches. -/
def DatabaseManager.empty : DatabaseManager :=
  ⟨[], [], [], [], [], [], 0, []⟩

/-- One iteration of the loop of `find_fuzzy_match`; the state is `(best_id, best_score)`. -/
def fuzzy_step (norm_category norm_subcategory : Str) (best : Int × ℚ) (entry : TaxonomyEntry) :
    Int × ℚ :=
  let category_score := string_similarity round_double norm_category entry.normalized_category
  let subcategory_score :=
    string_similarity round_double norm_subcategory entry.normalized_subcategory
  let combined := round_double (round_double (category_score + subcategory_score) / 2)
  if combined > best.2 then (entry.id, combined) else best

/-- `DatabaseManager::find_fuzzy_match`: the pair `(id, score)`. -/
def find_fuzzy_match (db : DatabaseManager) (norm_category norm_subcategory : Str) : Int × ℚ :=
  if db.taxonomy_entries.isEmpty then (-1, 0)
  else
    let best := db.taxonomy_entries.foldl (fuzzy_step norm_category norm_subcategory) (-1, 0)
    if best.1 ≠ -1 ∧ best.2 ≥ kSimilarityThreshold then best else (-1, best.2)

/-- `DatabaseManager::resolve_existing_taxonomy`. -/
def resolve_existing_taxonomy (db : DatabaseManager) (key norm_category norm_subcategory : Str) :
    Int :=
  match map_find db.alias_lookup key with
  | some id => id
  | none =>
    match map_find db.canonical_lookup key with
    | some id => id
    | none => (find_fuzzy_match db norm_category norm_subcategory).1

/-- `DatabaseManager::find_existing_taxonomy_id`: the id of the first row of
`category_taxonomy` with the given normalized pair, `-1` when there is none. -/
def find_existing_taxonomy_id (db : DatabaseManager) (norm_category norm_subcategory : Str) : Int :=
  match db.category_taxonomy.find?
      (fun row => row.normalized_category = norm_category ∧
        row.normalized_subcategory = norm_subcategory) with
  | some row => row.id
  | none => -1

/-- `DatabaseManager::create_taxonomy_entry`: the INSERT fails on the UNIQUE constraint when
a row with the normalized pair exists (then the existing id is returned and the caches are
left alone); otherwise the row gets the next AUTOINCREMENT id and the caches are updated. -/
def create_taxonomy_entry (db : DatabaseManager)
    (category subcategory norm_category norm_subcategory : Str) : Int × DatabaseManager :=
  if db.category_taxonomy.any
      (fun row => row.normalized_category = norm_category ∧
        row.normalized_subcategory = norm_subcategory) then
    (find_existing_taxonomy_id db norm_category norm_subcategory, db)
  else
    let new_id := db.taxonomy_seq + 1
    let entry : TaxonomyEntry := ⟨new_id, category, subcategory, norm_category, norm_subcategory⟩
    (new_id,
      { db with
        category_taxonomy := db.category_taxonomy ++ [entry]
        taxonomy_seq := new_id
        taxonomy_index := map_set db.taxonomy_index new_id db.taxonomy_entries.length
        taxonomy_entries := db.taxonomy_entries ++ [entry]
        canonical_lookup := map_set db.canonical_lookup (make_key norm_category norm_subcategory)
          new_id })

/-- `INSERT OR IGNORE INTO category_alias`: the primary key is the normalized pair. -/
def insert_or_ignore_alias (rows : List (Str × Str × Int))
    (norm_category norm_subcategory : Str) (taxonomy_id : Int) : List (Str × Str × Int) :=
  if rows.any (fun row => row.1 = norm_category ∧ row.2.1 = norm_subcategory) then rows
  else rows ++ [(norm_category, norm_subcategory, taxonomy_id)]

/-- `DatabaseManager::ensure_alias_mapping`. -/
def ensure_alias_mapping (db : DatabaseManager) (taxonomy_id : Int)
    (norm_category norm_subcategory : Str) : DatabaseManager :=
  let key := make_key norm_category norm_subcategory
  if map_find db.canonical_lookup key = some taxonomy_id then db
  else if (map_find db.alias_lookup key).isSome then db
  else
    { db with
      category_alias :=
        insert_or_ignore_alias db.category_alias norm_category norm_subcategory taxonomy_id
      alias_lookup := map_set db.alias_lookup key taxonomy_id }

/-- `DatabaseManager::find_taxonomy_entry`. -/
def find_taxonomy_entry (db : DatabaseManager) (taxonomy_id : Int) : Option TaxonomyEntry :=
  match map_find db.taxonomy_index taxonomy_id with
  | none => none
  | some idx => db.taxonomy_entries[idx]?

/-- `DatabaseManager::build_resolved_category`. -/
def build_resolved_category (db : DatabaseManager) (taxonomy_id : Int)
    (fallback_category fallback_subcategory norm_category norm_subcategory : Str) :
    ResolvedCategory × DatabaseManager :=
  let created :=
    if taxonomy_id = -1 then
      create_taxonomy_entry db fallback_category fallback_subcategory norm_category norm_subcategory
    else (taxonomy_id, db)
  let taxonomy_id := created.1
  let db := created.2
  if taxonomy_id ≠ -1 then
    let db := ensure_alias_mapping db taxonomy_id norm_category norm_subcategory
    match find_taxonomy_entry db taxonomy_id with
    | some entry => (⟨entry.id, entry.category, entry.subcategory⟩, db)
    | none => (⟨taxonomy_id, fallback_category, fallback_subcategory⟩, db)
  else (⟨-1, fallback_category, fallback_subcategory⟩, db)

/-- The labels `resolve_category` works with before it touches the taxonomy:
the trimmed (and defaulted, and synonym-rewritten) display strings and the normalized
strings, as computed by the first half of `DatabaseManager::resolve_category`. -/
structure ResolveInput where
  trimmed_category : Str
  trimmed_subcategory : Str
  norm_category : Str
  norm_subcategory : Str
  match_subcategory : Str
deriving DecidableEq, Repr

/-- The first half of `DatabaseManager::resolve_category` (up to `make_key`). -/
def resolve_input (category subcategory : Str) : ResolveInput :=
  let trimmed_category := trim_copy category
  let trimmed_subcategory := trim_copy subcategory
  let trimmed_category :=
    if trimmed_category.isEmpty then "Uncategorized".toList else trimmed_category
  let trimmed_subcategory :=
    if trimmed_subcategory.isEmpty then "General".toList else trimmed_subcategory
  let norm_category := normalize_label trimmed_category
  let norm_subcategory := normalize_label trimmed_subcategory
  let canonical_category := canonicalize_category_label norm_category norm_subcategory
  let norm_category := canonical_category.normalized
  let trimmed_category :=
    if !canonical_category.display.isEmpty then canonical_category.display else trimmed_category
  let match_subcategory := strip_trailing_stopwords norm_subcategory
  ⟨trimmed_category, trimmed_subcategory, norm_category, norm_subcategory, match_subcategory⟩

/-- The second half of `DatabaseManager::resolve_category`: the lookups and
`build_resolved_category`. -/
def resolve_prepared (db : DatabaseManager) (inp : ResolveInput) :
    ResolvedCategory × DatabaseManager :=
  let key := make_key inp.norm_category inp.match_subcategory
  let taxonomy_id := resolve_existing_taxonomy db key inp.norm_category inp.match_subcategory
  let taxonomy_id :=
    if taxonomy_id = -1 ∧ inp.match_subcategory ≠ inp.norm_subcategory then
      resolve_existing_taxonomy db (make_key inp.norm_category inp.norm_subcategory)
        inp.norm_category inp.norm_subcategory
    else taxonomy_id
  build_resolved_category db taxonomy_id inp.trimmed_category inp.trimmed_subcategory
    inp.norm_category inp.match_subcategory

/-- `DatabaseManager::resolve_category`: the result and the manager afterwards. -/
def resolve_category (db : DatabaseManager) (category subcategory : Str) :
    ResolvedCategory × DatabaseManager :=
  resolve_prepared db (resolve_input category subcategory)

/-! ## The reply parser (`CategorizationService.cpp`) -/

/-- `std::string::find(needle)` from position 0: the index of the first occurrence. -/
def str_find (needle : Str) : Str → Option Nat
  | [] => if needle.isEmpty then some 0 else none
  | ch :: rest =>
    if needle.isPrefixOf (ch :: rest) then some 0 else (str_find needle rest).map (· + 1)

/-- The first test of `strip_list_prefix`: the line starts with `-` or `*` followed by a
white-space character. -/
def bullet_marker (line : Str) : Bool :=
  match line with
  | c0 :: c1 :: _ => (c0 = '-' || c0 = '*') && isspace c1
  | _ => false

/-- The index `idx` of `strip_list_prefix`: the number of leading digits. -/
def digit_run (line : Str) : Nat := (line.takeWhile isdigit).length

/-- The second test of `strip_list_prefix`: leading digits, then `.` or `)`, then a
white-space character. -/
def numbered_marker (line : Str) : Bool :=
  let idx := digit_run line
  decide (idx > 0) && decide (idx + 1 < line.length) &&
    (line.getD idx 'x' = '.' || line.getD idx 'x' = ')') && isspace (line.getD (idx + 1) 'x')

/-- `strip_list_prefix`. -/
def strip_list_prefix (line : Str) : Str :=
  let line := trim_copy line
  if line.isEmpty then line
  else if bullet_marker line then trim_copy (line.drop 1)
  else if numbered_marker line then trim_copy (line.drop (digit_run line + 1))
  else line

/-- `has_alpha`. -/
def has_alpha (value : Str) : Bool := value.any isalpha

/-- The body of the loop of `split_inline_pair` for one delimiter; `none` is `continue`. -/
def split_at_delimiter (line delimiter : Str) : Option (Str × Str) :=
  match str_find delimiter line with
  | none => none
  | some pos =>
    let left := trim_copy (line.take pos)
    let right := trim_copy (line.drop (pos + delimiter.length))
    if left.length < 2 || right.isEmpty then none
    else if !has_alpha left || !has_alpha right then none
    else some (left, right)

/-- `split_inline_pair`: `none` is the `false` result. -/
def split_inline_pair (line : Str) : Option (Str × Str) :=
  match split_at_delimiter line " : ".toList with
  | some pair => some pair
  | none => split_at_delimiter line ":".toList

/-- The loop `while (std::getline(iss, line))`: the segments between `\n`; a last segment
that is empty is not read. -/
def getlines : Str → Str → List Str
  | [], cur => if cur.isEmpty then [] else [cur]
  | ch :: rest, cur => if ch = '\n' then cur :: getlines rest [] else getlines rest (cur ++ [ch])

/-- One iteration of the first loop of `split_category_subcategory` (the labelled
`key: value` lines); the state is `(category, subcategory)`. -/
def labelled_step (acc : Str × Str) (entry : Str) : Str × Str :=
  match str_find ":".toList entry with
  | none => acc
  | some colon =>
    let key := to_lower_copy_str (trim_copy (entry.take colon))
    let value := trim_copy (entry.drop (colon + 1))
    if value.isEmpty then acc
    else if key = "category".toList || key = "main category".toList then (value, acc.2)
    else if key = "subcategory".toList || key = "sub category".toList then (acc.1, value)
    else acc

/-- The second loop of `split_category_subcategory` (inline pairs), with its `break`. -/
def inline_loop : List Str → Str × Str → Str × Str
  | [], acc => acc
  | entry :: rest, acc =>
    match split_inline_pair entry with
    | none => inline_loop rest acc
    | some parsed =>
      let category := if acc.1.isEmpty then parsed.1 else acc.1
      let subcategory := if acc.2.isEmpty then parsed.2 else acc.2
      if !category.isEmpty && !subcategory.isEmpty then (category, subcategory)
      else inline_loop rest (category, subcategory)

/-- `split_category_subcategory`; `sanitize` stands for `Utils::sanitize_path_label`,
which is not part of the sources at hand. -/
def split_category_subcategory (sanitize : Str → Str) (input : Str) : Str × Str :=
  let lines := ((getlines input []).map strip_list_prefix).filter (fun l => !l.isEmpty)
  if lines.isEmpty then (sanitize (trim_copy input), [])
  else
    let labelled := lines.foldl labelled_step ([], [])
    let both :=
      if labelled.1.isEmpty || labelled.2.isEmpty then inline_loop lines labelled else labelled
    let category := if both.1.isEmpty then lines.headD [] else both.1
    (sanitize category, sanitize both.2)

/-- The characters `<>:"/\|?*` (the string `forbidden` of `contains_only_allowed_chars`). -/
def forbidden_chars : Str := ['<', '>', ':', '"', '/', '\\', '|', '?', '*']

/-- Modelled from the spec: `Utils::sanitize_path_label` is declared in `Utils.hpp`, which
is not among the sources; the spec describes path-label sanitation as "strip forbidden
filesystem characters".  This model drops the control characters and `<>:"/\|?*`. -/
def sanitize_path_label (value : Str) : Str :=
  value.filter (fun ch => !iscntrl ch && !forbidden_chars.contains ch)

/-! ## Label validation (`CategorizationService.cpp`) -/

/-- `constexpr size_t kMaxLabelLength = 80`. -/
def kMaxLabelLength : Nat := 80

/-- `contains_only_allowed_chars`. -/
def contains_only_allowed_chars (value : Str) : Bool :=
  value.all (fun ch => !iscntrl ch && !forbidden_chars.contains ch)

/-- `has_leading_or_trailing_space_or_dot` (only white space is checked). -/
def has_leading_or_trailing_space_or_dot (value : Str) : Bool :=
  match value.head?, value.getLast? with
  | some first, some last => isspace first || isspace last
  | _, _ => false

/-- The list `reserved` of `is_reserved_windows_name`. -/
def reserved_names : List Str :=
  ["con", "prn", "aux", "nul",
   "com1", "com2", "com3", "com4", "com5", "com6", "com7", "com8", "com9",
   "lpt1", "lpt2", "lpt3", "lpt4", "lpt5", "lpt6", "lpt7", "lpt8", "lpt9"].map String.toList

/-- `is_reserved_windows_name`. -/
def is_reserved_windows_name (value : Str) : Bool :=
  reserved_names.contains (to_lower_copy_str value)

/-- `std::string::rfind(ch)`: the index of the last occurrence. -/
def str_rfind (c : Char) : Str → Option Nat
  | [] => none
  | x :: xs =>
    match str_rfind c xs with
    | some i => some (i + 1)
    | none => if x = c then some 0 else none

/-- `looks_like_extension_label`. -/
def looks_like_extension_label (value : Str) : Bool :=
  match str_rfind '.' value with
  | none => false
  | some dot_pos =>
    if dot_pos = value.length - 1 then false
    else
      let ext := value.drop (dot_pos + 1)
      if ext.isEmpty || decide (ext.length > 5) then false
      else ext.all isalpha

/-- `struct LabelValidationResult`. -/
structure LabelValidationResult where
  valid : Bool
  error : String
deriving DecidableEq, Repr

/-- `validate_labels`. -/
def validate_labels (category subcategory : Str) : LabelValidationResult :=
  if category.isEmpty || subcategory.isEmpty then
    ⟨false, "Category or subcategory is empty"⟩
  else if decide (category.length > kMaxLabelLength) ||
      decide (subcategory.length > kMaxLabelLength) then
    ⟨false, "Category or subcategory exceeds max length"⟩
  else if !contains_only_allowed_chars category || !contains_only_allowed_chars subcategory then
    ⟨false, "Category or subcategory contains disallowed characters"⟩
  else if looks_like_extension_label category || looks_like_extension_label subcategory then
    ⟨false, "Category or subcategory looks like a file extension"⟩
  else if is_reserved_windows_name category || is_reserved_windows_name subcategory then
    ⟨false, "Category or subcategory is a reserved name"⟩
  else if has_leading_or_trailing_space_or_dot category ||
      has_leading_or_trailing_space_or_dot subcategory then
    ⟨false, "Category or subcategory has leading/trailing space or dot"⟩
  else if to_lower_copy_str category = to_lower_copy_str subcategory then
    ⟨false, "Category and subcategory are identical"⟩
  else ⟨true, ""⟩

/-! ### The validation rules in the words of the specification -/

/-- A label is extension-like: the text after its last `.` is 1 to 5 letters. -/
def ExtensionLike (label : Str) : Prop :=
  ∃ pre ext, label = pre ++ '.' :: ext ∧ '.' ∉ ext ∧
    1 ≤ ext.length ∧ ext.length ≤ 5 ∧ ∀ ch ∈ ext, isalpha ch = true

/-- The reserved Windows device names. -/
def windows_device_names : List Str :=
  ["CON", "PRN", "AUX", "NUL",
   "COM1", "COM2", "COM3", "COM4", "COM5", "COM6", "COM7", "COM8", "COM9",
   "LPT1", "LPT2", "LPT3", "LPT4", "LPT5", "LPT6", "LPT7", "LPT8", "LPT9"].map String.toList

/-- The rules of the specification for one label. -/
structure LabelRules (label : Str) : Prop where
  nonempty : label ≠ []
  length_le : label.length ≤ 80
  chars : ∀ ch ∈ label, iscntrl ch = false ∧ ch ∉ ['<', '>', ':', '"', '/', '\\', '|', '?', '*']
  not_reserved : ∀ name ∈ windows_device_names,
    to_lower_copy_str label ≠ to_lower_copy_str name
  not_extension : ¬ ExtensionLike label
  no_outer_space : trim_copy label = label

/-- The rules of the specification for a pair of labels. -/
def ValidLabels (category subcategory : Str) : Prop :=
  LabelRules category ∧ LabelRules subcategory ∧
    to_lower_copy_str category ≠ to_lower_copy_str subcategory

/-! ## The categorization cache (`DatabaseManager.cpp`) -/

/-- Modelled from the spec: `enum class FileType` is declared in `Types.hpp`, which is not
among the sources; the sources use its two values `File` and `Directory`. -/
inductive FileType
  | File
  | Directory
deriving DecidableEq, Repr

/-- The text stored in the column `file_type`: `"F"` or `"D"`. -/
def file_type_code (file_type : FileType) : Str :=
  match file_type with
  | FileType.File => "F".toList
  | FileType.Directory => "D".toList

/-- Modelled from the spec: `struct FileEntry` (`Types.hpp`), `{ full_path, file_name,
file_type }`; the sources read `full_path`, `file_name` and `type`. -/
structure FileEntry where
  full_path : Str
  file_name : Str
  type : FileType
deriving DecidableEq, Repr

/-- Modelled from the spec: `struct CategorizedFile` is declared in `Types.hpp`, which is
not among the sources; the fields are those the spec lists and the sources assign. -/
structure CategorizedFile where
  file_path : Str
  file_name : Str
  type : FileType
  category : Str
  subcategory : Str
  taxonomy_id : Int
  from_cache : Bool
  used_consistency_hints : Bool
  suggested_name : Str
  rename_only : Bool
  rename_applied : Bool
deriving DecidableEq, Repr

/-- Modelled from the spec: the aggregate initialisation
`CategorizedFile{dir_path, name, type, cat, subcat, id}` used throughout the sources.  The
declaration of the struct is not among the sources; the members that are not listed keep
their defaults, taken to be `false` and the empty string (`build_categorized_entry` sets
`from_cache = true` explicitly after this initialisation). -/
def CategorizedFile.init (file_path file_name : Str) (type : FileType)
    (category subcategory : Str) (taxonomy_id : Int) : CategorizedFile :=
  ⟨file_path, file_name, type, category, subcategory, taxonomy_id, false, false, [], false, false⟩

/-- `DatabaseManager::get_categorization_from_db`: the `category` and `subcategory` of the
first row with the key, NULL read as the empty string; the empty vector without a row. -/
def get_categorization_from_db (db : DatabaseManager) (dir_path file_name : Str)
    (file_type : FileType) : List Str :=
  match db.file_categorization.find? (fun row =>
      row.dir_path = dir_path ∧ row.file_name = file_name ∧
        row.file_type = file_type_code file_type) with
  | some row => [row.category.getD [], row.subcategory.getD []]
  | none => []

/-- The `ON CONFLICT ... DO UPDATE` clause of `insert_or_update_file_with_categorization`
applied to an existing row. -/
def upsert_update (old new : CacheRow) : CacheRow :=
  { old with
    category := new.category
    subcategory := new.subcategory
    suggested_name := new.suggested_name
    taxonomy_id := new.taxonomy_id
    categorization_style := new.categorization_style
    rename_only := new.rename_only
    rename_applied := if new.rename_applied = some 1 then some 1 else old.rename_applied }

/-- The upsert on the table: update the row with the key of `new`, or append `new`. -/
def upsert_rows : List CacheRow → CacheRow → List CacheRow
  | [], new => [new]
  | row :: rest, new =>
    if row.file_name = new.file_name ∧ row.file_type = new.file_type ∧
        row.dir_path = new.dir_path then
      upsert_update row new :: rest
    else row :: upsert_rows rest new

/-- `DatabaseManager::insert_or_update_file_with_categorization` (the statement succeeds;
the `frequency` column of the taxonomy table is not modelled). -/
def insert_or_update_file_with_categorization (db : DatabaseManager)
    (file_name file_type dir_path : Str) (resolved : ResolvedCategory)
    (used_consistency_hints : Bool) (suggested_name : Str)
    (rename_only rename_applied : Bool) : DatabaseManager :=
  let row : CacheRow :=
    { file_name := file_name
      file_type := file_type
      dir_path := dir_path
      category := some resolved.category
      subcategory := some resolved.subcategory
      suggested_name := some suggested_name
      taxonomy_id := if resolved.taxonomy_id > 0 then some resolved.taxonomy_id else none
      categorization_style := some (if used_consistency_hints then 1 else 0)
      rename_only := some (if rename_only then 1 else 0)
      rename_applied := some (if rename_applied then 1 else 0) }
  { db with file_categorization := upsert_rows db.file_categorization row }

/-- `DatabaseManager::remove_file_categorization`. -/
def remove_file_categorization (db : DatabaseManager) (dir_path file_name : Str)
    (file_type : FileType) : DatabaseManager :=
  { db with
    file_categorization := db.file_categorization.filter (fun row =>
      !(decide (row.dir_path = dir_path ∧ row.file_name = file_name ∧
        row.file_type = file_type_code file_type))) }

/-! ## The orchestrator (`CategorizationService.cpp`) -/

/-- `is_allowed`. -/
def is_allowed (value : Str) (allowed : List Str) : Bool :=
  if allowed.isEmpty then true
  else allowed.any (fun item => to_lower_copy_str item = to_lower_copy_str value)

/-- `first_allowed_or_blank`. -/
def first_allowed_or_blank (allowed : List Str) : Str :=
  match allowed with
  | [] => []
  | first :: _ => first

/-- Modelled from the spec: `enum class LLMChoice` is not declared in the sources at hand;
the orchestrator distinguishes the three remote choices, and `Local` stands for every
choice for which `is_remote_choice` is false. -/
inductive LLMChoice
  | Local
  | Remote_OpenAI
  | Remote_Gemini
  | Remote_Custom
deriving DecidableEq, Repr

/-- Modelled from the spec: `is_remote_choice` is not defined in the sources at hand; the
remote choices are the OpenAI, Gemini and custom clients. -/
def is_remote_choice (choice : LLMChoice) : Bool :=
  match choice with
  | LLMChoice.Local => false
  | _ => true

/-- Modelled from the spec: the part of the `Settings` snapshot (`Settings.hpp`, not among
the sources) that the orchestrator reads through its getters.  `custom_endpoint_valid` is
`is_valid_custom_api_endpoint` of the active custom endpoint. -/
structure Settings where
  llm_choice : LLMChoice
  openai_api_key : Str
  gemini_api_key : Str
  custom_endpoint_valid : Bool
  use_whitelist : Bool
  allowed_categories : List Str
  allowed_subcategories : List Str
  use_consistency_hints : Bool

/-- What one call of the model client ends with, as seen through
`run_llm_with_timeout`: a reply, no reply within the timeout, a rate-limit error
(`BackoffError`) or another exception. -/
inductive LlmOutcome
  | reply (text : Str)
  | timeout
  | backoff (retry_after_seconds : Int) (what : Str)
  | failure (what : Str)

/-- The exceptions that travel through the orchestrator: `BackoffError` (declared in
`LLMErrors.hpp`, taken to derive from `std::exception` so that the handler of
`categorize_via_llm` sees it) and any other `std::exception`. -/
inductive Exn
  | backoff (retry_after_seconds : Int) (what : Str)
  | runtime (what : Str)
deriving DecidableEq, Repr

/-- `ex.what()`. -/
def Exn.what : Exn → Str
  | Exn.backoff _ what => what
  | Exn.runtime what => what

/-- What the orchestrator reads but does not change: the settings, the collaborators that
are not part of the sources (`Utils::sanitize_path_label`, the parent directory of a path,
`Utils::abbreviate_user_path`), the model client (its answer to the n-th call; the prompt
it is given is not modelled, the answers are arbitrary), the stop flag (the value seen by
the n-th load) and the optional callbacks. -/
structure Env where
  settings : Settings
  sanitize : Str → Str
  parent_path : Str → Str
  abbreviate_user_path : Str → Str
  llm : Nat → LlmOutcome
  stop_flag : Nat → Bool
  llm_factory_ok : Bool
  progress_callback : Bool
  queue_callback : Bool
  recategorization_callback : Bool
  suggested_name_provider : Option (FileEntry → Str)

/-- What the orchestrator changes: the database manager, the messages handed to the
progress callback, the number of calls made to the model client, the number of loads of
the stop flag, the seconds slept, the entries handed to the queue callback, the calls of
the recategorization callback and the session history of the run. -/
structure World where
  db : DatabaseManager
  progress : List Str
  llm_calls : Nat
  stop_loads : Nat
  slept : Nat
  queued : List FileEntry
  recategorized : List (CategorizedFile × Str)
  session : List (Str × List (Str × Str))

/-- Hand a message to the progress callback, if there is one. -/
def emit (env : Env) (w : World) (message : Str) : World :=
  if env.progress_callback then { w with progress := w.progress ++ [message] } else w

/-- The text built by `emit_progress_message`. -/
def progress_text (source item_name : Str) (resolved : ResolvedCategory) (item_path : Str) : Str :=
  let sub := if resolved.subcategory.isEmpty then "-".toList else resolved.subcategory
  let path_display := if item_path.isEmpty then "-".toList else item_path
  "[".toList ++ source ++ "] ".toList ++ item_name ++ "\n    Category : ".toList ++
    resolved.category ++ "\n    Subcat   : ".toList ++ sub ++ "\n    Path     : ".toList ++
    path_display

/-- `CategorizationService::emit_progress_message`. -/
def emit_progress_message (env : Env) (w : World) (source item_name : Str)
    (resolved : ResolvedCategory) (item_path : Str) : World :=
  emit env w (progress_text source item_name resolved item_path)

/-- `CategorizationService::try_cached_categorization`. -/
def try_cached_categorization (env : Env) (w : World) (item_name item_path dir_path : Str)
    (file_type : FileType) : Option ResolvedCategory × World :=
  match get_categorization_from_db w.db dir_path item_name file_type with
  | cached_category :: cached_subcategory :: _ =>
    let sanitized_category := env.sanitize cached_category
    let sanitized_subcategory := env.sanitize cached_subcategory
    if sanitized_category.isEmpty || sanitized_subcategory.isEmpty then (none, w)
    else if !(validate_labels sanitized_category sanitized_subcategory).valid then (none, w)
    else
      let resolved := resolve_category w.db sanitized_category sanitized_subcategory
      (some resolved.1,
        emit_progress_message env { w with db := resolved.2 } "CACHE".toList item_name
          resolved.1 item_path)
  | _ => (none, w)

/-- `CategorizationService::ensure_remote_credentials_for_request`. -/
def ensure_remote_credentials_for_request (env : Env) (w : World) (item_name : Str) :
    Bool × World :=
  if !is_remote_choice env.settings.llm_choice then (true, w)
  else if env.settings.llm_choice = LLMChoice.Remote_Custom then
    if env.settings.custom_endpoint_valid then (true, w)
    else (false, emit env w
      ("[REMOTE] ".toList ++ item_name ++ " (missing custom API settings)".toList))
  else
    let has_key :=
      if env.settings.llm_choice = LLMChoice.Remote_OpenAI then
        !env.settings.openai_api_key.isEmpty
      else !env.settings.gemini_api_key.isEmpty
    if has_key then (true, w)
    else
      let provider :=
        if env.settings.llm_choice = LLMChoice.Remote_OpenAI then "OpenAI".toList
        else "Gemini".toList
      (false, emit env w
        ("[REMOTE] ".toList ++ item_name ++ " (missing ".toList ++ provider ++
          " API key)".toList))

/-- `CategorizationService::run_llm_with_timeout`: one call of the model client. -/
def run_llm_with_timeout (env : Env) (w : World) : Except Exn Str × World :=
  let w2 := { w with llm_calls := w.llm_calls + 1 }
  match env.llm w.llm_calls with
  | LlmOutcome.reply text => (Except.ok text, w2)
  | LlmOutcome.timeout =>
    (Except.error (Exn.runtime "Timed out waiting for LLM response".toList), w2)
  | LlmOutcome.backoff seconds what => (Except.error (Exn.backoff seconds what), w2)
  | LlmOutcome.failure what => (Except.error (Exn.runtime what), w2)

/-- The whitelist step of `categorize_via_llm`. -/
def apply_whitelist (settings : Settings) (resolved : ResolvedCategory) : ResolvedCategory :=
  if settings.use_whitelist then
    let resolved :=
      if !is_allowed resolved.category settings.allowed_categories then
        { resolved with category := first_allowed_or_blank settings.allowed_categories }
      else resolved
    if !is_allowed resolved.subcategory settings.allowed_subcategories then
      { resolved with subcategory := first_allowed_or_blank settings.allowed_subcategories }
    else resolved
  else resolved

/-- `CategorizationService::categorize_via_llm`. -/
def categorize_via_llm (env : Env) (w : World) (display_name display_path : Str) :
    Except Exn ResolvedCategory × World :=
  match run_llm_with_timeout env w with
  | (Except.error ex, w) =>
    (Except.error ex,
      emit env w ("[LLM-ERROR] ".toList ++ display_name ++ " (".toList ++ ex.what ++ ")".toList))
  | (Except.ok category_subcategory, w) =>
    let parsed := split_category_subcategory env.sanitize category_subcategory
    let resolved := resolve_category w.db parsed.1 parsed.2
    let w := { w with db := resolved.2 }
    let resolved := apply_whitelist env.settings resolved.1
    let validation := validate_labels resolved.category resolved.subcategory
    if !validation.valid then
      (Except.ok ⟨-1, [], []⟩,
        emit env w ("[LLM-ERROR] ".toList ++ display_name ++
          " (invalid category/subcategory: ".toList ++ validation.error.toList ++ ")".toList))
    else
      let resolved :=
        if resolved.category.isEmpty then { resolved with category := "Uncategorized".toList }
        else resolved
      (Except.ok resolved, emit_progress_message env w "AI".toList display_name resolved
        display_path)

/-- The second half of `categorize_with_cache`, taken on a cache miss: the credential
check for a remote model, then `categorize_via_llm`. -/
def categorize_uncached (env : Env) (w : World) (is_local_llm : Bool)
    (display_name display_path : Str) : Except Exn ResolvedCategory × World :=
  if is_local_llm then categorize_via_llm env w display_name display_path
  else
    match ensure_remote_credentials_for_request env w display_name with
    | (false, w) => (Except.ok ⟨-1, [], []⟩, w)
    | (true, w) => categorize_via_llm env w display_name display_path

/-- `CategorizationService::categorize_with_cache`. -/
def categorize_with_cache (env : Env) (w : World) (is_local_llm : Bool)
    (display_name display_path dir_path : Str) (file_type : FileType) :
    Except Exn ResolvedCategory × World :=
  match try_cached_categorization env w display_name display_path dir_path file_type with
  | (some cached, w) => (Except.ok cached, w)
  | (none, w) => categorize_uncached env w is_local_llm display_name display_path

/-- `stop_flag.load()`. -/
def load_stop_flag (env : Env) (w : World) : Bool × World :=
  (env.stop_flag w.stop_loads, { w with stop_loads := w.stop_loads + 1 })

/-- The waiting loop of `categorize_single_entry` after a rate-limit error; the result is
`true` when the stop flag ended the wait. -/
def backoff_wait (env : Env) (file_name : Str) : Nat → World → Bool × World
  | 0, w => (false, w)
  | remaining + 1, w =>
    match load_stop_flag env w with
    | (true, w) => (true, w)
    | (false, w) =>
      let w :=
        if (remaining + 1) % 10 = 0 ∨ remaining + 1 ≤ 3 then
          emit env w ("[REMOTE] Retrying ".toList ++ file_name ++ " in ".toList ++
            (Nat.repr (remaining + 1)).toList ++ "s...".toList)
        else w
      backoff_wait env file_name remaining { w with slept := w.slept + 1 }

/-- The handler `catch (const BackoffError&)` up to the end of the waiting loop. -/
def backoff_handler (env : Env) (w : World) (file_name : Str) (retry_after_seconds : Int) :
    Bool × World :=
  let wait_seconds := if retry_after_seconds > 0 then retry_after_seconds else 60
  let w := emit env w ("[REMOTE] Rate limit hit. Waiting ".toList ++
    (Nat.repr wait_seconds.toNat).toList ++ "s before retrying ".toList ++ file_name ++
    "...".toList)
  backoff_wait env file_name wait_seconds.toNat w

/-- `CategorizationService::handle_empty_result`. -/
def handle_empty_result (env : Env) (w : World) (entry : FileEntry) (dir_path : Str)
    (resolved : ResolvedCategory) (used_consistency_hints : Bool) :
    Option CategorizedFile × World :=
  let invalid := decide (resolved.taxonomy_id = -1)
  if !resolved.category.isEmpty && !resolved.subcategory.isEmpty && !invalid then (none, w)
  else
    let reason :=
      if invalid then "Categorization returned invalid category/subcategory and was skipped.".toList
      else "Categorization returned no result.".toList
    let w := { w with db := remove_file_categorization w.db dir_path entry.file_name entry.type }
    let w :=
      if env.recategorization_callback then
        { w with recategorized := w.recategorized ++
            [({ CategorizedFile.init dir_path entry.file_name entry.type resolved.category
                  resolved.subcategory resolved.taxonomy_id with
                used_consistency_hints := used_consistency_hints }, reason)] }
      else w
    (none, w)

/-- `CategorizationService::extract_extension`. -/
def extract_extension (file_name : Str) : Str :=
  match str_rfind '.' file_name with
  | none => []
  | some pos => if pos + 1 ≥ file_name.length then [] else (file_name.drop pos).map tolower

/-- `CategorizationService::make_file_signature`. -/
def make_file_signature (file_type : FileType) (extension : Str) : Str :=
  let type_tag := if file_type = FileType.Directory then "DIR".toList else "FILE".toList
  let normalized_extension := if extension.isEmpty then "<none>".toList else extension
  type_tag ++ ":".toList ++ normalized_extension

/-- `constexpr size_t kMaxConsistencyHints = 5`. -/
def kMaxConsistencyHints : Nat := 5

/-- `CategorizationService::record_session_assignment`. -/
def record_session_assignment (sanitize : Str → Str) (history : List (Str × Str))
    (assignment : Str × Str) : List (Str × Str) :=
  let normalized := (sanitize assignment.1, sanitize assignment.2)
  if normalized.1.isEmpty then history
  else
    let normalized := if normalized.2.isEmpty then (normalized.1, normalized.1) else normalized
    let history := normalized :: history.filter (fun pair => pair ≠ normalized)
    if history.length > kMaxConsistencyHints then history.dropLast else history

/-- `CategorizationService::update_storage_with_result`. -/
def update_storage_with_result (env : Env) (w : World) (entry : FileEntry) (dir_path : Str)
    (resolved : ResolvedCategory) (used_consistency_hints : Bool) (suggested_name : Str) :
    World :=
  let db := insert_or_update_file_with_categorization w.db entry.file_name
    (file_type_code entry.type) dir_path resolved used_consistency_hints suggested_name
    false false
  let signature := make_file_signature entry.type (extract_extension entry.file_name)
  let session :=
    if !signature.isEmpty then
      map_set w.session signature
        (record_session_assignment env.sanitize ((map_find w.session signature).getD [])
          (resolved.category, resolved.subcategory))
    else w.session
  { w with db := db, session := session }

/-- The end of `categorize_single_entry`, after the retry loop has produced `resolved`. -/
def finish_single_entry (env : Env) (w : World) (entry : FileEntry) (dir_path : Str)
    (resolved : ResolvedCategory) (suggested_name : Str) : Option CategorizedFile × World :=
  let use_consistency_hints := env.settings.use_consistency_hints
  match handle_empty_result env w entry dir_path resolved use_consistency_hints with
  | (some retry, w) => (some retry, w)
  | (none, w) =>
    let w := update_storage_with_result env w entry dir_path resolved use_consistency_hints
      suggested_name
    (some { CategorizedFile.init dir_path entry.file_name entry.type resolved.category
              resolved.subcategory resolved.taxonomy_id with
            used_consistency_hints := use_consistency_hints
            suggested_name := suggested_name }, w)

/-- `CategorizationService::categorize_single_entry`: the retry loop runs its body at most
twice, because the second `BackoffError` is rethrown after its wait.  The assembly of the
prompt context (consistency hints, whitelist and language blocks, prompt override) only
feeds the model client and is not modelled. -/
def categorize_single_entry (env : Env) (w : World) (is_local_llm : Bool) (entry : FileEntry)
    (suggested_name : Str) : Except Exn (Option CategorizedFile) × World :=
  let dir_path := env.parent_path entry.full_path
  let display_path := env.abbreviate_user_path entry.full_path
  match categorize_with_cache env w is_local_llm entry.file_name display_path dir_path
      entry.type with
  | (Except.ok resolved, w) =>
    let done := finish_single_entry env w entry dir_path resolved suggested_name
    (Except.ok done.1, done.2)
  | (Except.error (Exn.runtime what), w) => (Except.error (Exn.runtime what), w)
  | (Except.error (Exn.backoff seconds _), w) =>
    match backoff_handler env w entry.file_name seconds with
    | (true, w) => (Except.ok none, w)
    | (false, w) =>
      match categorize_with_cache env w is_local_llm entry.file_name display_path dir_path
          entry.type with
      | (Except.ok resolved, w) =>
        let done := finish_single_entry env w entry dir_path resolved suggested_name
        (Except.ok done.1, done.2)
      | (Except.error (Exn.runtime what), w) => (Except.error (Exn.runtime what), w)
      | (Except.error (Exn.backoff seconds2 what2), w) =>
        match backoff_handler env w entry.file_name seconds2 with
        | (true, w) => (Except.ok none, w)
        | (false, w) => (Except.error (Exn.backoff seconds2 what2), w)

/-- The loop over the entries of `categorize_entries`. -/
def categorize_loop (env : Env) (is_local_llm : Bool) :
    List FileEntry → World → List CategorizedFile → Except Exn (List CategorizedFile) × World
  | [], w, categorized => (Except.ok categorized, w)
  | entry :: rest, w, categorized =>
    match load_stop_flag env w with
    | (true, w) => (Except.ok categorized, w)
    | (false, w) =>
      let w := if env.queue_callback then { w with queued := w.queued ++ [entry] } else w
      let suggested_name :=
        match env.suggested_name_provider with
        | some provider => provider entry
        | none => []
      match categorize_single_entry env w is_local_llm entry suggested_name with
      | (Except.error ex, w) => (Except.error ex, w)
      | (Except.ok (some categorized_entry), w) =>
        categorize_loop env is_local_llm rest w (categorized ++ [categorized_entry])
      | (Except.ok none, w) => categorize_loop env is_local_llm rest w categorized

/-- `CategorizationService::categorize_entries`. -/
def categorize_entries (env : Env) (w : World) (files : List FileEntry) (is_local_llm : Bool) :
    Except Exn (List CategorizedFile) × World :=
  if files.isEmpty then (Except.ok [], w)
  else
    match load_stop_flag env w with
    | (true, w) => (Except.ok [], w)
    | (false, w) =>
      if !env.llm_factory_ok then
        (Except.error (Exn.runtime "Failed to create LLM client.".toList), w)
      else categorize_loop env is_local_llm files { w with session := [] } []

/-! ## Reading and pruning the cache (`DatabaseManager.cpp`) -/

/-- `has_label_content`: something is left after `trim_copy`. -/
def has_label_content (value : Str) : Bool :=
  !(trim_copy value).isEmpty

/-- The reading of an INTEGER flag column in `build_categorized_entry`:
`sqlite3_column_type(...) != SQLITE_NULL` and `sqlite3_column_int(...) != 0`. -/
def column_flag (value : Option Int) : Bool :=
  match value with
  | some n => decide (n ≠ 0)
  | none => false

/-- `build_categorized_entry` on a row of the ten selected columns: a NULL text is read
as the empty string, a NULL `taxonomy_id` as 0; a row without rename-only mark, without
both labels and without suggestion is not reported. -/
def build_categorized_entry (row : CacheRow) : Option CategorizedFile :=
  let cat := row.category.getD []
  let subcat := row.subcategory.getD []
  let suggested := row.suggested_name.getD []
  let taxonomy_id := row.taxonomy_id.getD 0
  let used_consistency := column_flag row.categorization_style
  let rename_only := column_flag row.rename_only
  let rename_applied := column_flag row.rename_applied
  let has_labels := has_label_content cat && has_label_content subcat
  let has_suggestion := has_label_content suggested
  if !rename_only && !has_labels && !has_suggestion then none
  else
    let file_type_enum :=
      if row.file_type = "F".toList then FileType.File else FileType.Directory
    some { CategorizedFile.init row.dir_path row.file_name file_type_enum cat subcat
             taxonomy_id with
           from_cache := true
           used_consistency_hints := used_consistency
           suggested_name := suggested
           rename_only := rename_only
           rename_applied := rename_applied }

/-- `DatabaseManager::get_categorized_file`: the first row with the key (`LIMIT 1`),
through `build_categorized_entry`. -/
def get_categorized_file (db : DatabaseManager) (dir_path file_name : Str)
    (file_type : FileType) : Option CategorizedFile :=
  match db.file_categorization.find? (fun row =>
      row.dir_path = dir_path ∧ row.file_name = file_name ∧
        row.file_type = file_type_code file_type) with
  | some row => build_categorized_entry row
  | none => none

/-- SQLite's `TRIM(X)`: the spaces (0x20) at both ends are removed, nothing else. -/
def sql_trim (value : Str) : Str :=
  ((value.dropWhile (fun c => decide (c = ' '))).reverse.dropWhile
    (fun c => decide (c = ' '))).reverse

/-- `X IS NULL OR TRIM(X) = ''`. -/
def sql_null_or_blank (value : Option Str) : Bool :=
  match value with
  | none => true
  | some text => (sql_trim text).isEmpty

/-- The `WHERE` clause of `remove_empty_categorizations`. -/
def empty_categorization_filter (dir_path : Str) (row : CacheRow) : Bool :=
  decide (row.dir_path = dir_path) &&
    (sql_null_or_blank row.category || sql_null_or_blank row.subcategory) &&
    sql_null_or_blank row.suggested_name &&
    decide (row.rename_only.getD 0 = 0)

/-- The entry that `remove_empty_categorizations` builds from a selected row. -/
def removed_entry (dir_path : Str) (row : CacheRow) : CategorizedFile :=
  let entry_type :=
    if row.file_type = "D".toList then FileType.Directory else FileType.File
  CategorizedFile.init dir_path row.file_name entry_type (row.category.getD [])
    (row.subcategory.getD []) (row.taxonomy_id.getD 0)

/-- `DatabaseManager::remove_empty_categorizations`: the selected rows in table order,
then one `remove_file_categorization` for each of them. -/
def remove_empty_categorizations (db : DatabaseManager) (dir_path : Str) :
    List CategorizedFile × DatabaseManager :=
  let removed :=
    (db.file_categorization.filter (empty_categorization_filter dir_path)).map
      (removed_entry dir_path)
  (removed, removed.foldl (fun db entry =>
    remove_file_categorization db entry.file_path entry.file_name entry.type) db)

/-- `DatabaseManager::get_categorized_files`: the rows of the directory, in table order,
through `build_categorized_entry`. -/
def get_categorized_files (db : DatabaseManager) (directory_path : Str) :
    List CategorizedFile :=
  (db.file_categorization.filter (fun row => decide (row.dir_path = directory_path))).filterMap
    build_categorized_entry

/-! ## The whitelist block of the prompt (`CategorizationService.cpp`) -/

/-- The loop `for (size_t i = ...; i < items.size(); ++i) oss << (i + 1) << ") " << items[i]
<< "\n"` of `build_whitelist_context`, started at index `i` with the items from index `i`
on. -/
def numbered_loop : List Str → Nat → Str
  | [], _ => []
  | item :: rest, i =>
    (Nat.repr (i + 1)).toList ++ ") ".toList ++ item ++ "\n".toList ++ numbered_loop rest (i + 1)

/-- `CategorizationService::build_whitelist_context`. -/
def build_whitelist_context (settings : Settings) : Str :=
  let cats := settings.allowed_categories
  let subs := settings.allowed_subcategories
  let oss : Str :=
    if !cats.isEmpty then
      "Allowed main categories (pick exactly one label from the numbered list):\n".toList ++
        numbered_loop cats 0
    else []
  if !subs.isEmpty then
    oss ++ "Allowed subcategories (pick exactly one label from the numbered list):\n".toList ++
      numbered_loop subs 0
  else
    oss ++ ("Allowed subcategories: any (pick a specific, relevant subcategory; " ++
      "do not repeat the main category).").toList

/-! ## Definitions used to state and to prove the theorems -/

/-- The `if (trimmed.empty()) trimmed = dflt` step of `resolve_category`. -/
def trimmed_or (dflt value : Str) : Str :=
  if (trim_copy value).isEmpty then dflt else trim_copy value

/-- The four targets of `kCategorySynonyms`. -/
def synonymTargets : List CanonicalCategoryLabel :=
  [archivesLabel, documentsLabel, softwareLabel, imagesLabel]

/-- What the two table lookups of `resolve_existing_taxonomy` yield for a key:
the alias binding if there is one, the canonical binding otherwise. -/
def lookup_key (db : DatabaseManager) (key : Str) : Option Int :=
  match map_find db.alias_lookup key with
  | some id => some id
  | none => map_find db.canonical_lookup key

/-- The key under which an entry is registered in `canonical_lookup`. -/
def entry_key (e : TaxonomyEntry) : Str :=
  make_key e.normalized_category e.normalized_subcategory

/-- The states reachable from a fresh database by calls of `resolve_category`. -/
inductive Reachable : DatabaseManager → Prop
  | empty : Reachable DatabaseManager.empty
  | step (db : DatabaseManager) (category subcategory : Str) :
      Reachable db → Reachable (resolve_category db category subcategory).2

/-- `ReachableFrom db db2`: `db2` is `db` after any number (possibly zero) of
`resolve_category` calls. -/
inductive ReachableFrom (db : DatabaseManager) : DatabaseManager → Prop
  | refl : ReachableFrom db db
  | step (db2 : DatabaseManager) (category subcategory : Str) :
      ReachableFrom db db2 → ReachableFrom db (resolve_category db2 category subcategory).2

/-- Consistency of the in-memory caches with each other and with the table. -/
structure Inv (db : DatabaseManager) : Prop where
  tables_eq : db.category_taxonomy = db.taxonomy_entries
  seq_nonneg : 0 ≤ db.taxonomy_seq
  ids_pos : ∀ e ∈ db.taxonomy_entries, 0 < e.id ∧ e.id ≤ db.taxonomy_seq
  index_ok : ∀ e ∈ db.taxonomy_entries, find_taxonomy_entry db e.id = some e
  canon_ok : ∀ e ∈ db.taxonomy_entries,
    map_find db.canonical_lookup (entry_key e) = some e.id
  canon_src : ∀ k id, map_find db.canonical_lookup k = some id →
    ∃ e ∈ db.taxonomy_entries, e.id = id
  alias_src : ∀ k id, map_find db.alias_lookup k = some id →
    ∃ e ∈ db.taxonomy_entries, e.id = id
  disjoint : ∀ k id, map_find db.alias_lookup k = some id →
    map_find db.canonical_lookup k = none
  self_key : ∀ e ∈ db.taxonomy_entries,
    (resolve_input e.category e.subcategory).norm_category = e.normalized_category ∧
    (resolve_input e.category e.subcategory).match_subcategory = e.normalized_subcategory

/-- What one call of the resolver with key `key` establishes. -/
structure StepOk (db : DatabaseManager) (key : Str)
    (out : ResolvedCategory × DatabaseManager) : Prop where
  inv : Inv out.2
  entry : ∃ e ∈ out.2.taxonomy_entries,
    out.1 = ⟨e.id, e.category, e.subcategory⟩ ∧ lookup_key out.2 key = some e.id
  entries_mono : ∀ e ∈ db.taxonomy_entries, e ∈ out.2.taxonomy_entries
  lookup_mono : ∀ k id, lookup_key db k = some id → lookup_key out.2 k = some id

/-- The manager after a successful INSERT of `create_taxonomy_entry`. -/
def created_state (db : DatabaseManager) (fc fs nc ms : Str) : DatabaseManager :=
  { db with
    category_taxonomy := db.category_taxonomy ++ [⟨db.taxonomy_seq + 1, fc, fs, nc, ms⟩]
    taxonomy_seq := db.taxonomy_seq + 1
    taxonomy_index := map_set db.taxonomy_index (db.taxonomy_seq + 1) db.taxonomy_entries.length
    taxonomy_entries := db.taxonomy_entries ++ [⟨db.taxonomy_seq + 1, fc, fs, nc, ms⟩]
    canonical_lookup := map_set db.canonical_lookup (make_key nc ms) (db.taxonomy_seq + 1) }

/-- The key under which `resolve_category` files a raw pair. -/
def resolve_key (category subcategory : Str) : Str :=
  make_key (resolve_input category subcategory).norm_category
    (resolve_input category subcategory).match_subcategory

/-- The final trimming of `normalize_label`. -/
def trim_blanks (r : Str) : Str :=
  ((r.dropWhile (fun c => c == ' ')).reverse.dropWhile (fun c => c == ' ')).reverse

/-- The normalized form, or else its stop-word-stripped form, is a key of the synonym table
with target `t`. -/
def SynonymFor (normalized : Str) (t : CanonicalCategoryLabel) : Prop :=
  synonym_find normalized = some t ∨
    synonym_find (strip_trailing_stopwords normalized) = some t

/-- The conditions of the claim on a label: non-empty, no leading or trailing white space
(trimming changes nothing), at least one letter, no colon, no newline, unchanged by
path-label sanitation. -/
structure ReplyLabel (sanitize : Str → Str) (l : Str) : Prop where
  nonempty : l ≠ []
  trimmed : trim_copy l = l
  alpha : has_alpha l = true
  no_colon : ':' ∉ l
  no_newline : '\n' ∉ l
  sanitized : sanitize l = l

/-- The reply `"Category: X\nSubcategory: Y"`. -/
def reply_labelled (x y : Str) : Str :=
  "Category: ".toList ++ x ++ "\nSubcategory: ".toList ++ y

/-- The reply `"X : Y"`. -/
def reply_spaced (x y : Str) : Str := x ++ " : ".toList ++ y

/-- The reply `"X:Y"`. -/
def reply_tight (x y : Str) : Str := x ++ ":".toList ++ y

/-- A label is a case-insensitive member of a list. -/
def CaseInsensitiveMember (value : Str) (allowed : List Str) : Prop :=
  ∃ item ∈ allowed, to_lower_copy_str item = to_lower_copy_str value

/-- The row of the cache for a key (the key is UNIQUE in the table). -/
def cached_row (db : DatabaseManager) (dir_path file_name : Str) (file_type : FileType) :
    Option CacheRow :=
  db.file_categorization.find? (fun row =>
    row.dir_path = dir_path ∧ row.file_name = file_name ∧
      row.file_type = file_type_code file_type)

/-- The acceptance rule of the specification: a row exists for the key, both of its labels
are non-empty after sanitation and the sanitized labels pass `validate_labels`. -/
def CacheAccepted (env : Env) (db : DatabaseManager) (dir_path file_name : Str)
    (file_type : FileType) : Prop :=
  ∃ row, cached_row db dir_path file_name file_type = some row ∧
    env.sanitize (row.category.getD []) ≠ [] ∧
    env.sanitize (row.subcategory.getD []) ≠ [] ∧
    (validate_labels (env.sanitize (row.category.getD []))
      (env.sanitize (row.subcategory.getD []))).valid = true

/-- The directory part of a POSIX path with a directory part and no trailing slash
(a stand-in for `std::filesystem::path::parent_path` in the scenario below). -/
def posix_parent_path (path : Str) : Str :=
  match str_rfind '/' path with
  | none => []
  | some pos => path.take pos

/-- Scenario A: a local model, no whitelist, no hints, a progress callback. -/
def scenarioA_env : Env :=
  { settings := ⟨LLMChoice.Local, [], [], false, false, [], [], false⟩
    sanitize := sanitize_path_label
    parent_path := posix_parent_path
    abbreviate_user_path := fun path => path
    llm := fun _ => LlmOutcome.reply "Images : Photos".toList
    stop_flag := fun _ => false
    llm_factory_ok := true
    progress_callback := true
    queue_callback := false
    recategorization_callback := false
    suggested_name_provider := none }

/-- Scenario A: the cache holds the row `("/d", "a.jpg", File, "Images", "Photos", 42)`;
the taxonomy is empty. -/
def scenarioA_world : World :=
  { db := { DatabaseManager.empty with
      file_categorization :=
        [⟨"a.jpg".toList, "F".toList, "/d".toList, some "Images".toList,
          some "Photos".toList, some [], some 42, some 0, some 0, some 0⟩] }
    progress := []
    llm_calls := 0
    stop_loads := 0
    slept := 0
    queued := []
    recategorized := []
    session := [] }

/-- The row stored in the cache under a key whose `file_type` is given as text (the key is
UNIQUE in the table). -/
def stored_row (db : DatabaseManager) (file_name file_type dir_path : Str) : Option CacheRow :=
  db.file_categorization.find? (fun row =>
    row.file_name = file_name ∧ row.file_type = file_type ∧ row.dir_path = dir_path)

/-- The arguments of one call of `insert_or_update_file_with_categorization`. -/
structure UpsertCall where
  file_name : Str
  file_type : Str
  dir_path : Str
  resolved : ResolvedCategory
  used_consistency_hints : Bool
  suggested_name : Str
  rename_only : Bool
  rename_applied : Bool

/-- A sequence of upserts, in order. -/
def run_upserts (db : DatabaseManager) (calls : List UpsertCall) : DatabaseManager :=
  calls.foldl (fun db call =>
    insert_or_update_file_with_categorization db call.file_name call.file_type call.dir_path
      call.resolved call.used_consistency_hints call.suggested_name call.rename_only
      call.rename_applied) db

/-- The row that an upsert writes when the key is new. -/
def fresh_row (file_name file_type dir_path : Str) (resolved : ResolvedCategory)
    (used_consistency_hints : Bool) (suggested_name : Str) (rename_only rename_applied : Bool) :
    CacheRow :=
  { file_name := file_name
    file_type := file_type
    dir_path := dir_path
    category := some resolved.category
    subcategory := some resolved.subcategory
    suggested_name := some suggested_name
    taxonomy_id := if resolved.taxonomy_id > 0 then some resolved.taxonomy_id else none
    categorization_style := some (if used_consistency_hints then 1 else 0)
    rename_only := some (if rename_only then 1 else 0)
    rename_applied := some (if rename_applied then 1 else 0) }

/-- The seconds that the handler of a rate-limit error waits: `retry_after_seconds` when
that is positive, 60 otherwise. -/
def wait_seconds (retry_after_seconds : Int) : Nat :=
  (if retry_after_seconds > 0 then retry_after_seconds else 60).toNat

/-- The stop flag is seen set by one of the `n` loads that start with load number `first`. -/
def StopDuring (env : Env) (first n : Nat) : Prop :=
  ∃ i, i < n ∧ env.stop_flag (first + i) = true

/-- The labels that `categorize_via_llm` derives from a reply on the database `db`: the
reply is parsed, the pair is resolved and the whitelist is applied. -/
def reply_labels (env : Env) (db : DatabaseManager) (text : Str) : ResolvedCategory :=
  apply_whitelist env.settings
    (resolve_category db (split_category_subcategory env.sanitize text).1
      (split_category_subcategory env.sanitize text).2).1

/-- Scenario D: a local model that answers `"Images:Images"`, with a progress callback and
a recategorization callback. -/
def scenarioD_env : Env :=
  { scenarioA_env with
    llm := fun _ => LlmOutcome.reply "Images:Images".toList
    recategorization_callback := true }

/-- Scenario D: the cache holds a stale row for `("/d", "a.jpg", File)` with the labels
`"Images"`, `"Images"`, which the cache lookup does not accept. -/
def scenarioD_world : World :=
  { scenarioA_world with
    db := { DatabaseManager.empty with
      file_categorization :=
        [⟨"a.jpg".toList, "F".toList, "/d".toList, some "Images".toList,
          some "Images".toList, some [], some 1, some 0, some 0, some 0⟩] } }

/-- Scenario C: a remote model (an OpenAI key is set) whose first call raises a rate-limit
error with `retry_after = 2` and whose second call answers `"Images:Photos"`; the stop
flag is never set. -/
def scenarioC_env : Env :=
  { scenarioA_env with
    settings := ⟨LLMChoice.Remote_OpenAI, "key".toList, [], false, false, [], [], false⟩
    llm := fun n =>
      if n = 0 then LlmOutcome.backoff 2 "rate limit".toList
      else LlmOutcome.reply "Images:Photos".toList }

/-- A remote model that raises a rate-limit error with `retry_after = 2` on every call,
and a stop flag that is set from its third load on, that is during the second wait. -/
def stoppedRetry_env : Env :=
  { scenarioC_env with
    llm := fun _ => LlmOutcome.backoff 2 "rate limit".toList
    stop_flag := fun n => decide (2 ≤ n) }

/-- A world with an empty database. -/
def fresh_world : World :=
  { scenarioA_world with db := DatabaseManager.empty }

/-! ## Backend selection and layer estimation (`LocalLLMClient.cpp`, off Metal)

The process environment is a list of bindings; the probes and the library calls whose code
is not part of the sources are the fields of `GpuHost`.  `size_t` values are natural
numbers and a `double` is an exact rational.  Two calls are undefined in C++ for some
arguments, and the model takes for them what the program built with GCC and libstdc++ for
x86-64 computes: `std::clamp` with bounds out of order (`std_clamp`) and the conversion
to `int32_t` of a `double` outside the range of `int32_t` (`double_to_int32`). -/

/-- `INT_MIN` of a 32-bit `int`. -/
def INT_MIN : Int := -2147483648

/-- `INT_MAX` of a 32-bit `int`. -/
def INT_MAX : Int := 2147483647

/-- The environment of the process: the variables that are set, with their values. -/
abbrev ProcessEnv := List (Str × Str)

/-- `std::getenv`. -/
def getenv (env : ProcessEnv) (key : String) : Option Str :=
  map_find env key.toList

/-- `set_env_var` (`setenv(key, value, 1)`). -/
def set_env_var (env : ProcessEnv) (key value : String) : ProcessEnv :=
  map_set env key.toList value.toList

/-- The C library's `strtol(value, &end_ptr, 10)` with an exact result: leading white space
is skipped, an optional sign and the decimal digits are read; the result is the number read
and the text at `end_ptr`, or `none` when no digit was read (`end_ptr == value`). -/
def strtol (value : Str) : Option (Int × Str) :=
  let body := value.dropWhile isspace
  let negative := decide (body.head? = some '-')
  let unsigned :=
    if body.head? = some '-' ∨ body.head? = some '+' then body.drop 1 else body
  let digits := unsigned.takeWhile isdigit
  if digits.isEmpty then none
  else
    let magnitude : Nat := digits.foldl (fun acc c => acc * 10 + (c.toNat - '0'.toNat)) 0
    some (if negative then -(magnitude : Int) else (magnitude : Int),
      unsigned.dropWhile isdigit)

/-- `try_parse_env_int`: the parsed value, or `none` for `return false`.  A value outside
the range of `long` (`ERANGE`) is in particular outside the range of `int`. -/
def try_parse_env_int (env : ProcessEnv) (key : String) : Option Int :=
  match getenv env key with
  | none => none
  | some value =>
    if value.isEmpty then none
    else
      match strtol value with
      | none => none
      | some (parsed, rest) =>
        if !rest.isEmpty then none
        else if parsed > INT_MAX ∨ parsed < INT_MIN then none
        else some parsed

/-- `resolve_gpu_layer_override`; `INT_MIN` stands for "no override". -/
def resolve_gpu_layer_override (env : ProcessEnv) : Int :=
  match try_parse_env_int env "AI_FILE_SORTER_N_GPU_LAYERS" with
  | some parsed => parsed
  | none =>
    match try_parse_env_int env "LLAMA_CPP_N_GPU_LAYERS" with
    | some parsed => parsed
    | none => INT_MIN

/-- `enum class PreferredBackend`. -/
inductive PreferredBackend
  | Auto
  | Cpu
  | Cuda
  | Vulkan
deriving DecidableEq, Repr

/-- `detect_preferred_backend`. -/
def detect_preferred_backend (env : ProcessEnv) : PreferredBackend :=
  match getenv env "AI_FILE_SORTER_GPU_BACKEND" with
  | none => PreferredBackend.Auto
  | some value =>
    if value.isEmpty then PreferredBackend.Auto
    else if value.map tolower = "cuda".toList then PreferredBackend.Cuda
    else if value.map tolower = "vulkan".toList then PreferredBackend.Vulkan
    else if value.map tolower = "cpu".toList then PreferredBackend.Cpu
    else PreferredBackend.Auto

/-- The flag `cuda_forced_off` of `build_model_params_for_path`:
`disable_env && disable_env[0] != '\0' && disable_env[0] != '0'`. -/
def cuda_forced_off (env : ProcessEnv) : Bool :=
  match getenv env "GGML_DISABLE_CUDA" with
  | some (first :: _) => decide (first ≠ '0')
  | _ => false

/-- Modelled from the spec: `Utils::CudaMemoryInfo` is declared in `Utils.hpp`, which is not
among the sources; the sources read its members `free_bytes` and `total_bytes` (`size_t`)
and call `valid()`, which is kept as a probe of `GpuHost`. -/
structure CudaMemoryInfo where
  free_bytes : Nat
  total_bytes : Nat
deriving DecidableEq, Repr

/-- `TestHooks::BackendMemoryInfo` (`TestHooks.hpp`). -/
structure BackendMemoryInfo where
  memory : CudaMemoryInfo
  is_integrated : Bool
  name : Str
deriving DecidableEq, Repr

/-- What `build_model_params_for_path` asks of the machine and of code outside the sources:
`resolve_backend_available("Vulkan")`, `resolve_backend_memory("vulkan")`,
`Utils::is_cuda_available()`, `Utils::query_cuda_memory()`, `CudaMemoryInfo::valid()`,
`Utils::compute_ngl_from_cuda_memory`, `Utils::determine_ngl_cuda()`, the size of the model
file (`none`: the size is unavailable), `extract_block_count(model_path)` and the
`n_gpu_layers` of `llama_model_default_params()`. -/
structure GpuHost where
  vulkan_available : Bool
  vulkan_memory : Option BackendMemoryInfo
  cuda_available : Bool
  cuda_memory : Option CudaMemoryInfo
  memory_valid : CudaMemoryInfo → Bool
  compute_ngl_from_cuda_memory : CudaMemoryInfo → Int
  determine_ngl_cuda : Int
  file_size : Option Nat
  block_count : Option Int
  default_n_gpu_layers : Int

/-- `struct AutoGpuLayerEstimation`. -/
structure AutoGpuLayerEstimation where
  layers : Int
  reason : String
deriving DecidableEq, Repr

/-- `struct LayerMetrics`. -/
structure LayerMetrics where
  total_layers : Int
  bytes_per_layer : ℚ

/-- `struct CudaBudget`. -/
structure CudaBudget where
  approx_free : ℚ
  usable_total : ℚ
  budget_bytes : ℚ

/-- `std::clamp(v, lo, hi)` as libstdc++ computes it, `std::min(std::max(v, lo), hi)`,
with `std::max(a, b)` being `(a < b) ? b : a` and `std::min(a, b)` being `(b < a) ? b : a`.
For `lo <= hi` this is the value that the C++ standard defines; the standard leaves the
call undefined when `hi < lo`, where this implementation returns `hi`. -/
def std_clamp {α : Type} [LT α] [DecidableRel (fun a b : α => a < b)] (v lo hi : α) : α :=
  let raised := if v < lo then lo else v
  if hi < raised then hi else raised

/-- `static_cast<int32_t>(x)` for a `double` `x` whose value is the integer `value` (the
result of `std::floor`): the value itself when it lies in the range of `int32_t`.
Outside that range the conversion is undefined in C++; the x86-64 conversion instruction
then delivers `INT_MIN` (the "integer indefinite" value `0x80000000`). -/
def double_to_int32 (value : Int) : Int :=
  if INT_MIN ≤ value ∧ value ≤ INT_MAX then value else INT_MIN

/-- `populate_layer_metrics`; `Except.error result` stands for `return false` with the
`result` written so far. -/
def populate_layer_metrics (host : GpuHost) : Except AutoGpuLayerEstimation LayerMetrics :=
  match host.file_size with
  | none => Except.error ⟨-1, "model file size unavailable"⟩
  | some file_size =>
    match host.block_count with
    | none => Except.error ⟨-1, "model block count not found"⟩
    | some block_count =>
      if block_count ≤ 0 then Except.error ⟨-1, "model block count not found"⟩
      else Except.ok ⟨block_count, (file_size : ℚ) / (block_count : ℚ)⟩

/-- `compute_cuda_budget`; `valid` is `memory_info.valid()`, `Except.error result` stands
for `return false`. -/
def compute_cuda_budget (valid : Bool) (memory_info : CudaMemoryInfo) (bytes_per_layer : ℚ) :
    Except AutoGpuLayerEstimation CudaBudget :=
  if !valid then Except.error ⟨-1, "CUDA memory metrics unavailable"⟩
  else
    let approx_free : ℚ := (memory_info.free_bytes : ℚ)
    let total_bytes : ℚ := (memory_info.total_bytes : ℚ)
    let total_bytes := if total_bytes ≤ 0 then approx_free else total_bytes
    let usable_total := max total_bytes approx_free
    if usable_total ≤ 0 then Except.error ⟨0, "CUDA memory metrics invalid"⟩
    else
      let approx_free :=
        if approx_free ≤ 0 then usable_total * (80 / 100)
        else if approx_free > usable_total then usable_total
        else approx_free
      if approx_free ≤ 0 ∨ bytes_per_layer ≤ 0 then
        Except.error ⟨0, "insufficient CUDA memory metrics"⟩
      else
        let safety_reserve := max (usable_total * (5 / 100)) (192 * 1024 * 1024)
        let budget_bytes := approx_free - safety_reserve
        let budget_bytes := if budget_bytes ≤ 0 then approx_free * (75 / 100) else budget_bytes
        let max_budget := min (approx_free * (98 / 100)) (usable_total * (90 / 100))
        let min_budget := usable_total * (45 / 100)
        Except.ok ⟨approx_free, usable_total, std_clamp budget_bytes min_budget max_budget⟩

/-- `finalize_cuda_estimate`: the value returned and the `result` written. -/
def finalize_cuda_estimate (metrics : LayerMetrics) (budget : CudaBudget) :
    Bool × AutoGpuLayerEstimation :=
  let denominator := metrics.bytes_per_layer * (108 / 100)
  if denominator ≤ 0 then (false, ⟨0, "invalid CUDA layer parameters"⟩)
  else
    let estimated_layers : Int :=
      double_to_int32 (Rat.floor (budget.budget_bytes / denominator))
    if estimated_layers ≤ 0 then (false, ⟨0, "insufficient CUDA memory budget"⟩)
    else
      (true, ⟨std_clamp estimated_layers 1 metrics.total_layers,
        "estimated from CUDA memory headroom"⟩)

/-- `estimate_gpu_layers_for_cuda`. -/
def estimate_gpu_layers_for_cuda (host : GpuHost) (memory_info : CudaMemoryInfo) :
    AutoGpuLayerEstimation :=
  match populate_layer_metrics host with
  | Except.error result => result
  | Except.ok metrics =>
    match compute_cuda_budget (host.memory_valid memory_info) memory_info
        metrics.bytes_per_layer with
    | Except.error result => result
    | Except.ok budget => (finalize_cuda_estimate metrics budget).2

/-- The member of `llama_model_params` that the sources set. -/
structure llama_model_params where
  n_gpu_layers : Int
deriving DecidableEq, Repr

/-- What the backend selection changes: the parameters and the process environment. -/
structure BackendState where
  params : llama_model_params
  env : ProcessEnv

/-- `apply_cpu_backend`. -/
def apply_cpu_backend (s : BackendState) (backend_pref : PreferredBackend) :
    Bool × BackendState :=
  if backend_pref ≠ PreferredBackend.Cpu then (false, s)
  else (true, ⟨⟨0⟩, set_env_var s.env "GGML_DISABLE_CUDA" "1"⟩)

/-- `apply_vulkan_override`. -/
def apply_vulkan_override (params : llama_model_params) (override_layers : Int) :
    Bool × llama_model_params :=
  if override_layers = INT_MIN then (false, params)
  else if override_layers ≤ 0 then (true, ⟨0⟩)
  else (true, ⟨override_layers⟩)

/-- `cap_integrated_gpu_memory`: an integrated GPU is capped at 4 GiB. -/
def cap_integrated_gpu_memory (backend_memory : BackendMemoryInfo) : CudaMemoryInfo :=
  if !backend_memory.is_integrated then backend_memory.memory
  else
    ⟨min backend_memory.memory.free_bytes (4 * 1024 * 1024 * 1024),
      min backend_memory.memory.total_bytes (4 * 1024 * 1024 * 1024)⟩

/-- `finalize_vulkan_layers`. -/
def finalize_vulkan_layers (estimation : AutoGpuLayerEstimation) : llama_model_params :=
  if estimation.layers > 0 then ⟨estimation.layers⟩ else ⟨-1⟩

/-- The two `set_env_var` calls that steer llama.cpp to a device. -/
def steer_device (env : ProcessEnv) (device : String) : ProcessEnv :=
  set_env_var (set_env_var env "AI_FILE_SORTER_GPU_BACKEND" device) "LLAMA_ARG_DEVICE" device

/-- `apply_vulkan_backend`. -/
def apply_vulkan_backend (host : GpuHost) (s : BackendState) : Bool × BackendState :=
  let env := set_env_var s.env "GGML_DISABLE_CUDA" "1"
  if !host.vulkan_available then (false, ⟨⟨0⟩, steer_device env "cpu"⟩)
  else
    let vk_memory := host.vulkan_memory
    match apply_vulkan_override s.params (resolve_gpu_layer_override env) with
    | (true, params) => (true, ⟨params, env⟩)
    | (false, _) =>
      match vk_memory with
      | none => (false, ⟨⟨0⟩, steer_device env "cpu"⟩)
      | some memory =>
        let adjusted := cap_integrated_gpu_memory memory
        let estimation := estimate_gpu_layers_for_cuda host adjusted
        (true, ⟨finalize_vulkan_layers estimation, env⟩)

/-- `handle_cuda_forced_off`. -/
def handle_cuda_forced_off (forced_off : Bool) (s : BackendState) : Bool × BackendState :=
  if !forced_off then (false, s)
  else (true, ⟨⟨0⟩, set_env_var s.env "GGML_DISABLE_CUDA" "1"⟩)

/-- `disable_cuda_backend`. -/
def disable_cuda_backend (s : BackendState) : BackendState :=
  ⟨⟨0⟩, set_env_var s.env "GGML_DISABLE_CUDA" "1"⟩

/-- `ensure_cuda_available`. -/
def ensure_cuda_available (host : GpuHost) (s : BackendState) : Bool × BackendState :=
  if host.cuda_available then (true, s) else (false, disable_cuda_backend s)

/-- `apply_ngl_override`. -/
def apply_ngl_override (override_layers : Int) (s : BackendState) : Bool × BackendState :=
  if override_layers = INT_MIN then (false, s)
  else if override_layers ≤ 0 then (true, disable_cuda_backend s)
  else (true, ⟨⟨override_layers⟩, s.env⟩)

/-- `struct NglEstimationResult`. -/
structure NglEstimationResult where
  candidate_layers : Int
  heuristic_layers : Int

/-- `estimate_ngl_from_cuda_info`. -/
def estimate_ngl_from_cuda_info (host : GpuHost) : NglEstimationResult :=
  match host.cuda_memory with
  | none => ⟨0, 0⟩
  | some cuda_info =>
    let estimation := estimate_gpu_layers_for_cuda host cuda_info
    let heuristic_layers := host.compute_ngl_from_cuda_memory cuda_info
    let candidate_layers := if estimation.layers > 0 then estimation.layers else 0
    let candidate_layers :=
      if heuristic_layers > 0 then max candidate_layers heuristic_layers else candidate_layers
    ⟨candidate_layers, heuristic_layers⟩

/-- `fallback_ngl`. -/
def fallback_ngl (host : GpuHost) (heuristic_layers : Int) : Int :=
  if heuristic_layers > 0 then heuristic_layers else host.determine_ngl_cuda

/-- `configure_cuda_backend`. -/
def configure_cuda_backend (host : GpuHost) (s : BackendState) : Bool × BackendState :=
  match ensure_cuda_available host s with
  | (false, s) => (false, s)
  | (true, s) =>
    match apply_ngl_override (resolve_gpu_layer_override s.env) s with
    | (true, s) => (true, s)
    | (false, s) =>
      let estimation := estimate_ngl_from_cuda_info host
      let ngl := estimation.candidate_layers
      let ngl := if ngl ≤ 0 then fallback_ngl host estimation.heuristic_layers else ngl
      if ngl > 0 then (true, ⟨⟨ngl⟩, s.env⟩) else (true, disable_cuda_backend s)

/-- `LocalLLMClient::build_model_params_for_path` without `GGML_USE_METAL`, for the model
file and the machine described by `host`, started in the environment `env`. -/
def build_model_params_for_path (host : GpuHost) (env : ProcessEnv) : BackendState :=
  let s : BackendState := ⟨⟨host.default_n_gpu_layers⟩, env⟩
  let backend_pref := detect_preferred_backend env
  let forced_off := cuda_forced_off env
  match apply_cpu_backend s backend_pref with
  | (true, s) => s
  | (false, s) =>
    if backend_pref = PreferredBackend.Vulkan then (apply_vulkan_backend host s).2
    else
      match handle_cuda_forced_off forced_off s with
      | (true, s) => s
      | (false, s) =>
        let prefer_vulkan := backend_pref = PreferredBackend.Vulkan ∨
          backend_pref = PreferredBackend.Auto
        if prefer_vulkan then
          (apply_vulkan_backend host ⟨s.params, steer_device s.env "vulkan"⟩).2
        else
          match handle_cuda_forced_off forced_off s with
          | (true, s) => s
          | (false, s) =>
            match configure_cuda_backend host s with
            | (true, s) => s
            | (false, s) =>
              (apply_vulkan_backend host ⟨s.params, steer_device s.env "vulkan"⟩).2

/-- The machine of the repository's Vulkan test: a Vulkan device with 3 GiB, a model file
of 8 MiB with 48 blocks; CUDA is available, without memory metrics and without heuristics.
`valid()` accepts a report with a positive total or a positive free size. -/
def test_host : GpuHost :=
  { vulkan_available := true
    vulkan_memory :=
      some ⟨⟨3 * 1024 * 1024 * 1024, 3 * 1024 * 1024 * 1024⟩, false, "Vulkan Test GPU".toList⟩
    cuda_available := true
    cuda_memory := none
    memory_valid := fun memory => decide (0 < memory.total_bytes ∨ 0 < memory.free_bytes)
    compute_ngl_from_cuda_memory := fun _ => 0
    determine_ngl_cuda := 0
    file_size := some (8 * 1024 * 1024)
    block_count := some 48
    default_n_gpu_layers := 999 }

/-- A model of 100 GiB with 10 blocks, for a device with 1 GiB. -/
def large_model_host : GpuHost :=
  { test_host with
    file_size := some (100 * 1024 * 1024 * 1024)
    block_count := some 10 }

/-- Build an environment from `(name, value)` pairs. -/
def make_env (bindings : List (String × String)) : ProcessEnv :=
  bindings.map (fun binding => (binding.1.toList, binding.2.toList))

/-! ## Loading the model (`LocalLLMClient.cpp`) -/

/-- The memory seen through the pointer `tname`: the name, its terminator, and the bytes
that follow the terminator. -/
def c_string_at (name : Str) (beyond : Nat → Char) (index : Nat) : Char :=
  if index < name.length then name.getD index (Char.ofNat 0)
  else if index = name.length then Char.ofNat 0
  else beyond (index - name.length - 1)

/-- The state of the scan of one name: the pointer (as an index), `current`, and the
indices read so far. -/
structure ScanState where
  p : Nat
  current : Int
  reads : List Nat

/-- The inner loop `while (*p && std::isdigit(*p)) { value = value * 10 + (*p - '0'); ++p; }`;
`fuel` bounds the number of iterations. -/
def scan_digits (mem : Nat → Char) : Nat → Nat → Int → List Nat → Nat × Int × List Nat
  | 0, p, value, reads => (p, value, reads)
  | fuel + 1, p, value, reads =>
    if mem p ≠ Char.ofNat 0 ∧ isdigit (mem p) = true then
      scan_digits mem fuel (p + 1) (value * 10 + ((mem p).toNat - '0'.toNat : Nat))
        (reads ++ [p])
    else (p, value, reads ++ [p])

/-- The outer loop `for (const char* p = tname; *p; ++p)` with its body; `fuel` bounds the
number of iterations of each loop. -/
def scan_name (mem : Nat → Char) : Nat → ScanState → ScanState
  | 0, s => s
  | fuel + 1, s =>
    if mem s.p = Char.ofNat 0 then { s with reads := s.reads ++ [s.p] }
    else
      let s := { s with reads := s.reads ++ [s.p] }
      if isdigit (mem s.p) then
        let inner := scan_digits mem (fuel + 1) s.p 0 s.reads
        scan_name mem fuel ⟨inner.1 + 1, max s.current inner.2.1, inner.2.2⟩
      else scan_name mem fuel ⟨s.p + 1, s.current, s.reads⟩

/-- The arguments `(budget_bytes, min_budget, max_budget)` with which `compute_cuda_budget`
calls `std::clamp`, or `none` when the function returns before the call. -/
def cuda_clamp_arguments (valid : Bool) (memory_info : CudaMemoryInfo) (bytes_per_layer : ℚ) :
    Option (ℚ × ℚ × ℚ) :=
  if !valid then none
  else
    let approx_free : ℚ := (memory_info.free_bytes : ℚ)
    let total_bytes : ℚ := (memory_info.total_bytes : ℚ)
    let total_bytes := if total_bytes ≤ 0 then approx_free else total_bytes
    let usable_total := max total_bytes approx_free
    if usable_total ≤ 0 then none
    else
      let approx_free :=
        if approx_free ≤ 0 then usable_total * (80 / 100)
        else if approx_free > usable_total then usable_total
        else approx_free
      if approx_free ≤ 0 ∨ bytes_per_layer ≤ 0 then none
      else
        let safety_reserve := max (usable_total * (5 / 100)) (192 * 1024 * 1024)
        let budget_bytes := approx_free - safety_reserve
        let budget_bytes := if budget_bytes ≤ 0 then approx_free * (75 / 100) else budget_bytes
        let max_budget := min (approx_free * (98 / 100)) (usable_total * (90 / 100))
        let min_budget := usable_total * (45 / 100)
        some (budget_bytes, min_budget, max_budget)

/-- The combined score of an entry in the words of the specification,
`(similarity(cat, entry.norm_cat) + similarity(sub, entry.norm_sub)) / 2`, with the
similarities, the sum and the halving in the `double` arithmetic of the program. -/
def fuzzy_score (norm_category norm_subcategory : Str) (entry : TaxonomyEntry) : ℚ :=
  round_double
    (round_double
      (string_similarity round_double norm_category entry.normalized_category +
        string_similarity round_double norm_subcategory entry.normalized_subcategory) / 2)

/-- A sequence of `record_session_assignment` calls on one history, in order. -/
def record_all (sanitize : Str → Str) (history : List (Str × Str))
    (assignments : List (Str × Str)) : List (Str × Str) :=
  assignments.foldl (record_session_assignment sanitize) history

/-- A local model that answers `"Images:Photos"`, with the whitelist on and `Documents` as
the only allowed category (any subcategory is allowed). -/
def whitelist_env : Env :=
  { scenarioA_env with
    settings := ⟨LLMChoice.Local, [], [], false, true, ["Documents".toList], [], false⟩
    llm := fun _ => LlmOutcome.reply "Images:Photos".toList }

/-- The numbered list in the words of the specification: the lines `"i) c_i"` for
`i = 1..n` in list order, each ended by a newline. -/
def numbered_lines (items : List Str) : Str :=
  ((List.range items.length).map (fun k =>
    (Nat.repr (k + 1)).toList ++ ") ".toList ++ items.getD k [] ++ "\n".toList)).flatten

/-- A token of a normalized string: non-empty and without white space. -/
def IsToken (t : Str) : Prop :=
  t ≠ [] ∧ ∀ c ∈ t, isspace c = false

/-- The classic Levenshtein distance to `x :: xs`, as a function of the second string,
given the distance `f` to `xs`: see `lev`. `n` is the length of `x :: xs`. -/
def lev_cons (x : Char) (n : Nat) (f : Str → Nat) : Str → Nat
  | [] => n
  | y :: ys =>
    min (min (f (y :: ys) + 1) (lev_cons x n f ys + 1)) (f ys + if x = y then 0 else 1)

/-- The classic Levenshtein distance in the words of the specification (insert, delete and
substitute cost 1 each):
`lev [] b = |b|`, `lev a [] = |a|`, and
`lev (x :: xs) (y :: ys) = min (lev xs (y :: ys) + 1, lev (x :: xs) ys + 1,
lev xs ys + (0 if x = y, else 1))`. -/
def lev : Str → Str → Nat
  | [] => fun b => b.length
  | x :: xs => lev_cons x (xs.length + 1) (lev xs)

/-- The row of the distance matrix for the prefix `p` of the first string, from the column
of the prefix `q` of the second string on; `s` is what follows `q` in the second string. -/
def row_from (p q : Str) : Str → List Nat
  | [] => [lev p q]
  | y :: s => lev p q :: row_from p (q ++ [y]) s

theorem trim_copy_eq (value : Str) :
    trim_copy value = (value.dropWhile isspace).rdropWhile isspace := rfl

theorem dropWhile_concat {α : Type} (p : α → Bool) (t : List α) (a : α) :
    (t ++ [a]).dropWhile p =
      if (∀ x ∈ t, p x = true) then [a].dropWhile p else t.dropWhile p ++ [a] := by
  induction t with
  | nil => simp
  | cons b t ih =>
    by_cases hb : p b = true
    · simp only [List.cons_append, List.dropWhile_cons, hb, if_true, ih, List.mem_cons,
        forall_eq_or_imp, true_and]
    · simp [List.dropWhile_cons, hb]

theorem dropWhile_rdropWhile_comm {α : Type} (p : α → Bool) (l : List α) :
    (l.rdropWhile p).dropWhile p = (l.dropWhile p).rdropWhile p := by
  induction l using List.reverseRecOn with
  | nil => simp [List.rdropWhile]
  | append_singleton t a ih =>
    by_cases ha : p a = true
    · rw [List.rdropWhile_concat_pos p t a ha, ih, dropWhile_concat]
      by_cases hall : ∀ x ∈ t, p x = true
      · have h1 : t.dropWhile p = [] := List.dropWhile_eq_nil_iff.mpr hall
        have h3 : [a].dropWhile p = [] := by simp [List.dropWhile_cons, ha]
        rw [if_pos hall, h1, h3]
      · rw [if_neg hall, List.rdropWhile_concat_pos p _ a ha]
    · rw [List.rdropWhile_concat_neg p t a ha, dropWhile_concat]
      by_cases hall : ∀ x ∈ t, p x = true
      · have h2 : [a].dropWhile p = [] ++ [a] := by simp [List.dropWhile_cons, ha]
        rw [if_pos hall, h2, List.rdropWhile_concat_neg p _ a ha]
      · rw [if_neg hall, List.rdropWhile_concat_neg p _ a ha]

/-- Trimming twice is trimming once. -/
theorem trim_copy_idem (value : Str) : trim_copy (trim_copy value) = trim_copy value := by
  simp only [trim_copy_eq]
  rw [dropWhile_rdropWhile_comm, List.dropWhile_idempotent, List.rdropWhile_idempotent]

theorem trimmed_or_of_trimmed (dflt value : Str) (h1 : trim_copy value = value)
    (h2 : value.isEmpty = false) : trimmed_or dflt value = value := by
  unfold trimmed_or
  rw [h1, h2]
  simp

theorem trimmed_or_fix (dflt value : Str) (hd : trim_copy dflt = dflt)
    (hne : dflt.isEmpty = false) :
    trimmed_or dflt (trimmed_or dflt value) = trimmed_or dflt value := by
  unfold trimmed_or
  by_cases h : (trim_copy value).isEmpty = true
  · simp [h, hd, hne]
  · simp [h, trim_copy_idem]

theorem trimmed_or_ne (dflt value : Str) (hne : dflt.isEmpty = false) :
    (trimmed_or dflt value).isEmpty = false := by
  unfold trimmed_or
  by_cases h : (trim_copy value).isEmpty = true
  · simp [h, hne]
  · simp only [h]
    simpa using h

theorem resolve_input_eq (category subcategory : Str) :
    resolve_input category subcategory =
      (let tc := trimmed_or "Uncategorized".toList category
       let ts := trimmed_or "General".toList subcategory
       let canon := canonicalize_category_label (normalize_label tc) (normalize_label ts)
       ⟨if !canon.display.isEmpty then canon.display else tc, ts, canon.normalized,
        normalize_label ts, strip_trailing_stopwords (normalize_label ts)⟩) := rfl

/-! ## Lemmas on the synonym table -/

theorem map_find_mem {κ ν : Type} [DecidableEq κ] (m : List (κ × ν)) (key : κ) (v : ν)
    (h : map_find m key = some v) : (key, v) ∈ m := by
  induction m with
  | nil => simp [map_find] at h
  | cons kv rest ih =>
    obtain ⟨k, w⟩ := kv
    unfold map_find at h
    by_cases hk : k = key
    · simp only [hk, if_true, Option.some.injEq] at h
      simp [hk, h]
    · simp only [hk, if_false] at h
      exact List.mem_cons_of_mem _ (ih h)

theorem synonym_values : ∀ kv ∈ kCategorySynonyms, kv.2 ∈ synonymTargets := by decide

theorem synonym_find_target (key : Str) (label : CanonicalCategoryLabel)
    (h : synonym_find key = some label) : label ∈ synonymTargets :=
  synonym_values (key, label) (map_find_mem _ _ _ h)

/-- What every target of the table satisfies: its display name is trimmed and non-empty,
normalizes to its normalized name, and the normalized name is itself a key of the table
for the same target. -/
theorem synonym_target_fix : ∀ label ∈ synonymTargets,
    trim_copy label.display = label.display ∧ label.display.isEmpty = false ∧
    normalize_label label.display = label.normalized ∧
    synonym_find label.normalized = some label := by decide

/-- The result of `canonicalize_category_label` is a target of the table or the
unchanged normalized category with an empty display name. -/
theorem canonicalize_cases (nc ns : Str) :
    canonicalize_category_label nc ns ∈ synonymTargets ∨
      canonicalize_category_label nc ns = ⟨nc, []⟩ := by
  unfold canonicalize_category_label
  cases h1 : synonym_find nc with
  | some label => exact Or.inl (synonym_find_target _ _ h1)
  | none =>
    simp only
    cases h2 : synonym_find (strip_trailing_stopwords nc) with
    | some label => exact Or.inl (synonym_find_target _ _ h2)
    | none =>
      simp only
      split
      · exact Or.inl (by decide)
      · exact Or.inr rfl

theorem canonicalize_of_target (label : CanonicalCategoryLabel) (hl : label ∈ synonymTargets)
    (ns : Str) : canonicalize_category_label label.normalized ns = label := by
  unfold canonicalize_category_label
  rw [(synonym_target_fix label hl).2.2.2]

/-- Resolving the display strings that `resolve_input` produced leads to the same
normalized category and the same match subcategory. -/
theorem resolve_input_fix (category subcategory : Str) :
    let inp := resolve_input category subcategory
    (resolve_input inp.trimmed_category inp.trimmed_subcategory).norm_category =
      inp.norm_category ∧
    (resolve_input inp.trimmed_category inp.trimmed_subcategory).match_subcategory =
      inp.match_subcategory := by
  have hts := trimmed_or_fix "General".toList subcategory (by decide) (by decide)
  have htc := trimmed_or_fix "Uncategorized".toList category (by decide) (by decide)
  simp only [resolve_input_eq]
  refine ⟨?_, by rw [hts]⟩
  rw [hts]
  rcases canonicalize_cases (normalize_label (trimmed_or "Uncategorized".toList category))
      (normalize_label (trimmed_or "General".toList subcategory)) with hmem | heq
  · obtain ⟨h1, h2, h3, _⟩ := synonym_target_fix _ hmem
    simp only [h2, Bool.not_false, if_true]
    have : trimmed_or "Uncategorized".toList
        (canonicalize_category_label (normalize_label (trimmed_or "Uncategorized".toList category))
          (normalize_label (trimmed_or "General".toList subcategory))).display =
        (canonicalize_category_label (normalize_label (trimmed_or "Uncategorized".toList category))
          (normalize_label (trimmed_or "General".toList subcategory))).display := by
      exact trimmed_or_of_trimmed _ _ h1 h2
    rw [this, h3, canonicalize_of_target _ hmem]
  · rw [heq]
    simp only [List.isEmpty_nil, Bool.not_true, Bool.false_eq_true, if_false]
    rw [htc, heq]

/-! ## The invariant of the taxonomy caches -/

theorem inv_empty : Inv DatabaseManager.empty := by
  constructor <;> simp [DatabaseManager.empty, map_find]

theorem fuzzy_fold_id (a b : Str) (entries : List TaxonomyEntry) (init : Int × ℚ)
    (pool : List TaxonomyEntry) (hsub : ∀ e ∈ entries, e ∈ pool)
    (hinit : init.1 = -1 ∨ ∃ e ∈ pool, e.id = init.1) :
    (entries.foldl (fuzzy_step a b) init).1 = -1 ∨
      ∃ e ∈ pool, e.id = (entries.foldl (fuzzy_step a b) init).1 := by
  induction entries generalizing init with
  | nil => simpa using hinit
  | cons x rest ih =>
    simp only [List.foldl_cons]
    apply ih
    · intro e he
      exact hsub e (List.mem_cons_of_mem _ he)
    · unfold fuzzy_step
      simp only
      split
      · exact Or.inr ⟨x, hsub x (List.mem_cons_self _ _), rfl⟩
      · exact hinit

/-- `find_fuzzy_match` answers `-1` or the id of an entry. -/
theorem find_fuzzy_match_id (db : DatabaseManager) (a b : Str) :
    (find_fuzzy_match db a b).1 = -1 ∨
      ∃ e ∈ db.taxonomy_entries, e.id = (find_fuzzy_match db a b).1 := by
  unfold find_fuzzy_match
  split
  · exact Or.inl rfl
  · simp only
    split
    · exact fuzzy_fold_id a b db.taxonomy_entries (-1, 0) db.taxonomy_entries
        (fun e he => he) (Or.inl rfl)
    · exact Or.inl rfl

theorem resolve_existing_src (db : DatabaseManager) (hinv : Inv db) (key a b : Str)
    (hne : resolve_existing_taxonomy db key a b ≠ -1) :
    ∃ e ∈ db.taxonomy_entries, e.id = resolve_existing_taxonomy db key a b := by
  unfold resolve_existing_taxonomy at hne ⊢
  cases h1 : map_find db.alias_lookup key with
  | some id => simpa using hinv.alias_src key id h1
  | none =>
    simp only [h1] at hne ⊢
    cases h2 : map_find db.canonical_lookup key with
    | some id => simpa using hinv.canon_src key id h2
    | none =>
      simp only [h2] at hne ⊢
      rcases find_fuzzy_match_id db a b with h | h
      · exact absurd h hne
      · exact h

theorem resolve_existing_of_lookup (db : DatabaseManager) (key a b : Str) (id : Int)
    (h : lookup_key db key = some id) : resolve_existing_taxonomy db key a b = id := by
  unfold lookup_key at h
  unfold resolve_existing_taxonomy
  cases h1 : map_find db.alias_lookup key with
  | some x => simpa [h1] using h
  | none =>
    simp only [h1] at h ⊢
    simp [h]

theorem lookup_key_src (db : DatabaseManager) (hinv : Inv db) (key : Str) (id : Int)
    (h : lookup_key db key = some id) : ∃ e ∈ db.taxonomy_entries, e.id = id := by
  unfold lookup_key at h
  cases h1 : map_find db.alias_lookup key with
  | some x =>
    simp only [h1, Option.some.injEq] at h
    exact h ▸ hinv.alias_src key x h1
  | none =>
    simp only [h1] at h
    exact hinv.canon_src key id h

theorem entry_id_ne_neg_one (db : DatabaseManager) (hinv : Inv db) (e : TaxonomyEntry)
    (he : e ∈ db.taxonomy_entries) : e.id ≠ -1 := by
  have := (hinv.ids_pos e he).1
  omega

theorem resolve_existing_miss (db : DatabaseManager) (hinv : Inv db) (key a b : Str)
    (h : resolve_existing_taxonomy db key a b = -1) : lookup_key db key = none := by
  cases hl : lookup_key db key with
  | none => rfl
  | some id =>
    obtain ⟨e, he, hid⟩ := lookup_key_src db hinv key id hl
    have := resolve_existing_of_lookup db key a b id hl
    have hne := entry_id_ne_neg_one db hinv e he
    rw [this, ← hid] at h
    exact absurd h hne

/-- Two entries of a consistent state with the same id are the same entry. -/
theorem entry_unique (db : DatabaseManager) (hinv : Inv db) (e1 e2 : TaxonomyEntry)
    (h1 : e1 ∈ db.taxonomy_entries) (h2 : e2 ∈ db.taxonomy_entries) (hid : e1.id = e2.id) :
    e1 = e2 := by
  have a := hinv.index_ok e1 h1
  have b := hinv.index_ok e2 h2
  rw [hid, b] at a
  exact (Option.some.inj a).symm

theorem find_taxonomy_entry_congr (db db2 : DatabaseManager)
    (h1 : db2.taxonomy_index = db.taxonomy_index)
    (h2 : db2.taxonomy_entries = db.taxonomy_entries) (id : Int) :
    find_taxonomy_entry db2 id = find_taxonomy_entry db id := by
  unfold find_taxonomy_entry
  rw [h1, h2]

theorem ensure_alias_spec (db : DatabaseManager) (hinv : Inv db) (tid : Int)
    (e : TaxonomyEntry) (he : e ∈ db.taxonomy_entries) (hid : e.id = tid) (nc ms : Str)
    (hl : lookup_key db (make_key nc ms) = some tid ∨ lookup_key db (make_key nc ms) = none) :
    Inv (ensure_alias_mapping db tid nc ms) ∧
    (ensure_alias_mapping db tid nc ms).taxonomy_entries = db.taxonomy_entries ∧
    (ensure_alias_mapping db tid nc ms).taxonomy_index = db.taxonomy_index ∧
    lookup_key (ensure_alias_mapping db tid nc ms) (make_key nc ms) = some tid ∧
    (∀ k id, lookup_key db k = some id →
      lookup_key (ensure_alias_mapping db tid nc ms) k = some id) := by
  unfold ensure_alias_mapping
  simp only
  by_cases hc : map_find db.canonical_lookup (make_key nc ms) = some tid
  · rw [if_pos hc]
    refine ⟨hinv, rfl, rfl, ?_, fun k id h => h⟩
    unfold lookup_key
    cases ha : map_find db.alias_lookup (make_key nc ms) with
    | some x =>
      have := hinv.disjoint _ _ ha
      rw [this] at hc
      exact absurd hc (by simp)
    | none => simpa using hc
  · rw [if_neg hc]
    cases ha : map_find db.alias_lookup (make_key nc ms) with
    | some x =>
      simp only [Option.isSome_some, if_true]
      refine ⟨hinv, trivial, trivial, ?_, fun k id h => h⟩
      rcases hl with hl | hl
      · exact hl
      · unfold lookup_key at hl
        simp [ha] at hl
    | none =>
      simp only [Option.isSome_none, Bool.false_eq_true, if_false]
      have hcn : map_find db.canonical_lookup (make_key nc ms) = none := by
        rcases hl with hl | hl
        · unfold lookup_key at hl
          simp only [ha] at hl
          exact absurd hl hc
        · unfold lookup_key at hl
          simpa [ha] using hl
      refine ⟨?_, trivial, trivial, ?_, ?_⟩
      · refine ⟨hinv.tables_eq, hinv.seq_nonneg, hinv.ids_pos, ?_, hinv.canon_ok,
          hinv.canon_src, ?_, ?_, hinv.self_key⟩
        · intro e2 he2
          exact hinv.index_ok e2 he2
        · intro k id hk
          simp only [map_set, map_find] at hk
          by_cases hkk : make_key nc ms = k
          · simp only [hkk, if_true, Option.some.injEq] at hk
            exact ⟨e, he, hid.trans hk⟩
          · simp only [hkk, if_false] at hk
            exact hinv.alias_src k id hk
        · intro k id hk
          simp only [map_set, map_find] at hk
          by_cases hkk : make_key nc ms = k
          · rw [← hkk]
            exact hcn
          · simp only [hkk, if_false] at hk
            exact hinv.disjoint k id hk
      · simp [lookup_key, map_set, map_find]
      · intro k id hk
        by_cases hkk : make_key nc ms = k
        · subst hkk
          unfold lookup_key at hk
          simp [ha, hcn] at hk
        · unfold lookup_key at hk ⊢
          simp only [map_set, map_find, hkk, if_false]
          exact hk

theorem build_existing (db : DatabaseManager) (hinv : Inv db) (tid : Int)
    (e : TaxonomyEntry) (he : e ∈ db.taxonomy_entries) (hid : e.id = tid)
    (fc fs nc ms : Str)
    (hl : lookup_key db (make_key nc ms) = some tid ∨ lookup_key db (make_key nc ms) = none) :
    StepOk db (make_key nc ms) (build_resolved_category db tid fc fs nc ms) := by
  have hne : tid ≠ -1 := hid ▸ entry_id_ne_neg_one db hinv e he
  obtain ⟨h1, h2, h3, h4, h5⟩ := ensure_alias_spec db hinv tid e he hid nc ms hl
  have hfind : find_taxonomy_entry (ensure_alias_mapping db tid nc ms) tid = some e := by
    rw [find_taxonomy_entry_congr _ _ h3 h2, ← hid]
    exact hinv.index_ok e he
  unfold build_resolved_category
  simp only [hne, if_false, ne_eq, not_false_eq_true, if_true, hfind]
  refine ⟨h1, ⟨e, ?_, rfl, ?_⟩, ?_, h5⟩
  · rw [h2]
    exact he
  · rw [hid]
    exact h4
  · intro e2 he2
    rw [h2]
    exact he2

theorem create_eq (db : DatabaseManager) (hinv : Inv db) (fc fs nc ms : Str)
    (hc : map_find db.canonical_lookup (make_key nc ms) = none) :
    create_taxonomy_entry db fc fs nc ms = (db.taxonomy_seq + 1, created_state db fc fs nc ms) := by
  have hany : db.category_taxonomy.any
      (fun row => row.normalized_category = nc ∧ row.normalized_subcategory = ms) = false := by
    rw [Bool.eq_false_iff]
    intro h
    rw [List.any_eq_true] at h
    obtain ⟨row, hrow, hp⟩ := h
    rw [hinv.tables_eq] at hrow
    have hk := hinv.canon_ok row hrow
    simp only [decide_eq_true_eq] at hp
    unfold entry_key at hk
    rw [hp.1, hp.2, hc] at hk
    exact absurd hk (by simp)
  unfold create_taxonomy_entry
  rw [hany]
  rfl

theorem created_find (db : DatabaseManager) (fc fs nc ms : Str) :
    find_taxonomy_entry (created_state db fc fs nc ms) (db.taxonomy_seq + 1) =
      some ⟨db.taxonomy_seq + 1, fc, fs, nc, ms⟩ := by
  simp [find_taxonomy_entry, created_state, map_set, map_find]

theorem created_find_old (db : DatabaseManager) (hinv : Inv db) (fc fs nc ms : Str)
    (e : TaxonomyEntry) (he : e ∈ db.taxonomy_entries) :
    find_taxonomy_entry (created_state db fc fs nc ms) e.id = some e := by
  have hid := (hinv.ids_pos e he).2
  have hold := hinv.index_ok e he
  unfold find_taxonomy_entry at hold ⊢
  have hne : ¬ (db.taxonomy_seq + 1 = e.id) := by omega
  simp only [created_state, map_set, map_find, hne, if_false]
  cases hi : map_find db.taxonomy_index e.id with
  | none => simp [hi] at hold
  | some idx =>
    simp only [hi] at hold ⊢
    have hlt : idx < db.taxonomy_entries.length := by
      by_contra hge
      rw [List.getElem?_eq_none (by omega)] at hold
      exact absurd hold (by simp)
    rw [List.getElem?_append_left hlt]
    exact hold

theorem created_inv (db : DatabaseManager) (hinv : Inv db) (fc fs nc ms : Str)
    (hmiss : lookup_key db (make_key nc ms) = none)
    (hfix : (resolve_input fc fs).norm_category = nc ∧
      (resolve_input fc fs).match_subcategory = ms) :
    Inv (created_state db fc fs nc ms) := by
  have ha : map_find db.alias_lookup (make_key nc ms) = none := by
    unfold lookup_key at hmiss
    cases h : map_find db.alias_lookup (make_key nc ms) with
    | none => rfl
    | some x => simp [h] at hmiss
  have hc : map_find db.canonical_lookup (make_key nc ms) = none := by
    unfold lookup_key at hmiss
    simpa [ha] using hmiss
  have hseq := hinv.seq_nonneg
  refine ⟨?_, ?_, ?_, ?_, ?_, ?_, ?_, ?_, ?_⟩
  · simp [created_state, hinv.tables_eq]
  · simp only [created_state]
    omega
  · intro e he
    simp only [created_state, List.mem_append, List.mem_singleton] at he ⊢
    rcases he with he | he
    · have := hinv.ids_pos e he
      omega
    · subst he
      simp only
      omega
  · intro e he
    simp only [created_state, List.mem_append, List.mem_singleton] at he
    rcases he with he | he
    · exact created_find_old db hinv fc fs nc ms e he
    · subst he
      exact created_find db fc fs nc ms
  · intro e he
    simp only [created_state, List.mem_append, List.mem_singleton] at he
    rcases he with he | he
    · have hk := hinv.canon_ok e he
      have hne : ¬ (make_key nc ms = entry_key e) := by
        intro heq
        rw [← heq, hc] at hk
        exact absurd hk (by simp)
      simp only [created_state, map_set, map_find, hne, if_false]
      exact hk
    · subst he
      simp [created_state, map_set, map_find, entry_key]
  · intro k id hk
    simp only [created_state, map_set, map_find] at hk
    by_cases hkk : make_key nc ms = k
    · simp only [hkk, if_true, Option.some.injEq] at hk
      exact ⟨⟨db.taxonomy_seq + 1, fc, fs, nc, ms⟩, by simp [created_state], hk⟩
    · simp only [hkk, if_false] at hk
      obtain ⟨e, he, hid⟩ := hinv.canon_src k id hk
      exact ⟨e, by simp [created_state, he], hid⟩
  · intro k id hk
    obtain ⟨e, he, hid⟩ := hinv.alias_src k id hk
    exact ⟨e, by simp [created_state, he], hid⟩
  · intro k id hk
    have hk2 : map_find db.alias_lookup k = some id := hk
    have hne : ¬ (make_key nc ms = k) := by
      intro heq
      rw [← heq, ha] at hk2
      exact absurd hk2 (by simp)
    simp only [created_state, map_set, map_find, hne, if_false]
    exact hinv.disjoint k id hk2
  · intro e he
    simp only [created_state, List.mem_append, List.mem_singleton] at he
    rcases he with he | he
    · exact hinv.self_key e he
    · subst he
      exact hfix

theorem build_create (db : DatabaseManager) (hinv : Inv db) (fc fs nc ms : Str)
    (hmiss : lookup_key db (make_key nc ms) = none)
    (hfix : (resolve_input fc fs).norm_category = nc ∧
      (resolve_input fc fs).match_subcategory = ms) :
    StepOk db (make_key nc ms) (build_resolved_category db (-1) fc fs nc ms) := by
  have ha : map_find db.alias_lookup (make_key nc ms) = none := by
    unfold lookup_key at hmiss
    cases h : map_find db.alias_lookup (make_key nc ms) with
    | none => rfl
    | some x => simp [h] at hmiss
  have hc : map_find db.canonical_lookup (make_key nc ms) = none := by
    unfold lookup_key at hmiss
    simpa [ha] using hmiss
  have hseq := hinv.seq_nonneg
  have hne : db.taxonomy_seq + 1 ≠ -1 := by omega
  have hens : ensure_alias_mapping (created_state db fc fs nc ms) (db.taxonomy_seq + 1) nc ms =
      created_state db fc fs nc ms := by
    unfold ensure_alias_mapping
    simp [created_state, map_set, map_find]
  unfold build_resolved_category
  simp only [if_true, create_eq db hinv fc fs nc ms hc, hne, ne_eq, not_false_eq_true, hens,
    created_find]
  refine ⟨created_inv db hinv fc fs nc ms hmiss hfix, ⟨⟨db.taxonomy_seq + 1, fc, fs, nc, ms⟩,
    by simp [created_state], rfl, ?_⟩, ?_, ?_⟩
  · unfold lookup_key
    simp only [created_state, map_set, map_find, if_true]
    have : map_find db.alias_lookup (make_key nc ms) = none := ha
    simp [this]
  · intro e he
    simp [created_state, he]
  · intro k id hk
    have hne2 : ¬ (make_key nc ms = k) := by
      intro heq
      rw [← heq, hmiss] at hk
      exact absurd hk (by simp)
    unfold lookup_key at hk ⊢
    simp only [created_state, map_set, map_find, hne2, if_false]
    exact hk

/-- One call of the second half of the resolver keeps the invariant, answers with an
entry of the taxonomy and leaves the key of the call bound to that entry. -/
theorem resolve_prepared_ok (db : DatabaseManager) (hinv : Inv db) (inp : ResolveInput)
    (hfix : (resolve_input inp.trimmed_category inp.trimmed_subcategory).norm_category =
        inp.norm_category ∧
      (resolve_input inp.trimmed_category inp.trimmed_subcategory).match_subcategory =
        inp.match_subcategory) :
    StepOk db (make_key inp.norm_category inp.match_subcategory) (resolve_prepared db inp) := by
  unfold resolve_prepared
  simp only
  by_cases h0 : resolve_existing_taxonomy db (make_key inp.norm_category inp.match_subcategory)
      inp.norm_category inp.match_subcategory = -1
  · have hmiss := resolve_existing_miss db hinv _ _ _ h0
    by_cases hraw : inp.match_subcategory ≠ inp.norm_subcategory
    · rw [if_pos ⟨h0, hraw⟩]
      by_cases h1 : resolve_existing_taxonomy db (make_key inp.norm_category inp.norm_subcategory)
          inp.norm_category inp.norm_subcategory = -1
      · rw [h1]
        exact build_create db hinv _ _ _ _ hmiss hfix
      · obtain ⟨e, he, hid⟩ := resolve_existing_src db hinv _ _ _ h1
        exact build_existing db hinv _ e he hid _ _ _ _ (Or.inr hmiss)
    · rw [if_neg (fun h => hraw h.2), h0]
      exact build_create db hinv _ _ _ _ hmiss hfix
  · rw [if_neg (fun h => h0 h.1)]
    obtain ⟨e, he, hid⟩ := resolve_existing_src db hinv _ _ _ h0
    refine build_existing db hinv _ e he hid _ _ _ _ ?_
    cases hl : lookup_key db (make_key inp.norm_category inp.match_subcategory) with
    | none => exact Or.inr rfl
    | some x =>
      left
      rw [resolve_existing_of_lookup db _ inp.norm_category inp.match_subcategory x hl]

theorem resolve_category_ok (db : DatabaseManager) (hinv : Inv db) (category subcategory : Str) :
    StepOk db (resolve_key category subcategory) (resolve_category db category subcategory) :=
  resolve_prepared_ok db hinv _ (resolve_input_fix category subcategory)

theorem reachable_inv (db : DatabaseManager) (h : Reachable db) : Inv db := by
  induction h with
  | empty => exact inv_empty
  | step db c s _ ih => exact (resolve_category_ok db ih c s).inv

/-- A call whose key is already bound answers with the bound entry. -/
theorem resolve_category_hit (db : DatabaseManager) (hinv : Inv db) (category subcategory : Str)
    (e : TaxonomyEntry) (he : e ∈ db.taxonomy_entries)
    (hl : lookup_key db (resolve_key category subcategory) = some e.id) :
    (resolve_category db category subcategory).1 = ⟨e.id, e.category, e.subcategory⟩ := by
  have hok := resolve_category_ok db hinv category subcategory
  obtain ⟨e2, he2, hres, hl2⟩ := hok.entry
  have hl3 := hok.lookup_mono _ _ hl
  rw [hl3] at hl2
  have hid : e.id = e2.id := Option.some.inj hl2
  have := entry_unique _ hok.inv e e2 (hok.entries_mono e he) he2 hid
  rw [hres, this]

theorem reachableFrom_ok (db db2 : DatabaseManager) (hinv : Inv db)
    (h : ReachableFrom db db2) :
    Inv db2 ∧ (∀ e ∈ db.taxonomy_entries, e ∈ db2.taxonomy_entries) ∧
      (∀ k id, lookup_key db k = some id → lookup_key db2 k = some id) := by
  induction h with
  | refl => exact ⟨hinv, fun e he => he, fun k id h => h⟩
  | step db3 c s _ ih =>
    obtain ⟨i1, i2, i3⟩ := ih
    have hok := resolve_category_ok db3 i1 c s
    exact ⟨hok.inv, fun e he => hok.entries_mono e (i2 e he),
      fun k id h => hok.lookup_mono k id (i3 k id h)⟩

/-- Two calls with the same key, the second after any number of other calls, give the
same answer. -/
theorem same_key_same_answer (db db2 : DatabaseManager) (hinv : Inv db) (c1 s1 c2 s2 : Str)
    (hkey : resolve_key c2 s2 = resolve_key c1 s1)
    (h : ReachableFrom (resolve_category db c1 s1).2 db2) :
    (resolve_category db2 c2 s2).1 = (resolve_category db c1 s1).1 := by
  have hok := resolve_category_ok db hinv c1 s1
  obtain ⟨e, he, hres, hl⟩ := hok.entry
  obtain ⟨i1, i2, i3⟩ := reachableFrom_ok _ db2 hok.inv h
  rw [hres]
  apply resolve_category_hit db2 i1 c2 s2 e (i2 e he)
  rw [hkey]
  exact i3 _ _ hl

theorem is_image_like_strip (ns : Str) :
    is_image_like_label ns = kImageLike.contains (strip_trailing_stopwords ns) := by
  unfold is_image_like_label
  by_cases h0 : ns.isEmpty = true
  · have : ns = [] := by simpa using h0
    subst this
    decide
  · rw [if_neg h0]
    by_cases h1 : kImageLike.contains ns = true
    · rw [if_pos h1]
      have hclosed : ∀ k ∈ kImageLike, kImageLike.contains (strip_trailing_stopwords k) = true := by
        decide
      have hmem : ns ∈ kImageLike := by simpa using h1
      exact (hclosed ns hmem).symm
    · rw [if_neg h1]

theorem canonicalize_strip_congr (nc ns1 ns2 : Str)
    (h : strip_trailing_stopwords ns1 = strip_trailing_stopwords ns2) :
    canonicalize_category_label nc ns1 = canonicalize_category_label nc ns2 := by
  unfold canonicalize_category_label
  rw [is_image_like_strip ns1, is_image_like_strip ns2, h]

/-- Subcategories with the same stop-word-stripped normalized form lead to the same key. -/
theorem resolve_key_congr (c s1 s2 : Str)
    (h : (resolve_input c s1).match_subcategory = (resolve_input c s2).match_subcategory) :
    resolve_key c s2 = resolve_key c s1 := by
  unfold resolve_key
  rw [← h]
  have hc : (resolve_input c s2).norm_category = (resolve_input c s1).norm_category := by
    simp only [resolve_input_eq] at h ⊢
    rw [canonicalize_strip_congr _ _ _ h]
  rw [hc]

/-! ## Normalisation ignores surrounding white space -/

theorem rdropWhile_split {α : Type} (p : α → Bool) (l : List α) :
    ∃ w, l = l.rdropWhile p ++ w ∧ ∀ c ∈ w, p c = true := by
  induction l using List.reverseRecOn with
  | nil => exact ⟨[], by simp [List.rdropWhile], by simp⟩
  | append_singleton t a ih =>
    by_cases ha : p a = true
    · obtain ⟨w, hw, hall⟩ := ih
      refine ⟨w ++ [a], ?_, ?_⟩
      · rw [List.rdropWhile_concat_pos p t a ha, ← List.append_assoc, ← hw]
      · intro c hc
        rcases List.mem_append.mp hc with h | h
        · exact hall c h
        · rw [List.mem_singleton.mp h]
          exact ha
    · exact ⟨[], by rw [List.rdropWhile_concat_neg p t a ha]; simp, by simp⟩

theorem isalnum_of_isspace (ch : Char) (h : isspace ch = true) : isalnum ch = false := by
  unfold isspace at h
  unfold isalnum isalpha isupper islower isdigit
  simp only [Bool.or_eq_true, Bool.and_eq_true, decide_eq_true_eq, Bool.or_eq_false_iff,
    Bool.and_eq_false_iff, decide_eq_false_iff_not] at h ⊢
  omega

theorem normalize_step_space (r : Str) (ch : Char) (h : isspace ch = true) :
    normalize_step (r, true) ch = (r, true) := by
  unfold normalize_step
  simp [isalnum_of_isspace ch h, h]

theorem normalize_fold_leading (r : Str) (x : Str) :
    (x.dropWhile isspace).foldl normalize_step (r, true) = x.foldl normalize_step (r, true) := by
  induction x with
  | nil => rfl
  | cons ch rest ih =>
    by_cases h : isspace ch = true
    · simp only [List.dropWhile_cons, h, if_true, List.foldl_cons, normalize_step_space r ch h, ih]
    · simp [List.dropWhile_cons, h]

theorem normalize_fold_spaces_true (r : Str) (w : Str) (hw : ∀ c ∈ w, isspace c = true) :
    w.foldl normalize_step (r, true) = (r, true) := by
  induction w with
  | nil => rfl
  | cons ch rest ih =>
    rw [List.foldl_cons, normalize_step_space r ch (hw ch (List.mem_cons_self _ _))]
    exact ih (fun c hc => hw c (List.mem_cons_of_mem _ hc))

theorem normalize_fold_spaces (st : Str × Bool) (w : Str) (hw : ∀ c ∈ w, isspace c = true) :
    (w.foldl normalize_step st).1 = st.1 ∨ (w.foldl normalize_step st).1 = st.1 ++ [' '] := by
  cases w with
  | nil => exact Or.inl rfl
  | cons ch rest =>
    have hch := hw ch (List.mem_cons_self _ _)
    have hrest : ∀ c ∈ rest, isspace c = true := fun c hc => hw c (List.mem_cons_of_mem _ hc)
    obtain ⟨r, b⟩ := st
    rw [List.foldl_cons]
    cases b with
    | true =>
      rw [normalize_step_space r ch hch, normalize_fold_spaces_true r rest hrest]
      exact Or.inl rfl
    | false =>
      have : normalize_step (r, false) ch = (r ++ [' '], true) := by
        unfold normalize_step
        simp [isalnum_of_isspace ch hch, hch]
      rw [this, normalize_fold_spaces_true _ rest hrest]
      exact Or.inr rfl

theorem trim_blanks_concat (r : Str) : trim_blanks (r ++ [' ']) = trim_blanks r := by
  have e : ∀ l : Str, trim_blanks l =
      (l.dropWhile (fun c => c == ' ')).rdropWhile (fun c => c == ' ') := fun _ => rfl
  rw [e, e, ← dropWhile_rdropWhile_comm, ← dropWhile_rdropWhile_comm,
    List.rdropWhile_concat_pos _ _ _ (by simp)]

/-- `normalize_label` ignores leading and trailing white space. -/
theorem normalize_trim (x : Str) : normalize_label (trim_copy x) = normalize_label x := by
  have e : ∀ l : Str, normalize_label l = trim_blanks (l.foldl normalize_step ([], true)).1 :=
    fun _ => rfl
  obtain ⟨w, hw, hall⟩ := rdropWhile_split isspace (x.dropWhile isspace)
  rw [e, e, ← normalize_fold_leading [] x, trim_copy_eq]
  conv_rhs => rw [hw, List.foldl_append]
  rcases normalize_fold_spaces
      (((x.dropWhile isspace).rdropWhile isspace).foldl normalize_step ([], true)) w hall with
    h | h
  · rw [h]
  · rw [h, trim_blanks_concat]

theorem normalize_of_trim_empty (x : Str) (h : (trim_copy x).isEmpty = true) :
    normalize_label x = [] := by
  have h2 : trim_copy x = [] := by simpa using h
  rw [← normalize_trim, h2]
  rfl

/-! ## Synonyms -/

/-- A key of the table never has a stripped form that is a key for another target. -/
theorem synonym_strip_consistent : ∀ kv ∈ kCategorySynonyms,
    synonym_find (strip_trailing_stopwords kv.1) = none ∨
      synonym_find (strip_trailing_stopwords kv.1) = some kv.2 := by decide

theorem canonicalize_of_synonym (n ns : Str) (t : CanonicalCategoryLabel)
    (h : SynonymFor n t) : canonicalize_category_label n ns = t := by
  unfold canonicalize_category_label
  cases h1 : synonym_find n with
  | some label =>
    simp only
    rcases h with h | h
    · rw [h1] at h
      exact Option.some.inj h
    · have hmem := map_find_mem _ _ _ h1
      rcases synonym_strip_consistent (n, label) hmem with h3 | h3
      · simp only at h3
        rw [h3] at h
        exact absurd h (by simp)
      · simp only at h3
        rw [h3] at h
        exact Option.some.inj h
  | none =>
    simp only
    rcases h with h | h
    · rw [h1] at h
      exact absurd h (by simp)
    · rw [h]

theorem synonymFor_ne_nil (n : Str) (t : CanonicalCategoryLabel) (h : SynonymFor n t) :
    n ≠ [] := by
  intro hn
  subst hn
  have e1 : synonym_find [] = none := by decide
  have e2 : synonym_find (strip_trailing_stopwords []) = none := by decide
  rcases h with h | h
  · rw [e1] at h
    exact absurd h (by simp)
  · rw [e2] at h
    exact absurd h (by simp)

/-- What `resolve_input` computes for a category that is a synonym of the target `t`. -/
theorem resolve_input_of_synonym (c s : Str) (t : CanonicalCategoryLabel)
    (h : SynonymFor (normalize_label c) t) :
    (resolve_input c s).norm_category = t.normalized ∧
    (resolve_input c s).trimmed_category = t.display := by
  have hne : (trim_copy c).isEmpty = false := by
    cases hb : (trim_copy c).isEmpty with
    | false => rfl
    | true => exact absurd (normalize_of_trim_empty c hb) (synonymFor_ne_nil _ t h)
  have htc : trimmed_or "Uncategorized".toList c = trim_copy c := by
    unfold trimmed_or
    simp [hne]
  have ht : t ∈ synonymTargets := by
    rcases h with h | h
    · exact synonym_find_target _ _ h
    · exact synonym_find_target _ _ h
  simp only [resolve_input_eq]
  rw [htc, normalize_trim, canonicalize_of_synonym _ _ t h]
  simp [(synonym_target_fix t ht).2.1]

theorem build_create_eq (db : DatabaseManager) (hinv : Inv db) (fc fs nc ms : Str)
    (hmiss : lookup_key db (make_key nc ms) = none) :
    build_resolved_category db (-1) fc fs nc ms =
      (⟨db.taxonomy_seq + 1, fc, fs⟩, created_state db fc fs nc ms) := by
  have ha : map_find db.alias_lookup (make_key nc ms) = none := by
    unfold lookup_key at hmiss
    cases h : map_find db.alias_lookup (make_key nc ms) with
    | none => rfl
    | some x => simp [h] at hmiss
  have hc : map_find db.canonical_lookup (make_key nc ms) = none := by
    unfold lookup_key at hmiss
    simpa [ha] using hmiss
  have hseq := hinv.seq_nonneg
  have hne : db.taxonomy_seq + 1 ≠ -1 := by omega
  have hens : ensure_alias_mapping (created_state db fc fs nc ms) (db.taxonomy_seq + 1) nc ms =
      created_state db fc fs nc ms := by
    unfold ensure_alias_mapping
    simp [created_state, map_set, map_find]
  unfold build_resolved_category
  simp only [if_true, create_eq db hinv fc fs nc ms hc, hne, ne_eq, not_false_eq_true, hens,
    created_find]

/-- The first `resolve_category` on an empty taxonomy creates entry 1 from the display
strings. -/
theorem resolve_category_empty (c s : Str) :
    (resolve_category DatabaseManager.empty c s).1 =
      ⟨1, (resolve_input c s).trimmed_category, (resolve_input c s).trimmed_subcategory⟩ := by
  have hx : ∀ k a b, resolve_existing_taxonomy DatabaseManager.empty k a b = -1 := by
    intro k a b
    simp [resolve_existing_taxonomy, DatabaseManager.empty, map_find, find_fuzzy_match]
  unfold resolve_category resolve_prepared
  simp only [hx, true_and, ite_self]
  rw [build_create_eq _ inv_empty _ _ _ _ (by simp [lookup_key, DatabaseManager.empty, map_find])]
  rfl

/-! ## C1 - C3: idempotence and stability of the resolver -/

/-- C1: in every state reachable from an empty taxonomy, resolving the category and
subcategory strings that `resolve_category` returned for a raw pair gives the same
taxonomy id again. -/
theorem C1_resolve_idempotent (db : DatabaseManager) (h : Reachable db) (c s : Str) :
    (resolve_category (resolve_category db c s).2
        (resolve_category db c s).1.category (resolve_category db c s).1.subcategory).1.taxonomy_id
      = (resolve_category db c s).1.taxonomy_id := by
  have hok := resolve_category_ok db (reachable_inv db h) c s
  obtain ⟨e, he, hres, _⟩ := hok.entry
  have hself := hok.inv.self_key e he
  have hcanon := hok.inv.canon_ok e he
  have hl : lookup_key (resolve_category db c s).2 (resolve_key e.category e.subcategory) =
      some e.id := by
    unfold resolve_key
    rw [hself.1, hself.2]
    unfold lookup_key
    cases ha : map_find (resolve_category db c s).2.alias_lookup
        (make_key e.normalized_category e.normalized_subcategory) with
    | none => exact hcanon
    | some x =>
      have := hok.inv.disjoint _ _ ha
      unfold entry_key at hcanon
      rw [this] at hcanon
      exact absurd hcanon (by simp)
  rw [hres]
  simp only
  rw [resolve_category_hit _ hok.inv e.category e.subcategory e he hl]

/-- The idempotence theorem at the raw pair `("media", "Photo files")` on a fresh
taxonomy. -/
theorem C1_resolve_idempotent_witness :
    Reachable DatabaseManager.empty ∧
    (resolve_category (resolve_category DatabaseManager.empty "media".toList "Photo files".toList).2
        (resolve_category DatabaseManager.empty "media".toList "Photo files".toList).1.category
        (resolve_category DatabaseManager.empty "media".toList
          "Photo files".toList).1.subcategory).1.taxonomy_id
      = (resolve_category DatabaseManager.empty "media".toList
          "Photo files".toList).1.taxonomy_id :=
  ⟨Reachable.empty, C1_resolve_idempotent _ Reachable.empty _ _⟩

/-- C2: in every reachable state, a second `resolve_category` of the same raw pair,
directly after the first or after any number of other `resolve_category` calls, returns
the same taxonomy id, category and subcategory as the first. -/
theorem C2_resolve_stable (db : DatabaseManager) (h : Reachable db) (c s : Str)
    (db2 : DatabaseManager) (h2 : ReachableFrom (resolve_category db c s).2 db2) :
    (resolve_category db2 c s).1.taxonomy_id = (resolve_category db c s).1.taxonomy_id ∧
    (resolve_category db2 c s).1.category = (resolve_category db c s).1.category ∧
    (resolve_category db2 c s).1.subcategory = (resolve_category db c s).1.subcategory := by
  have := same_key_same_answer db db2 (reachable_inv db h) c s c s rfl h2
  rw [this]
  exact ⟨rfl, rfl, rfl⟩

/-- The stability theorem for `("Images", "Photos")` with a call for `("Media", "Audio")`
in between, on a fresh taxonomy. -/
theorem C2_resolve_stable_witness :
    Reachable DatabaseManager.empty ∧
    ReachableFrom (resolve_category DatabaseManager.empty "Images".toList "Photos".toList).2
      (resolve_category (resolve_category DatabaseManager.empty "Images".toList "Photos".toList).2
        "Media".toList "Audio".toList).2 ∧
    (resolve_category
        (resolve_category (resolve_category DatabaseManager.empty "Images".toList
          "Photos".toList).2 "Media".toList "Audio".toList).2
        "Images".toList "Photos".toList).1.taxonomy_id =
      (resolve_category DatabaseManager.empty "Images".toList "Photos".toList).1.taxonomy_id :=
  ⟨Reachable.empty, ReachableFrom.step _ _ _ ReachableFrom.refl,
    (C2_resolve_stable _ Reachable.empty _ _ _ (ReachableFrom.step _ _ _ ReachableFrom.refl)).1⟩

/-- C3, as stated, fails: the subcategories `""` and `"-"` both normalize to the empty
string, yet `resolve_category` replaces the empty one by "General" and keeps the other,
so the two calls create two different entries. -/
theorem C3_counterexample :
    strip_trailing_stopwords (normalize_label "".toList) =
      strip_trailing_stopwords (normalize_label "-".toList) ∧
    (resolve_category DatabaseManager.empty "X".toList "".toList).1 =
      ⟨1, "X".toList, "General".toList⟩ ∧
    (resolve_category (resolve_category DatabaseManager.empty "X".toList "".toList).2
      "X".toList "-".toList).1 = ⟨2, "X".toList, "-".toList⟩ := by
  decide!

/-- C3 (amended): in every reachable state, for every category and every two
subcategories whose normalized forms as `resolve_category` computes them (after trimming,
an empty subcategory being replaced by "General") are equal after
`strip_trailing_stopwords`, the second call returns the taxonomy id, the category and the
subcategory that the first call returned. -/
theorem C3_stopword_suffix_same_entry (db : DatabaseManager) (h : Reachable db) (c s1 s2 : Str)
    (hs : (resolve_input c s1).match_subcategory = (resolve_input c s2).match_subcategory) :
    (resolve_category (resolve_category db c s1).2 c s2).1.taxonomy_id =
      (resolve_category db c s1).1.taxonomy_id ∧
    (resolve_category (resolve_category db c s1).2 c s2).1.category =
      (resolve_category db c s1).1.category ∧
    (resolve_category (resolve_category db c s1).2 c s2).1.subcategory =
      (resolve_category db c s1).1.subcategory := by
  have := same_key_same_answer db _ (reachable_inv db h) c s1 c s2
    (resolve_key_congr c s1 s2 hs) ReachableFrom.refl
  rw [this]
  exact ⟨rfl, rfl, rfl⟩

/-- The stop-word theorem for "Graphics" and "Graphics files" under "Images", on a fresh
taxonomy. -/
theorem C3_stopword_suffix_same_entry_witness :
    Reachable DatabaseManager.empty ∧
    (resolve_input "Images".toList "Graphics".toList).match_subcategory =
      (resolve_input "Images".toList "Graphics files".toList).match_subcategory ∧
    (resolve_category (resolve_category DatabaseManager.empty "Images".toList
        "Graphics".toList).2 "Images".toList "Graphics files".toList).1.subcategory =
      (resolve_category DatabaseManager.empty "Images".toList "Graphics".toList).1.subcategory :=
  ⟨Reachable.empty, by decide,
    (C3_stopword_suffix_same_entry _ Reachable.empty _ _ _ (by decide)).2.2⟩

/-! ## C4, C5: category synonyms -/

/-- C4: for two raw categories whose normalized form (or stop-word-stripped normalized
form) is a key of the synonym table with the same target `t`, and every subcategory,
`resolve_category(c1, s)` followed by `resolve_category(c2, s)` on an empty taxonomy
returns the same positive taxonomy id, and both results carry the display name of `t`
as category. -/
theorem C4_synonyms_collapse (c1 c2 s : Str) (t : CanonicalCategoryLabel)
    (h1 : SynonymFor (normalize_label c1) t) (h2 : SynonymFor (normalize_label c2) t) :
    (resolve_category (resolve_category DatabaseManager.empty c1 s).2 c2 s).1.taxonomy_id =
      (resolve_category DatabaseManager.empty c1 s).1.taxonomy_id ∧
    0 < (resolve_category DatabaseManager.empty c1 s).1.taxonomy_id ∧
    (resolve_category DatabaseManager.empty c1 s).1.category = t.display ∧
    (resolve_category (resolve_category DatabaseManager.empty c1 s).2 c2 s).1.category =
      t.display := by
  have hkey : resolve_key c2 s = resolve_key c1 s := by
    unfold resolve_key
    rw [(resolve_input_of_synonym c1 s t h1).1, (resolve_input_of_synonym c2 s t h2).1]
    rfl
  have hsame := same_key_same_answer DatabaseManager.empty _ inv_empty c1 s c2 s hkey
    ReachableFrom.refl
  have hfirst := resolve_category_empty c1 s
  rw [hsame, hfirst]
  exact ⟨rfl, by simp, (resolve_input_of_synonym c1 s t h1).2,
    (resolve_input_of_synonym c1 s t h1).2⟩

/-- The synonym theorem for "Archives" and "Backup files" with the subcategory "General". -/
theorem C4_synonyms_collapse_witness :
    SynonymFor (normalize_label "Archives".toList) archivesLabel ∧
    SynonymFor (normalize_label "Backup files".toList) archivesLabel ∧
    (resolve_category (resolve_category DatabaseManager.empty "Archives".toList
        "General".toList).2 "Backup files".toList "General".toList).1.category =
      archivesLabel.display :=
  ⟨Or.inl (by decide), Or.inl (by decide),
    (C4_synonyms_collapse "Archives".toList "Backup files".toList "General".toList archivesLabel
      (Or.inl (by decide)) (Or.inl (by decide))).2.2.2⟩

/-- C5: `canonicalize_category_label("media", normalize(s))` is `("images", "Images")`
when the normalized subcategory is image-like and leaves the category as "media" (with no
display override) otherwise; on the taxonomy that holds only the entry created by
`resolve_category("Images", "Photos")`, `resolve_category("Media", "Photos")` returns that
entry (id 1, category "Images") and `resolve_category("Media", "Audio")` returns category
"Media" with another id. -/
theorem C5_media_collapses_for_images :
    (∀ s : Str,
      canonicalize_category_label "media".toList (normalize_label s) =
        if is_image_like_label (normalize_label s) then ⟨"images".toList, "Images".toList⟩
        else ⟨"media".toList, []⟩) ∧
    (resolve_category DatabaseManager.empty "Images".toList "Photos".toList).2.taxonomy_entries =
      [⟨1, "Images".toList, "Photos".toList, "images".toList, "photos".toList⟩] ∧
    (resolve_category (resolve_category DatabaseManager.empty "Images".toList "Photos".toList).2
      "Media".toList "Photos".toList).1 = ⟨1, "Images".toList, "Photos".toList⟩ ∧
    (resolve_category (resolve_category DatabaseManager.empty "Images".toList "Photos".toList).2
      "Media".toList "Audio".toList).1.category = "Media".toList ∧
    (resolve_category (resolve_category DatabaseManager.empty "Images".toList "Photos".toList).2
      "Media".toList "Audio".toList).1.taxonomy_id ≠ 1 := by
  refine ⟨?_, by decide!, by decide!, by decide!, by decide!⟩
  intro s
  have h1 : synonym_find "media".toList = none := by decide
  have h2 : strip_trailing_stopwords "media".toList = "media".toList := by decide
  unfold canonicalize_category_label
  rw [h1]
  simp only [h2, h1, Bool.or_self, decide_True, Bool.true_and]
  rfl

/-! ## Lemmas for the reply parser -/

theorem trim_self_parts (l : Str) (h : trim_copy l = l) :
    l.dropWhile isspace = l ∧ l.rdropWhile isspace = l := by
  rw [trim_copy_eq] at h
  have h1 := (List.rdropWhile_prefix isspace (l.dropWhile isspace)).length_le
  have h2 := (List.dropWhile_suffix (l := l) isspace)
  have h3 : (l.dropWhile isspace).length = l.length := by
    have := h2.length_le
    rw [h] at h1
    omega
  have h4 := h2.eq_of_length h3
  rw [h4] at h
  exact ⟨h4, h⟩

theorem dropWhile_append_self {α : Type} (p : α → Bool) (a r : List α) (hne : a ≠ [])
    (h : a.dropWhile p = a) : (a ++ r).dropWhile p = a ++ r := by
  cases a with
  | nil => exact absurd rfl hne
  | cons x xs =>
    have hx : ¬ p x = true := by
      have := (List.dropWhile_eq_self_iff (p := p) (l := x :: xs)).mp h (by simp)
      simpa using this
    simp [List.dropWhile_cons, hx]

theorem rdropWhile_append_self {α : Type} (p : α → Bool) (a r : List α) (hne : r ≠ [])
    (h : r.rdropWhile p = r) : (a ++ r).rdropWhile p = a ++ r := by
  rw [List.rdropWhile_eq_self_iff] at h ⊢
  intro hl
  rw [List.getLast_append_of_ne_nil hne]
  exact h hne

/-- A line that starts with a trimmed non-empty string and ends with one is trimmed. -/
theorem trim_copy_append (a r : Str) (ha : a ≠ []) (hr : r ≠ [])
    (h1 : trim_copy a = a) (h2 : trim_copy r = r) : trim_copy (a ++ r) = a ++ r := by
  rw [trim_copy_eq, dropWhile_append_self _ a r ha (trim_self_parts a h1).1,
    rdropWhile_append_self _ a r hr (trim_self_parts r h2).2]

theorem trim_copy_space_cons (r : Str) (h : trim_copy r = r) :
    trim_copy (' ' :: r) = r := by
  have h1 : (' ' :: r).dropWhile isspace = r.dropWhile isspace := by
    rw [List.dropWhile_cons, if_pos (by decide)]
  rw [trim_copy_eq, h1, ← trim_copy_eq, h]

theorem trim_copy_concat_space (a : Str) (ha : a ≠ []) (h : trim_copy a = a) :
    trim_copy (a ++ [' ']) = a := by
  rw [trim_copy_eq, dropWhile_append_self _ a _ ha (trim_self_parts a h).1,
    List.rdropWhile_concat_pos _ _ _ (by decide)]
  exact (trim_self_parts a h).2

theorem head_not_blank (r : Str) (hne : r ≠ []) (h : trim_copy r = r) :
    r.head? ≠ some ' ' := by
  cases r with
  | nil => exact absurd rfl hne
  | cons x xs =>
    have := (List.dropWhile_eq_self_iff (p := isspace) (l := x :: xs)).mp
      (trim_self_parts _ h).1 (by simp)
    intro hx
    simp only [List.head?_cons, Option.some.injEq] at hx
    subst hx
    have hsp : isspace ' ' = true := by decide
    simp [hsp] at this

theorem str_find_colon (k r : Str) (hk : ':' ∉ k) :
    str_find [':'] (k ++ ':' :: r) = some k.length := by
  induction k with
  | nil => simp [str_find, List.isPrefixOf]
  | cons c cs ih =>
    have hc : ¬ (':' = c) := fun h => hk (h ▸ List.mem_cons_self _ _)
    have hcs : ':' ∉ cs := fun h => hk (List.mem_cons_of_mem _ h)
    simp [str_find, List.isPrefixOf, hc, ih hcs]

theorem str_find_spaced (k r : Str) (hk : ':' ∉ k) :
    str_find [' ', ':', ' '] (k ++ ' ' :: ':' :: ' ' :: r) = some k.length := by
  induction k with
  | nil => simp [str_find, List.isPrefixOf]
  | cons c cs ih =>
    have hcs : ':' ∉ cs := fun h => hk (List.mem_cons_of_mem _ h)
    have hno : List.isPrefixOf [' ', ':', ' '] (c :: cs ++ ' ' :: ':' :: ' ' :: r) = false := by
      cases cs with
      | nil => simp [List.isPrefixOf]
      | cons d ds =>
        have hd : ¬ (':' = d) := fun h => hcs (h ▸ List.mem_cons_self _ _)
        simp [List.isPrefixOf, hd]
    simp only [List.cons_append, str_find, List.append_eq]
    simp only [List.cons_append] at hno
    rw [hno]
    simp [ih hcs]

theorem str_find_spaced_none (r : Str) (hr : ':' ∉ r) :
    str_find [' ', ':', ' '] r = none := by
  induction r with
  | nil => simp [str_find]
  | cons c cs ih =>
    have hcs : ':' ∉ cs := fun h => hr (List.mem_cons_of_mem _ h)
    have hno : List.isPrefixOf [' ', ':', ' '] (c :: cs) = false := by
      cases cs with
      | nil => simp [List.isPrefixOf]
      | cons d ds =>
        have hd : ¬ (':' = d) := fun h => hcs (h ▸ List.mem_cons_self _ _)
        simp [List.isPrefixOf, hd]
    simp only [str_find, hno]
    simp [ih hcs]

theorem str_find_spaced_tight (k r : Str) (hk : ':' ∉ k) (hr : ':' ∉ r)
    (hhead : r.head? ≠ some ' ') :
    str_find [' ', ':', ' '] (k ++ ':' :: r) = none := by
  induction k with
  | nil =>
    simp only [List.nil_append, str_find]
    simp [List.isPrefixOf, str_find_spaced_none r hr]
  | cons c cs ih =>
    have hcs : ':' ∉ cs := fun h => hk (List.mem_cons_of_mem _ h)
    have hno : List.isPrefixOf [' ', ':', ' '] (c :: cs ++ ':' :: r) = false := by
      cases cs with
      | nil =>
        cases r with
        | nil => simp [List.isPrefixOf]
        | cons y ys =>
          have hy : ¬ (y = ' ') := fun h => hhead (by simp [h])
          have hy2 : ¬ (' ' = y) := fun h => hy h.symm
          simp [List.isPrefixOf, hy2]
      | cons d ds =>
        have hd : ¬ (':' = d) := fun h => hcs (h ▸ List.mem_cons_self _ _)
        simp [List.isPrefixOf, hd]
    simp only [List.cons_append, str_find, List.append_eq]
    simp only [List.cons_append] at hno
    rw [hno]
    simp [ih hcs]

theorem getlines_no_newline (l cur : Str) (h : '\n' ∉ l) :
    getlines l cur = if (cur ++ l).isEmpty then [] else [cur ++ l] := by
  induction l generalizing cur with
  | nil => simp [getlines]
  | cons c cs ih =>
    have hc : ¬ (c = '\n') := fun e => h (e ▸ List.mem_cons_self _ _)
    have hcs : '\n' ∉ cs := fun e => h (List.mem_cons_of_mem _ e)
    simp only [getlines, hc, if_false]
    rw [ih _ hcs]
    simp

theorem getlines_append_newline (l1 l2 cur : Str) (h : '\n' ∉ l1) :
    getlines (l1 ++ '\n' :: l2) cur = (cur ++ l1) :: getlines l2 [] := by
  induction l1 generalizing cur with
  | nil => simp [getlines]
  | cons c cs ih =>
    have hc : ¬ (c = '\n') := fun e => h (e ▸ List.mem_cons_self _ _)
    have hcs : '\n' ∉ cs := fun e => h (List.mem_cons_of_mem _ e)
    simp only [List.cons_append, getlines, hc, if_false, List.append_eq]
    rw [ih _ hcs]
    simp

theorem trim_copy_join (a r : Str) (ha : a ≠ []) (hr : r ≠ [])
    (h1 : a.dropWhile isspace = a) (h2 : r.rdropWhile isspace = r) :
    trim_copy (a ++ r) = a ++ r := by
  rw [trim_copy_eq, dropWhile_append_self _ a r ha h1, rdropWhile_append_self _ a r hr h2]

theorem drop_succ_append (k v : Str) (c : Char) : (k ++ c :: v).drop (k.length + 1) = v := by
  induction k with
  | nil => simp
  | cons x xs ih => simp [ih]

theorem isdigit_of_isalpha (ch : Char) (h : isalpha ch = true) : isdigit ch = false := by
  unfold isalpha isupper islower at h
  unfold isdigit
  simp only [Bool.or_eq_true, Bool.and_eq_true, decide_eq_true_eq, Bool.and_eq_false_iff,
    decide_eq_false_iff_not] at h ⊢
  omega

theorem takeWhile_append_of_stop {α : Type} (p : α → Bool) (a r : List α)
    (h : ∃ c ∈ a, p c = false) : (a ++ r).takeWhile p = a.takeWhile p := by
  induction a with
  | nil => simp at h
  | cons x xs ih =>
    by_cases hx : p x = true
    · obtain ⟨c, hc, hpc⟩ := h
      have hc2 : c ∈ xs := by
        rcases List.mem_cons.mp hc with e | e
        · rw [e, hx] at hpc
          exact absurd hpc (by simp)
        · exact e
      simp [List.takeWhile_cons, hx, ih ⟨c, hc2, hpc⟩]
    · simp [List.takeWhile_cons, hx]

theorem takeWhile_length_lt {α : Type} (p : α → Bool) (a : List α)
    (h : ∃ c ∈ a, p c = false) : (a.takeWhile p).length < a.length := by
  induction a with
  | nil => simp at h
  | cons x xs ih =>
    by_cases hx : p x = true
    · obtain ⟨c, hc, hpc⟩ := h
      have hc2 : c ∈ xs := by
        rcases List.mem_cons.mp hc with e | e
        · rw [e, hx] at hpc
          exact absurd hpc (by simp)
        · exact e
      have := ih ⟨c, hc2, hpc⟩
      simp only [List.takeWhile_cons, hx, if_true, List.length_cons]
      omega
    · simp [List.takeWhile_cons, hx]

/-- When the leading digits of a label are followed by exactly one more character, a
letter of the label can only be that character. -/
theorem alpha_after_digits (a : Str) (h : has_alpha a = true)
    (hlen : digit_run a + 1 = a.length) : isalpha (a.getD (digit_run a) 'x') = true := by
  unfold has_alpha at h
  rw [List.any_eq_true] at h
  obtain ⟨c, hc, hcal⟩ := h
  have hsplit := List.takeWhile_append_dropWhile isdigit a
  have hdl : (a.dropWhile isdigit).length = 1 := by
    have := congrArg List.length hsplit
    rw [List.length_append] at this
    unfold digit_run at hlen
    omega
  obtain ⟨d, hd⟩ := List.length_eq_one.mp hdl
  have ha : a = a.takeWhile isdigit ++ [d] := by rw [← hd, hsplit]
  have hget : a.getD (digit_run a) 'x' = d := by
    unfold digit_run
    generalize a.takeWhile isdigit = tw at ha
    rw [ha, List.getD_append_right _ _ _ _ (le_refl _)]
    simp
  have hc2 : c ∈ a.takeWhile isdigit ++ [d] := ha ▸ hc
  rw [List.mem_append] at hc2
  rcases hc2 with hc2 | hc2
  · have := isdigit_of_isalpha c hcal
    rw [List.mem_takeWhile_imp hc2] at this
    exact absurd this (by simp)
  · rw [hget, ← List.mem_singleton.mp hc2]
    exact hcal

theorem bullet_marker_append (a r : Str) (h2 : 2 ≤ a.length) :
    bullet_marker (a ++ r) = bullet_marker a := by
  match a, h2 with
  | _ :: _ :: _, _ => rfl

theorem numbered_marker_append (a r : Str) (h : has_alpha a = true) :
    numbered_marker (a ++ r) = numbered_marker a := by
  have hstop : ∃ c ∈ a, isdigit c = false := by
    unfold has_alpha at h
    rw [List.any_eq_true] at h
    obtain ⟨c, hc, hcal⟩ := h
    exact ⟨c, hc, isdigit_of_isalpha c hcal⟩
  have hrun : digit_run (a ++ r) = digit_run a := by
    unfold digit_run
    rw [takeWhile_append_of_stop _ a r hstop]
  have hlt : digit_run a < a.length := takeWhile_length_lt _ a hstop
  unfold numbered_marker
  simp only [hrun, List.getD_append _ _ _ _ hlt]
  by_cases hlen : digit_run a + 1 < a.length
  · have h1 : decide (digit_run a + 1 < (a ++ r).length) = true := by
      rw [List.length_append, decide_eq_true_eq]
      omega
    have h2 : decide (digit_run a + 1 < a.length) = true := by
      rw [decide_eq_true_eq]
      exact hlen
    rw [List.getD_append _ _ _ _ hlen, h1, h2]
  · have heq : digit_run a + 1 = a.length := by omega
    have hal := alpha_after_digits a h heq
    have hc1 : decide (a.getD (digit_run a) 'x' = '.') = false := by
      rw [decide_eq_false_iff_not]
      intro e
      rw [e] at hal
      exact absurd hal (by decide)
    have hc2 : decide (a.getD (digit_run a) 'x' = ')') = false := by
      rw [decide_eq_false_iff_not]
      intro e
      rw [e] at hal
      exact absurd hal (by decide)
    rw [hc1, hc2]
    simp

/-- `strip_list_prefix` leaves alone a trimmed line that starts with a label without a
list marker. -/
theorem strip_list_prefix_keep (a r : Str) (h2 : 2 ≤ a.length) (hal : has_alpha a = true)
    (hb : bullet_marker a = false) (hn : numbered_marker a = false)
    (htrim : trim_copy (a ++ r) = a ++ r) : strip_list_prefix (a ++ r) = a ++ r := by
  have hne : (a ++ r).isEmpty = false := by
    cases a with
    | nil => simp at h2
    | cons x xs => rfl
  unfold strip_list_prefix
  simp only [htrim, hne, bullet_marker_append a r h2, hb, numbered_marker_append a r hal, hn,
    Bool.false_eq_true, if_false]

theorem labelled_step_colon (acc : Str × Str) (k v : Str) (hk : ':' ∉ k) :
    labelled_step acc (k ++ ':' :: v) =
      if (trim_copy v).isEmpty then acc
      else if to_lower_copy_str (trim_copy k) = "category".toList ||
          to_lower_copy_str (trim_copy k) = "main category".toList then (trim_copy v, acc.2)
      else if to_lower_copy_str (trim_copy k) = "subcategory".toList ||
          to_lower_copy_str (trim_copy k) = "sub category".toList then (acc.1, trim_copy v)
      else acc := by
  unfold labelled_step
  rw [show ":".toList = [':'] from rfl, str_find_colon k v hk]
  simp only [List.take_left, drop_succ_append]

/-! ## C6: the three reply forms -/

theorem split_single_line (sanitize : Str → Str) (line x y : Str)
    (hx : ReplyLabel sanitize x) (hy : ReplyLabel sanitize y)
    (hnl : '\n' ∉ line) (hne : line.isEmpty = false) (hstrip : strip_list_prefix line = line)
    (hlab : labelled_step ([], []) line = ([], []) ∨ labelled_step ([], []) line = ([], y))
    (hpair : split_inline_pair line = some (x, y)) :
    split_category_subcategory sanitize line = (x, y) := by
  have hlines : getlines line [] = [line] := by
    rw [getlines_no_newline line [] hnl]
    simp [hne]
  have hxe : x.isEmpty = false := by
    cases x with
    | nil => exact absurd rfl hx.nonempty
    | cons _ _ => rfl
  have hye : y.isEmpty = false := by
    cases y with
    | nil => exact absurd rfl hy.nonempty
    | cons _ _ => rfl
  unfold split_category_subcategory
  simp only [hlines, List.map, hstrip, List.filter, hne, Bool.not_false, List.isEmpty_cons,
    Bool.false_eq_true, if_false, List.foldl]
  rcases hlab with h | h
  · simp [h, inline_loop, hpair, hxe, hye, hx.sanitized, hy.sanitized]
  · simp [h, inline_loop, hpair, hxe, hye, hx.sanitized, hy.sanitized]

theorem has_alpha_length (l : Str) (h : 2 ≤ l.length) : ¬ (l.length < 2) := by omega

theorem split_spaced_ok (sanitize : Str → Str) (x y : Str)
    (hx : ReplyLabel sanitize x) (hy : ReplyLabel sanitize y) (h2 : 2 ≤ x.length)
    (hb : bullet_marker x = false) (hn : numbered_marker x = false)
    (hk1 : to_lower_copy_str x ≠ "category".toList)
    (hk2 : to_lower_copy_str x ≠ "main category".toList) :
    split_category_subcategory sanitize (reply_spaced x y) = (x, y) := by
  have hye : y.isEmpty = false := by
    cases y with
    | nil => exact absurd rfl hy.nonempty
    | cons _ _ => rfl
  have hshape : reply_spaced x y = x ++ ' ' :: ':' :: ' ' :: y := by
    unfold reply_spaced
    rw [List.append_assoc]
    rfl
  have hshape2 : x ++ ' ' :: ':' :: ' ' :: y = (x ++ [' ']) ++ ':' :: (' ' :: y) := by simp
  have htrim : trim_copy (x ++ ' ' :: ':' :: ' ' :: y) = x ++ ' ' :: ':' :: ' ' :: y :=
    trim_copy_join x _ hx.nonempty (by simp) (trim_self_parts x hx.trimmed).1
      (rdropWhile_append_self isspace [' ', ':', ' '] y hy.nonempty
        (trim_self_parts y hy.trimmed).2)
  rw [hshape]
  apply split_single_line sanitize _ x y hx hy
  · intro h
    rcases List.mem_append.mp h with h | h
    · exact hx.no_newline h
    · simp only [List.mem_cons] at h
      rcases h with h | h | h | h
      · exact absurd h (by decide)
      · exact absurd h (by decide)
      · exact absurd h (by decide)
      · exact hy.no_newline h
  · cases x with
    | nil => exact absurd rfl hx.nonempty
    | cons _ _ => rfl
  · exact strip_list_prefix_keep x _ h2 hx.alpha hb hn htrim
  · rw [hshape2, labelled_step_colon _ _ _ (by
      intro h
      rcases List.mem_append.mp h with h | h
      · exact hx.no_colon h
      · exact absurd (List.mem_singleton.mp h) (by decide))]
    rw [trim_copy_concat_space x hx.nonempty hx.trimmed, trim_copy_space_cons y hy.trimmed]
    simp only [hye, Bool.false_eq_true, if_false, hk1, hk2, decide_False, Bool.or_self]
    split
    · exact Or.inr rfl
    · exact Or.inl rfl
  · unfold split_inline_pair split_at_delimiter
    rw [show " : ".toList = [' ', ':', ' '] from rfl, str_find_spaced x y hx.no_colon]
    have hdrop : (x ++ ' ' :: ':' :: ' ' :: y).drop (x.length + [' ', ':', ' '].length) = y := by
      have : x ++ ' ' :: ':' :: ' ' :: y = (x ++ [' ', ':', ' ']) ++ y := by simp
      rw [this]
      exact List.drop_left' (by simp)
    simp only [List.take_left, hdrop, hx.trimmed, hy.trimmed, has_alpha_length x h2,
      decide_False, hye, Bool.or_self, Bool.false_eq_true, if_false, hx.alpha, hy.alpha,
      Bool.not_true]

theorem split_tight_ok (sanitize : Str → Str) (x y : Str)
    (hx : ReplyLabel sanitize x) (hy : ReplyLabel sanitize y) (h2 : 2 ≤ x.length)
    (hb : bullet_marker x = false) (hn : numbered_marker x = false)
    (hk1 : to_lower_copy_str x ≠ "category".toList)
    (hk2 : to_lower_copy_str x ≠ "main category".toList) :
    split_category_subcategory sanitize (reply_tight x y) = (x, y) := by
  have hye : y.isEmpty = false := by
    cases y with
    | nil => exact absurd rfl hy.nonempty
    | cons _ _ => rfl
  have hshape : reply_tight x y = x ++ ':' :: y := by
    unfold reply_tight
    rw [List.append_assoc]
    rfl
  have htrim : trim_copy (x ++ ':' :: y) = x ++ ':' :: y :=
    trim_copy_join x _ hx.nonempty (by simp) (trim_self_parts x hx.trimmed).1
      (rdropWhile_append_self isspace [':'] y hy.nonempty (trim_self_parts y hy.trimmed).2)
  rw [hshape]
  apply split_single_line sanitize _ x y hx hy
  · intro h
    rcases List.mem_append.mp h with h | h
    · exact hx.no_newline h
    · simp only [List.mem_cons] at h
      rcases h with h | h
      · exact absurd h (by decide)
      · exact hy.no_newline h
  · cases x with
    | nil => exact absurd rfl hx.nonempty
    | cons _ _ => rfl
  · exact strip_list_prefix_keep x _ h2 hx.alpha hb hn htrim
  · rw [labelled_step_colon _ _ _ hx.no_colon, hx.trimmed, hy.trimmed]
    simp only [hye, Bool.false_eq_true, if_false, hk1, hk2, decide_False, Bool.or_self]
    split
    · exact Or.inr rfl
    · exact Or.inl rfl
  · unfold split_inline_pair split_at_delimiter
    rw [show " : ".toList = [' ', ':', ' '] from rfl,
      str_find_spaced_tight x y hx.no_colon hy.no_colon
        (head_not_blank y hy.nonempty hy.trimmed)]
    simp only
    rw [show ":".toList = [':'] from rfl, str_find_colon x y hx.no_colon]
    have hdrop : (x ++ ':' :: y).drop (x.length + [':'].length) = y := drop_succ_append x y ':'
    simp only [List.take_left, hdrop, hx.trimmed, hy.trimmed, has_alpha_length x h2,
      decide_False, hye, Bool.or_self, Bool.false_eq_true, if_false, hx.alpha, hy.alpha,
      Bool.not_true]

theorem split_labelled_ok (sanitize : Str → Str) (x y : Str)
    (hx : ReplyLabel sanitize x) (hy : ReplyLabel sanitize y) :
    split_category_subcategory sanitize (reply_labelled x y) = (x, y) := by
  have hxe : x.isEmpty = false := by
    cases x with
    | nil => exact absurd rfl hx.nonempty
    | cons _ _ => rfl
  have hye : y.isEmpty = false := by
    cases y with
    | nil => exact absurd rfl hy.nonempty
    | cons _ _ => rfl
  have hshape : reply_labelled x y =
      ("Category: ".toList ++ x) ++ '\n' :: ("Subcategory: ".toList ++ y) := by
    simp [reply_labelled]
  have hl1 : "Category: ".toList ++ x = "Category".toList ++ ':' :: (' ' :: x) := rfl
  have hl2 : "Subcategory: ".toList ++ y = "Subcategory".toList ++ ':' :: (' ' :: y) := rfl
  have hnl1 : '\n' ∉ "Category: ".toList ++ x := by
    intro h
    rcases List.mem_append.mp h with h | h
    · exact absurd h (by decide)
    · exact hx.no_newline h
  have hnl2 : '\n' ∉ "Subcategory: ".toList ++ y := by
    intro h
    rcases List.mem_append.mp h with h | h
    · exact absurd h (by decide)
    · exact hy.no_newline h
  have hlines : getlines (reply_labelled x y) [] =
      ["Category: ".toList ++ x, "Subcategory: ".toList ++ y] := by
    rw [hshape, getlines_append_newline _ _ _ hnl1, getlines_no_newline _ _ hnl2]
    rfl
  have ht1 : trim_copy ("Category: ".toList ++ x) = "Category: ".toList ++ x :=
    trim_copy_join _ x (by decide) hx.nonempty (by decide) (trim_self_parts x hx.trimmed).2
  have ht2 : trim_copy ("Subcategory: ".toList ++ y) = "Subcategory: ".toList ++ y :=
    trim_copy_join _ y (by decide) hy.nonempty (by decide) (trim_self_parts y hy.trimmed).2
  have hs1 : strip_list_prefix ("Category: ".toList ++ x) = "Category: ".toList ++ x := by
    rw [hl1] at ht1 ⊢
    exact strip_list_prefix_keep _ _ (by decide) (by decide) (by decide) (by decide) ht1
  have hs2 : strip_list_prefix ("Subcategory: ".toList ++ y) = "Subcategory: ".toList ++ y := by
    rw [hl2] at ht2 ⊢
    exact strip_list_prefix_keep _ _ (by decide) (by decide) (by decide) (by decide) ht2
  have hstep1 : labelled_step ([], []) ("Category: ".toList ++ x) = (x, []) := by
    rw [hl1, labelled_step_colon _ _ _ (by decide), trim_copy_space_cons x hx.trimmed]
    rw [show to_lower_copy_str (trim_copy "Category".toList) = "category".toList by decide]
    simp [hxe]
  have hstep2 : labelled_step (x, []) ("Subcategory: ".toList ++ y) = (x, y) := by
    rw [hl2, labelled_step_colon _ _ _ (by decide), trim_copy_space_cons y hy.trimmed]
    rw [show to_lower_copy_str (trim_copy "Subcategory".toList) = "subcategory".toList by decide]
    simp [hye]
  have hne1 : ("Category: ".toList ++ x).isEmpty = false := rfl
  have hne2 : ("Subcategory: ".toList ++ y).isEmpty = false := rfl
  unfold split_category_subcategory
  simp only [hlines, List.map, hs1, hs2, List.filter, hne1, hne2, Bool.not_false,
    List.isEmpty_cons, Bool.false_eq_true, if_false, List.foldl, hstep1, hstep2, hxe, hye,
    Bool.or_self, hx.sanitized, hy.sanitized]

/-- C6, as stated, fails: with the labels `"- Music"` and `"Rock"` the reply `"X : Y"`
is parsed to `("Music", "Rock")` because `strip_list_prefix` removes the list marker, and
with the labels `"Category"` and `"Photos"` the reply `"X:Y"` is parsed to
`("Photos", "Photos")` because the line is read as a labelled `category:` line. -/
theorem C6_counterexample :
    ReplyLabel sanitize_path_label "- Music".toList ∧
    ReplyLabel sanitize_path_label "Rock".toList ∧
    2 ≤ "- Music".toList.length ∧
    split_category_subcategory sanitize_path_label
      (reply_spaced "- Music".toList "Rock".toList) = ("Music".toList, "Rock".toList) ∧
    ReplyLabel sanitize_path_label "Category".toList ∧
    ReplyLabel sanitize_path_label "Photos".toList ∧
    2 ≤ "Category".toList.length ∧
    split_category_subcategory sanitize_path_label
      (reply_tight "Category".toList "Photos".toList) = ("Photos".toList, "Photos".toList) :=
  ⟨⟨by decide, by decide, by decide, by decide, by decide, by decide⟩,
   ⟨by decide, by decide, by decide, by decide, by decide, by decide⟩,
   by decide, by decide,
   ⟨by decide, by decide, by decide, by decide, by decide, by decide⟩,
   ⟨by decide, by decide, by decide, by decide, by decide, by decide⟩,
   by decide, by decide⟩

/-- C6 (amended): for labels X and Y as in the claim (non-empty, no leading or trailing
white space, at least one letter, no colon, no newline, unchanged by sanitation, X of at
least 2 characters), `split_category_subcategory` returns `(X, Y)` for the reply
`"Category: X\nSubcategory: Y"`; it returns `(X, Y)` for `"X : Y"` and `"X:Y"` when moreover
X does not start with a list marker (`-` or `*` followed by white space, or digits
followed by `.` or `)` and white space) and X is not, ignoring case, `category` or
`main category`. -/
theorem C6_reply_forms (sanitize : Str → Str) (x y : Str)
    (hx : ReplyLabel sanitize x) (hy : ReplyLabel sanitize y) (h2 : 2 ≤ x.length) :
    split_category_subcategory sanitize (reply_labelled x y) = (x, y) ∧
    (bullet_marker x = false → numbered_marker x = false →
      to_lower_copy_str x ≠ "category".toList →
      to_lower_copy_str x ≠ "main category".toList →
      split_category_subcategory sanitize (reply_spaced x y) = (x, y) ∧
      split_category_subcategory sanitize (reply_tight x y) = (x, y)) :=
  ⟨split_labelled_ok sanitize x y hx hy, fun hb hn hk1 hk2 =>
    ⟨split_spaced_ok sanitize x y hx hy h2 hb hn hk1 hk2,
     split_tight_ok sanitize x y hx hy h2 hb hn hk1 hk2⟩⟩

/-- The parser theorem for the reply `"Documents:Spreadsheets"`. -/
theorem C6_reply_forms_witness :
    ReplyLabel sanitize_path_label "Documents".toList ∧
    ReplyLabel sanitize_path_label "Spreadsheets".toList ∧
    split_category_subcategory sanitize_path_label
      (reply_tight "Documents".toList "Spreadsheets".toList) =
        ("Documents".toList, "Spreadsheets".toList) :=
  ⟨⟨by decide, by decide, by decide, by decide, by decide, by decide⟩,
   ⟨by decide, by decide, by decide, by decide, by decide, by decide⟩,
   ((C6_reply_forms sanitize_path_label "Documents".toList "Spreadsheets".toList
      ⟨by decide, by decide, by decide, by decide, by decide, by decide⟩
      ⟨by decide, by decide, by decide, by decide, by decide, by decide⟩ (by decide)).2
      (by decide) (by decide) (by decide) (by decide)).2⟩

/-! ## C7: label validation -/

theorem str_rfind_none (c : Char) (l : Str) (h : str_rfind c l = none) : c ∉ l := by
  induction l with
  | nil => simp
  | cons x xs ih =>
    unfold str_rfind at h
    cases hr : str_rfind c xs with
    | some i => simp [hr] at h
    | none =>
      simp only [hr] at h
      by_cases hx : x = c
      · simp [hx] at h
      · intro hm
        rcases List.mem_cons.mp hm with e | e
        · exact hx e.symm
        · exact ih hr e

theorem str_rfind_some (c : Char) (l : Str) (i : Nat) (h : str_rfind c l = some i) :
    ∃ pre ext, l = pre ++ c :: ext ∧ pre.length = i ∧ c ∉ ext := by
  induction l generalizing i with
  | nil => simp [str_rfind] at h
  | cons x xs ih =>
    unfold str_rfind at h
    cases hr : str_rfind c xs with
    | some j =>
      simp only [hr, Option.some.injEq] at h
      obtain ⟨pre, ext, h1, h2, h3⟩ := ih j hr
      exact ⟨x :: pre, ext, by simp [h1], by simp [h2, h], h3⟩
    | none =>
      simp only [hr] at h
      by_cases hx : x = c
      · simp only [hx, if_true, Option.some.injEq] at h
        exact ⟨[], xs, by simp [hx], by simp [h], str_rfind_none c xs hr⟩
      · simp [hx] at h

theorem str_rfind_split (c : Char) (pre ext : Str) (h : c ∉ ext) :
    str_rfind c (pre ++ c :: ext) = some pre.length := by
  have hext : str_rfind c ext = none := by
    cases hr : str_rfind c ext with
    | none => rfl
    | some i =>
      obtain ⟨p, e, h1, _, _⟩ := str_rfind_some c ext i hr
      exact absurd (h1 ▸ List.mem_append_right p (List.mem_cons_self c e)) h
  induction pre with
  | nil => simp [str_rfind, hext]
  | cons x xs ih => simp [str_rfind, ih]

theorem looks_like_extension_iff (label : Str) :
    looks_like_extension_label label = true ↔ ExtensionLike label := by
  constructor
  · intro h
    unfold looks_like_extension_label at h
    cases hr : str_rfind '.' label with
    | none => simp [hr] at h
    | some i =>
      obtain ⟨pre, ext, h1, h2, h3⟩ := str_rfind_some '.' label i hr
      simp only [hr] at h
      by_cases hlast : i = label.length - 1
      · simp [hlast] at h
      · rw [if_neg hlast] at h
        have hdrop : label.drop (i + 1) = ext := by
          rw [h1, ← h2]
          exact drop_succ_append pre ext '.'
        rw [hdrop] at h
        by_cases hcond : (ext.isEmpty || decide (ext.length > 5)) = true
        · simp [hcond] at h
        · rw [if_neg hcond] at h
          simp only [Bool.or_eq_true, decide_eq_true_eq, not_or, Bool.not_eq_true,
            not_lt] at hcond
          refine ⟨pre, ext, h1, h3, ?_, hcond.2, ?_⟩
          · cases ext with
            | nil => simp at hcond
            | cons _ _ => simp
          · exact List.all_eq_true.mp h
  · rintro ⟨pre, ext, h1, h2, h3, h4, h5⟩
    unfold looks_like_extension_label
    have hlen : label.length = pre.length + 1 + ext.length := by
      rw [h1]
      simp
      omega
    rw [h1, str_rfind_split '.' pre ext h2]
    simp only
    rw [← h1, if_neg (by omega)]
    have hdrop : label.drop (pre.length + 1) = ext := by
      rw [h1]
      exact drop_succ_append pre ext '.'
    rw [hdrop]
    have hne : ext.isEmpty = false := by
      cases ext with
      | nil => simp at h3
      | cons _ _ => rfl
    have h5' : ¬ (ext.length > 5) := by omega
    simp only [hne, h5', decide_False, Bool.or_self, Bool.false_eq_true, if_false]
    exact List.all_eq_true.mpr h5

theorem allowed_chars_iff (label : Str) :
    contains_only_allowed_chars label = true ↔
      ∀ ch ∈ label, iscntrl ch = false ∧ ch ∉ ['<', '>', ':', '"', '/', '\\', '|', '?', '*'] := by
  unfold contains_only_allowed_chars forbidden_chars
  rw [List.all_eq_true]
  constructor
  · intro h ch hch
    have := h ch hch
    simp only [Bool.and_eq_true, Bool.not_eq_true', List.contains_eq_any_beq] at this
    refine ⟨this.1, ?_⟩
    intro hm
    have h2 := this.2
    rw [Bool.eq_false_iff] at h2
    apply h2
    rw [List.any_eq_true]
    exact ⟨ch, hm, by simp⟩
  · intro h ch hch
    obtain ⟨h1, h2⟩ := h ch hch
    simp only [Bool.and_eq_true, Bool.not_eq_true', List.contains_eq_any_beq]
    refine ⟨h1, ?_⟩
    rw [Bool.eq_false_iff]
    intro hany
    rw [List.any_eq_true] at hany
    obtain ⟨x, hx, hxe⟩ := hany
    have : ch = x := by simpa using hxe
    exact h2 (this ▸ hx)

theorem reserved_names_eq : reserved_names = windows_device_names.map to_lower_copy_str := by
  decide

theorem not_reserved_iff (label : Str) :
    is_reserved_windows_name label = false ↔
      ∀ name ∈ windows_device_names, to_lower_copy_str label ≠ to_lower_copy_str name := by
  unfold is_reserved_windows_name
  rw [reserved_names_eq, Bool.eq_false_iff]
  have hmem : ∀ (l : List Str) (a : Str), l.contains a = true ↔ a ∈ l := by
    intro l a
    simp
  constructor
  · intro h name hname heq
    apply h
    rw [hmem, List.mem_map]
    exact ⟨name, hname, heq.symm⟩
  · intro h hc
    rw [hmem, List.mem_map] at hc
    obtain ⟨name, hname, heq⟩ := hc
    exact h name hname heq.symm

theorem outer_space_iff (label : Str) :
    has_leading_or_trailing_space_or_dot label = false ↔ trim_copy label = label := by
  cases label with
  | nil => simp [has_leading_or_trailing_space_or_dot, trim_copy]
  | cons x xs =>
    have hne : x :: xs ≠ [] := by simp
    have hlast : (x :: xs).getLast? = some ((x :: xs).getLast hne) :=
      List.getLast?_eq_getLast _ hne
    unfold has_leading_or_trailing_space_or_dot
    rw [hlast]
    simp only [List.head?_cons, Bool.or_eq_false_iff]
    constructor
    · rintro ⟨h1, h2⟩
      have hd : (x :: xs).dropWhile isspace = x :: xs := by
        simp [List.dropWhile_cons, h1]
      have hr : (x :: xs).rdropWhile isspace = x :: xs := by
        rw [List.rdropWhile_eq_self_iff]
        intro _
        simp [h2]
      rw [trim_copy_eq, hd, hr]
    · intro h
      obtain ⟨hd, hr⟩ := trim_self_parts _ h
      constructor
      · have := (List.dropWhile_eq_self_iff (p := isspace) (l := x :: xs)).mp hd (by simp)
        simpa using this
      · have := (List.rdropWhile_eq_self_iff (p := isspace) (l := x :: xs)).mp hr hne
        simpa using this

/-- The sequence of tests of `validate_labels`, as one conjunction. -/
theorem validate_labels_valid (c s : Str) :
    (validate_labels c s).valid = true ↔
      (c.isEmpty = false ∧ s.isEmpty = false) ∧
      (c.length ≤ 80 ∧ s.length ≤ 80) ∧
      (contains_only_allowed_chars c = true ∧ contains_only_allowed_chars s = true) ∧
      (looks_like_extension_label c = false ∧ looks_like_extension_label s = false) ∧
      (is_reserved_windows_name c = false ∧ is_reserved_windows_name s = false) ∧
      (has_leading_or_trailing_space_or_dot c = false ∧
        has_leading_or_trailing_space_or_dot s = false) ∧
      to_lower_copy_str c ≠ to_lower_copy_str s := by
  unfold validate_labels kMaxLabelLength
  split_ifs with h1 h2 h3 h4 h5 h6 h7 <;>
    simp_all [Bool.or_eq_true, not_or] <;>
    (intros; rcases ‹_ ∨ _› with h | h <;> first | contradiction | omega | simp_all)

theorem label_rules_iff (label : Str) :
    LabelRules label ↔
      label.isEmpty = false ∧ label.length ≤ 80 ∧ contains_only_allowed_chars label = true ∧
      looks_like_extension_label label = false ∧ is_reserved_windows_name label = false ∧
      has_leading_or_trailing_space_or_dot label = false := by
  constructor
  · intro h
    refine ⟨?_, h.length_le, (allowed_chars_iff label).mpr h.chars, ?_,
      (not_reserved_iff label).mpr h.not_reserved, (outer_space_iff label).mpr h.no_outer_space⟩
    · cases label with
      | nil => exact absurd rfl h.nonempty
      | cons _ _ => rfl
    · rw [Bool.eq_false_iff]
      exact fun hc => h.not_extension ((looks_like_extension_iff label).mp hc)
  · rintro ⟨h1, h2, h3, h4, h5, h6⟩
    refine ⟨?_, h2, (allowed_chars_iff label).mp h3, (not_reserved_iff label).mp h5, ?_,
      (outer_space_iff label).mp h6⟩
    · intro e
      rw [e] at h1
      simp at h1
    · intro hc
      rw [(looks_like_extension_iff label).mpr hc] at h4
      exact absurd h4 (by simp)

/-- C7: `validate_labels` reports valid exactly when both labels are non-empty, at most
80 characters long, free of control characters and of `<>:"/\|?*`, not a reserved Windows
device name (ignoring case), not extension-like, without leading or trailing white space,
and the two labels differ ignoring case; in particular a label of 81 characters is
rejected and one of exactly 80 characters is accepted. -/
theorem C7_validate_labels_iff :
    (∀ c s : Str, (validate_labels c s).valid = true ↔ ValidLabels c s) ∧
    (∀ c s : Str, c.length = 81 ∨ s.length = 81 → (validate_labels c s).valid = false) ∧
    (validate_labels (List.replicate 80 'a') "b".toList).valid = true ∧
    (validate_labels "b".toList (List.replicate 80 'a')).valid = true := by
  have main : ∀ c s : Str, (validate_labels c s).valid = true ↔ ValidLabels c s := by
    intro c s
    rw [validate_labels_valid]
    unfold ValidLabels
    rw [label_rules_iff c, label_rules_iff s]
    tauto
  refine ⟨main, ?_, by decide, by decide⟩
  intro c s h
  rw [Bool.eq_false_iff]
  intro hv
  obtain ⟨hc, hs, _⟩ := (main c s).mp hv
  have := hc.length_le
  have := hs.length_le
  omega

/-! ## C8: whitelist enforcement -/

theorem is_allowed_iff (value : Str) (allowed : List Str) :
    is_allowed value allowed = true ↔ allowed = [] ∨ CaseInsensitiveMember value allowed := by
  unfold is_allowed CaseInsensitiveMember
  cases allowed with
  | nil => simp
  | cons a rest =>
    simp only [List.isEmpty_cons, Bool.false_eq_true, if_false, List.any_eq_true,
      decide_eq_true_eq, false_or]
    simp

/-- C8, as stated, fails: with whitelisting on and an empty list of allowed subcategories
the subcategory "Photos" is not a member of the list, yet it is left unchanged instead of
being replaced by the empty string (`is_allowed` accepts everything for an empty list). -/
theorem C8_counterexample :
    ¬ CaseInsensitiveMember "Photos".toList ([] : List Str) ∧
    (apply_whitelist ⟨LLMChoice.Local, [], [], false, true, ["Images".toList], [], false⟩
      ⟨1, "Images".toList, "Photos".toList⟩).subcategory = "Photos".toList := by
  refine ⟨?_, by decide⟩
  rintro ⟨item, hmem, _⟩
  simp at hmem

/-- C8 (amended): when whitelisting is on, each of the resolved category and the resolved
subcategory is left unchanged if its allowed list is empty or if it is a case-insensitive
member of that list, and is replaced by the first entry of the list otherwise; the
taxonomy id is not changed. -/
theorem C8_whitelist_enforcement (settings : Settings) (h : settings.use_whitelist = true)
    (resolved : ResolvedCategory) :
    (apply_whitelist settings resolved).taxonomy_id = resolved.taxonomy_id ∧
    (settings.allowed_categories = [] ∨
        CaseInsensitiveMember resolved.category settings.allowed_categories →
      (apply_whitelist settings resolved).category = resolved.category) ∧
    (∀ first rest, settings.allowed_categories = first :: rest →
        ¬ CaseInsensitiveMember resolved.category settings.allowed_categories →
      (apply_whitelist settings resolved).category = first) ∧
    (settings.allowed_subcategories = [] ∨
        CaseInsensitiveMember resolved.subcategory settings.allowed_subcategories →
      (apply_whitelist settings resolved).subcategory = resolved.subcategory) ∧
    (∀ first rest, settings.allowed_subcategories = first :: rest →
        ¬ CaseInsensitiveMember resolved.subcategory settings.allowed_subcategories →
      (apply_whitelist settings resolved).subcategory = first) := by
  have hc := is_allowed_iff resolved.category settings.allowed_categories
  have hs := is_allowed_iff resolved.subcategory settings.allowed_subcategories
  unfold apply_whitelist
  simp only [h, if_true]
  refine ⟨?_, ?_, ?_, ?_, ?_⟩
  · split <;> split <;> rfl
  · intro hyp
    rw [hc.mpr hyp]
    simp only [Bool.not_true, Bool.false_eq_true, if_false]
    split <;> rfl
  · intro first rest hl hn
    have hna : is_allowed resolved.category settings.allowed_categories = false := by
      rw [Bool.eq_false_iff]
      intro ha
      rcases hc.mp ha with e | e
      · rw [hl] at e
        exact absurd e (by simp)
      · exact hn e
    rw [hna, hl]
    simp only [Bool.not_false, if_true]
    split <;> rfl
  · intro hyp
    have hsa : is_allowed resolved.subcategory settings.allowed_subcategories = true :=
      hs.mpr hyp
    split
    · simp only [hsa, Bool.not_true, Bool.false_eq_true, if_false]
    · simp only [hsa, Bool.not_true, Bool.false_eq_true, if_false]
  · intro first rest hl hn
    have hna : is_allowed resolved.subcategory settings.allowed_subcategories = false := by
      rw [Bool.eq_false_iff]
      intro ha
      rcases hs.mp ha with e | e
      · rw [hl] at e
        exact absurd e (by simp)
      · exact hn e
    split
    · simp only [hna, Bool.not_false, if_true]
      rw [hl]
      rfl
    · simp only [hna, Bool.not_false, if_true]
      rw [hl]
      rfl

/-- The whitelist theorem for an empty list of allowed subcategories. -/
theorem C8_whitelist_enforcement_witness :
    (apply_whitelist
      ⟨LLMChoice.Local, [], [], false, true, ["Images".toList, "Music".toList], [], false⟩
      ⟨3, "Videos".toList, "Clips".toList⟩).subcategory = "Clips".toList :=
  (C8_whitelist_enforcement
    ⟨LLMChoice.Local, [], [], false, true, ["Images".toList, "Music".toList], [], false⟩ rfl
    ⟨3, "Videos".toList, "Clips".toList⟩).2.2.2.1 (Or.inl rfl)

/-! ## C9: acceptance of a cached row -/

theorem try_cached_miss (env : Env) (w : World) (name path dir : Str) (type : FileType)
    (h : ¬ CacheAccepted env w.db dir name type) :
    try_cached_categorization env w name path dir type = (none, w) := by
  unfold try_cached_categorization get_categorization_from_db
  cases hrow : w.db.file_categorization.find? (fun row =>
      row.dir_path = dir ∧ row.file_name = name ∧ row.file_type = file_type_code type) with
  | none => rfl
  | some row =>
    simp only
    by_cases h1 : ((env.sanitize (row.category.getD [])).isEmpty ||
        (env.sanitize (row.subcategory.getD [])).isEmpty) = true
    · rw [if_pos h1]
    · rw [if_neg h1]
      by_cases h2 : (!(validate_labels (env.sanitize (row.category.getD []))
          (env.sanitize (row.subcategory.getD []))).valid) = true
      · rw [if_pos h2]
      · exfalso
        apply h
        simp only [Bool.or_eq_true, not_or, Bool.not_eq_true, List.isEmpty_eq_false] at h1
        simp only [Bool.not_eq_true', Bool.not_eq_false] at h2
        exact ⟨row, hrow, h1.1, h1.2, h2⟩

theorem try_cached_hit (env : Env) (w : World) (name path dir : Str) (type : FileType)
    (row : CacheRow) (hrow : cached_row w.db dir name type = some row)
    (hc : env.sanitize (row.category.getD []) ≠ [])
    (hs : env.sanitize (row.subcategory.getD []) ≠ [])
    (hv : (validate_labels (env.sanitize (row.category.getD []))
      (env.sanitize (row.subcategory.getD []))).valid = true) :
    try_cached_categorization env w name path dir type =
      (some (resolve_category w.db (env.sanitize (row.category.getD []))
          (env.sanitize (row.subcategory.getD []))).1,
        emit_progress_message env
          { w with db := (resolve_category w.db (env.sanitize (row.category.getD []))
            (env.sanitize (row.subcategory.getD []))).2 }
          "CACHE".toList name
          (resolve_category w.db (env.sanitize (row.category.getD []))
            (env.sanitize (row.subcategory.getD []))).1 path) := by
  unfold cached_row at hrow
  unfold try_cached_categorization get_categorization_from_db
  rw [hrow]
  have h1 : (env.sanitize (row.category.getD [])).isEmpty = false := by
    simpa using hc
  have h2 : (env.sanitize (row.subcategory.getD [])).isEmpty = false := by
    simpa using hs
  simp only [h1, h2, hv, Bool.or_self, Bool.false_eq_true, if_false, Bool.not_true]

/-- C9: `categorize_with_cache` takes the cached row exactly when a row exists for the
key, both of its labels are non-empty after sanitation and the sanitized labels pass
`validate_labels`; it then returns what `resolve_category` gives for the sanitized labels,
makes no model call and hands one `[CACHE]` message to the progress callback (when a
callback is set); in every other case nothing has happened yet and the credential check and
model path (`categorize_uncached`) is run. -/
theorem C9_cache_acceptance (env : Env) (w : World) (is_local_llm : Bool)
    (name path dir : Str) (type : FileType) :
    ((try_cached_categorization env w name path dir type).1.isSome = true ↔
      CacheAccepted env w.db dir name type) ∧
    (∀ row, cached_row w.db dir name type = some row →
      env.sanitize (row.category.getD []) ≠ [] →
      env.sanitize (row.subcategory.getD []) ≠ [] →
      (validate_labels (env.sanitize (row.category.getD []))
        (env.sanitize (row.subcategory.getD []))).valid = true →
      (categorize_with_cache env w is_local_llm name path dir type).1 =
        Except.ok (resolve_category w.db (env.sanitize (row.category.getD []))
          (env.sanitize (row.subcategory.getD []))).1 ∧
      (categorize_with_cache env w is_local_llm name path dir type).2.llm_calls = w.llm_calls ∧
      (env.progress_callback = true →
        (categorize_with_cache env w is_local_llm name path dir type).2.progress =
          w.progress ++ [progress_text "CACHE".toList name
            (resolve_category w.db (env.sanitize (row.category.getD []))
              (env.sanitize (row.subcategory.getD []))).1 path])) ∧
    (¬ CacheAccepted env w.db dir name type →
      categorize_with_cache env w is_local_llm name path dir type =
        categorize_uncached env w is_local_llm name path) := by
  refine ⟨?_, ?_, ?_⟩
  · constructor
    · intro h
      by_contra hn
      rw [try_cached_miss env w name path dir type hn] at h
      simp at h
    · rintro ⟨row, hrow, hc, hs, hv⟩
      rw [try_cached_hit env w name path dir type row hrow hc hs hv]
      rfl
  · intro row hrow hc hs hv
    unfold categorize_with_cache
    rw [try_cached_hit env w name path dir type row hrow hc hs hv]
    simp only
    refine ⟨trivial, ?_, ?_⟩
    · unfold emit_progress_message emit
      split <;> rfl
    · intro hp
      unfold emit_progress_message emit
      simp [hp]
  · intro hn
    unfold categorize_with_cache
    rw [try_cached_miss env w name path dir type hn]

/-! ## C10: the cache-hit scenario -/

theorem emit_llm_calls (env : Env) (w : World) (message : Str) :
    (emit env w message).llm_calls = w.llm_calls := by
  unfold emit
  split <;> rfl

theorem handle_empty_result_none (env : Env) (w : World) (entry : FileEntry) (dir : Str)
    (resolved : ResolvedCategory) (hints : Bool) :
    (handle_empty_result env w entry dir resolved hints).1 = none ∧
    (handle_empty_result env w entry dir resolved hints).2.llm_calls = w.llm_calls := by
  unfold handle_empty_result
  simp only
  split
  · exact ⟨rfl, rfl⟩
  · refine ⟨rfl, ?_⟩
    split <;> rfl

/-- `finish_single_entry` always hands back a result built from `resolved`. -/
theorem finish_single_entry_result (env : Env) (w : World) (entry : FileEntry) (dir : Str)
    (resolved : ResolvedCategory) (suggested_name : Str) :
    (finish_single_entry env w entry dir resolved suggested_name).1 =
      some { CategorizedFile.init dir entry.file_name entry.type resolved.category
               resolved.subcategory resolved.taxonomy_id with
             used_consistency_hints := env.settings.use_consistency_hints
             suggested_name := suggested_name } ∧
    (finish_single_entry env w entry dir resolved suggested_name).2.llm_calls = w.llm_calls := by
  obtain ⟨h1, h2⟩ := handle_empty_result_none env w entry dir resolved
    env.settings.use_consistency_hints
  unfold finish_single_entry
  simp only
  generalize handle_empty_result env w entry dir resolved env.settings.use_consistency_hints
    = out at h1 h2
  obtain ⟨o, w2⟩ := out
  simp only at h1 h2
  subst h1
  simp only
  exact ⟨trivial, h2⟩

theorem categorize_with_cache_hit (env : Env) (w : World) (is_local_llm : Bool)
    (name path dir : Str) (type : FileType) (row : CacheRow)
    (hrow : cached_row w.db dir name type = some row)
    (hc : env.sanitize (row.category.getD []) ≠ [])
    (hs : env.sanitize (row.subcategory.getD []) ≠ [])
    (hv : (validate_labels (env.sanitize (row.category.getD []))
      (env.sanitize (row.subcategory.getD []))).valid = true) :
    categorize_with_cache env w is_local_llm name path dir type =
      (Except.ok (resolve_category w.db (env.sanitize (row.category.getD []))
          (env.sanitize (row.subcategory.getD []))).1,
        emit_progress_message env
          { w with db := (resolve_category w.db (env.sanitize (row.category.getD []))
            (env.sanitize (row.subcategory.getD []))).2 }
          "CACHE".toList name
          (resolve_category w.db (env.sanitize (row.category.getD []))
            (env.sanitize (row.subcategory.getD []))).1 path) := by
  unfold categorize_with_cache
  rw [try_cached_hit env w name path dir type row hrow hc hs hv]

/-- C10, as stated, fails: for the row `("/d", "a.jpg", File, "Images", "Photos", 42)`
on a fresh taxonomy, `categorize_entries` returns for the entry a `CategorizedFile` with
taxonomy id 1 (the id `resolve_category` gives the cached labels), not 42, and with
`from_cache = false`; one `[CACHE]` message is emitted and the model is not called. -/
theorem C10_counterexample :
    (categorize_entries scenarioA_env scenarioA_world
      [⟨"/d/a.jpg".toList, "a.jpg".toList, FileType.File⟩] true).1.toOption =
      some [⟨"/d".toList, "a.jpg".toList, FileType.File, "Images".toList, "Photos".toList, 1,
        false, false, [], false, false⟩] ∧
    (categorize_entries scenarioA_env scenarioA_world
      [⟨"/d/a.jpg".toList, "a.jpg".toList, FileType.File⟩] true).2.llm_calls = 0 ∧
    (categorize_entries scenarioA_env scenarioA_world
      [⟨"/d/a.jpg".toList, "a.jpg".toList, FileType.File⟩] true).2.progress.length = 1 := by
  decide!

/-- C10 (amended): given a valid cache row for an entry (both labels non-empty after
sanitation and accepted by `validate_labels`), the `CategorizedFile` that
`categorize_entries` returns for that entry carries the entry's directory, name and type
and the category, subcategory and taxonomy id that `resolve_category` gives for the
sanitized labels of the row; the model is not called. -/
theorem C10_cache_hit_result (env : Env) (w : World) (entry : FileEntry) (is_local_llm : Bool)
    (row : CacheRow)
    (hrow : cached_row w.db (env.parent_path entry.full_path) entry.file_name entry.type
      = some row)
    (hc : env.sanitize (row.category.getD []) ≠ [])
    (hs : env.sanitize (row.subcategory.getD []) ≠ [])
    (hv : (validate_labels (env.sanitize (row.category.getD []))
      (env.sanitize (row.subcategory.getD []))).valid = true)
    (hstop1 : env.stop_flag w.stop_loads = false)
    (hstop2 : env.stop_flag (w.stop_loads + 1) = false)
    (hfactory : env.llm_factory_ok = true) :
    ∃ result, (categorize_entries env w [entry] is_local_llm).1 = Except.ok [result] ∧
      result.file_path = env.parent_path entry.full_path ∧
      result.file_name = entry.file_name ∧ result.type = entry.type ∧
      result.category = (resolve_category w.db (env.sanitize (row.category.getD []))
        (env.sanitize (row.subcategory.getD []))).1.category ∧
      result.subcategory = (resolve_category w.db (env.sanitize (row.category.getD []))
        (env.sanitize (row.subcategory.getD []))).1.subcategory ∧
      result.taxonomy_id = (resolve_category w.db (env.sanitize (row.category.getD []))
        (env.sanitize (row.subcategory.getD []))).1.taxonomy_id ∧
      (categorize_entries env w [entry] is_local_llm).2.llm_calls = w.llm_calls := by
  have hsingle : ∀ w4 : World, w4.db = w.db → w4.llm_calls = w.llm_calls →
      ∀ suggested_name : Str,
      (categorize_single_entry env w4 is_local_llm entry suggested_name).1 =
        Except.ok (some { CategorizedFile.init (env.parent_path entry.full_path) entry.file_name
            entry.type
            (resolve_category w.db (env.sanitize (row.category.getD []))
              (env.sanitize (row.subcategory.getD []))).1.category
            (resolve_category w.db (env.sanitize (row.category.getD []))
              (env.sanitize (row.subcategory.getD []))).1.subcategory
            (resolve_category w.db (env.sanitize (row.category.getD []))
              (env.sanitize (row.subcategory.getD []))).1.taxonomy_id with
          used_consistency_hints := env.settings.use_consistency_hints
          suggested_name := suggested_name }) ∧
      (categorize_single_entry env w4 is_local_llm entry suggested_name).2.llm_calls =
        w.llm_calls := by
    intro w4 hdb hcalls suggested_name
    have hrow4 : cached_row w4.db (env.parent_path entry.full_path) entry.file_name entry.type
        = some row := by rw [hdb]; exact hrow
    unfold categorize_single_entry
    simp only [categorize_with_cache_hit env w4 is_local_llm entry.file_name
      (env.abbreviate_user_path entry.full_path) (env.parent_path entry.full_path) entry.type
      row hrow4 hc hs hv]
    obtain ⟨h1, h2⟩ := finish_single_entry_result env
      (emit_progress_message env
        { w4 with db := (resolve_category w4.db (env.sanitize (row.category.getD []))
          (env.sanitize (row.subcategory.getD []))).2 }
        "CACHE".toList entry.file_name
        (resolve_category w4.db (env.sanitize (row.category.getD []))
          (env.sanitize (row.subcategory.getD []))).1
        (env.abbreviate_user_path entry.full_path))
      entry (env.parent_path entry.full_path)
      (resolve_category w4.db (env.sanitize (row.category.getD []))
        (env.sanitize (row.subcategory.getD []))).1 suggested_name
    rw [h1, h2, hdb]
    refine ⟨rfl, ?_⟩
    unfold emit_progress_message
    rw [emit_llm_calls]
    exact hcalls
  unfold categorize_entries
  simp only [List.isEmpty_cons, Bool.false_eq_true, if_false, load_stop_flag, hstop1, hfactory,
    Bool.not_true, categorize_loop, hstop2]
  generalize hw4 : (if env.queue_callback = true then
      ({ w with stop_loads := w.stop_loads + 1 + 1, session := [],
                queued := w.queued ++ [entry] } : World)
    else { w with stop_loads := w.stop_loads + 1 + 1, session := [] }) = w4
  have hdb : w4.db = w.db := by
    rw [← hw4]
    split <;> rfl
  have hcalls : w4.llm_calls = w.llm_calls := by
    rw [← hw4]
    split <;> rfl
  obtain ⟨h1, h2⟩ := hsingle w4 hdb hcalls
    (match env.suggested_name_provider with
      | some provider => provider entry
      | none => [])
  generalize categorize_single_entry env w4 is_local_llm entry
    (match env.suggested_name_provider with
      | some provider => provider entry
      | none => []) = out at h1 h2
  obtain ⟨o, w5⟩ := out
  simp only at h1 h2
  subst h1
  simp only [List.nil_append]
  exact ⟨_, rfl, rfl, rfl, rfl, rfl, rfl, rfl, h2⟩

/-- The cache-hit theorem in scenario A. -/
theorem C10_cache_hit_result_witness :
    cached_row scenarioA_world.db (scenarioA_env.parent_path "/d/a.jpg".toList) "a.jpg".toList
      FileType.File =
      some ⟨"a.jpg".toList, "F".toList, "/d".toList, some "Images".toList,
        some "Photos".toList, some [], some 42, some 0, some 0, some 0⟩ ∧
    ∃ result,
      (categorize_entries scenarioA_env scenarioA_world
        [⟨"/d/a.jpg".toList, "a.jpg".toList, FileType.File⟩] true).1 = Except.ok [result] ∧
      result.file_path = scenarioA_env.parent_path "/d/a.jpg".toList ∧
      result.file_name = "a.jpg".toList ∧ result.type = FileType.File ∧
      result.category = (resolve_category scenarioA_world.db
        (scenarioA_env.sanitize "Images".toList)
        (scenarioA_env.sanitize "Photos".toList)).1.category ∧
      result.subcategory = (resolve_category scenarioA_world.db
        (scenarioA_env.sanitize "Images".toList)
        (scenarioA_env.sanitize "Photos".toList)).1.subcategory ∧
      result.taxonomy_id = (resolve_category scenarioA_world.db
        (scenarioA_env.sanitize "Images".toList)
        (scenarioA_env.sanitize "Photos".toList)).1.taxonomy_id ∧
      (categorize_entries scenarioA_env scenarioA_world
        [⟨"/d/a.jpg".toList, "a.jpg".toList, FileType.File⟩] true).2.llm_calls =
        scenarioA_world.llm_calls :=
  ⟨by decide,
    C10_cache_hit_result scenarioA_env scenarioA_world
      ⟨"/d/a.jpg".toList, "a.jpg".toList, FileType.File⟩ true
      ⟨"a.jpg".toList, "F".toList, "/d".toList, some "Images".toList,
        some "Photos".toList, some [], some 42, some 0, some 0, some 0⟩
      (by decide) (by decide) (by decide) (by decide) (by decide) (by decide) (by decide)⟩

/-! ## C16: referential integrity of the lookup tables -/

/-- C16: in every state reachable from the empty taxonomy by `resolve_category` calls,
every id bound in `alias_lookup` and every id bound in `canonical_lookup` is the id of an
entry of the taxonomy (which `find_taxonomy_entry` finds under that id), and a key bound in
`alias_lookup` is not bound in `canonical_lookup` and is not the canonical key of any entry,
in particular not of an entry other than the one it points to. -/
theorem C16_alias_referential_integrity (db : DatabaseManager) (h : Reachable db) :
    (∀ key id, map_find db.alias_lookup key = some id →
      ∃ e ∈ db.taxonomy_entries, e.id = id ∧ find_taxonomy_entry db id = some e) ∧
    (∀ key id, map_find db.canonical_lookup key = some id →
      ∃ e ∈ db.taxonomy_entries, e.id = id ∧ find_taxonomy_entry db id = some e) ∧
    (∀ key id, map_find db.alias_lookup key = some id →
      map_find db.canonical_lookup key = none ∧
      ∀ e ∈ db.taxonomy_entries, entry_key e ≠ key) := by
  have hinv := reachable_inv db h
  refine ⟨?_, ?_, ?_⟩
  · intro key id hk
    obtain ⟨e, he, hid⟩ := hinv.alias_src key id hk
    exact ⟨e, he, hid, hid ▸ hinv.index_ok e he⟩
  · intro key id hk
    obtain ⟨e, he, hid⟩ := hinv.canon_src key id hk
    exact ⟨e, he, hid, hid ▸ hinv.index_ok e he⟩
  · intro key id hk
    refine ⟨hinv.disjoint key id hk, ?_⟩
    intro e he hkey
    have h1 := hinv.canon_ok e he
    rw [hkey, hinv.disjoint key id hk] at h1
    exact Option.noConfusion h1

/-- The integrity theorem in the state after `("Images", "Photos")` and
`("Images", "Photoss")` were resolved on a fresh taxonomy; the second call binds an alias
to entry 1. -/
theorem C16_alias_referential_integrity_witness :
    Reachable (resolve_category (resolve_category DatabaseManager.empty "Images".toList
      "Photos".toList).2 "Images".toList "Photoss".toList).2 ∧
    map_find (resolve_category (resolve_category DatabaseManager.empty "Images".toList
      "Photos".toList).2 "Images".toList "Photoss".toList).2.alias_lookup
      "images::photoss".toList = some 1 ∧
    (∀ key id, map_find (resolve_category (resolve_category DatabaseManager.empty
        "Images".toList "Photos".toList).2 "Images".toList "Photoss".toList).2.alias_lookup
        key = some id →
      ∃ e ∈ (resolve_category (resolve_category DatabaseManager.empty
        "Images".toList "Photos".toList).2 "Images".toList "Photoss".toList).2.taxonomy_entries,
        e.id = id ∧
        find_taxonomy_entry (resolve_category (resolve_category DatabaseManager.empty
          "Images".toList "Photos".toList).2 "Images".toList "Photoss".toList).2 id = some e) :=
  ⟨Reachable.step _ _ _ (Reachable.step _ _ _ Reachable.empty), by decide!,
    (C16_alias_referential_integrity _
      (Reachable.step _ _ _ (Reachable.step _ _ _ Reachable.empty))).1⟩

/-! ## Lemmas on the cache table -/

theorem upsert_rows_find_same (rows : List CacheRow) (new : CacheRow) :
    (upsert_rows rows new).find? (fun row =>
      row.file_name = new.file_name ∧ row.file_type = new.file_type ∧
        row.dir_path = new.dir_path) =
    some (match rows.find? (fun row =>
        row.file_name = new.file_name ∧ row.file_type = new.file_type ∧
          row.dir_path = new.dir_path) with
      | some old => upsert_update old new
      | none => new) := by
  induction rows with
  | nil => simp [upsert_rows]
  | cons row rest ih =>
    unfold upsert_rows
    by_cases h : row.file_name = new.file_name ∧ row.file_type = new.file_type ∧
        row.dir_path = new.dir_path
    · rw [if_pos h]
      have h2 : (upsert_update row new).file_name = new.file_name ∧
          (upsert_update row new).file_type = new.file_type ∧
          (upsert_update row new).dir_path = new.dir_path := h
      simp [List.find?_cons, h, h2]
    · rw [if_neg h]
      simp only [List.find?_cons, h, decide_False]
      exact ih

theorem upsert_rows_find_other (rows : List CacheRow) (new : CacheRow)
    (file_name file_type dir_path : Str)
    (h : ¬ (new.file_name = file_name ∧ new.file_type = file_type ∧
      new.dir_path = dir_path)) :
    (upsert_rows rows new).find? (fun row =>
      row.file_name = file_name ∧ row.file_type = file_type ∧ row.dir_path = dir_path) =
    rows.find? (fun row =>
      row.file_name = file_name ∧ row.file_type = file_type ∧ row.dir_path = dir_path) := by
  induction rows with
  | nil => simp [upsert_rows, h]
  | cons row rest ih =>
    unfold upsert_rows
    by_cases hk : row.file_name = new.file_name ∧ row.file_type = new.file_type ∧
        row.dir_path = new.dir_path
    · rw [if_pos hk]
      have h1 : ¬ (row.file_name = file_name ∧ row.file_type = file_type ∧
          row.dir_path = dir_path) := by
        rw [hk.1, hk.2.1, hk.2.2]
        exact h
      have h2 : ¬ ((upsert_update row new).file_name = file_name ∧
          (upsert_update row new).file_type = file_type ∧
          (upsert_update row new).dir_path = dir_path) := h1
      simp only [List.find?_cons, h1, h2, decide_False]
    · rw [if_neg hk]
      simp only [List.find?_cons]
      rw [ih]

theorem stored_row_upsert_same (db : DatabaseManager) (file_name file_type dir_path : Str)
    (resolved : ResolvedCategory) (hints : Bool) (suggested : Str) (ro ra : Bool) :
    stored_row (insert_or_update_file_with_categorization db file_name file_type dir_path
      resolved hints suggested ro ra) file_name file_type dir_path =
    some (match stored_row db file_name file_type dir_path with
      | some old =>
        upsert_update old (fresh_row file_name file_type dir_path resolved hints suggested ro ra)
      | none => fresh_row file_name file_type dir_path resolved hints suggested ro ra) :=
  upsert_rows_find_same db.file_categorization
    (fresh_row file_name file_type dir_path resolved hints suggested ro ra)

theorem stored_row_upsert_other (db : DatabaseManager) (file_name file_type dir_path : Str)
    (resolved : ResolvedCategory) (hints : Bool) (suggested : Str) (ro ra : Bool)
    (n t d : Str) (h : ¬ (file_name = n ∧ file_type = t ∧ dir_path = d)) :
    stored_row (insert_or_update_file_with_categorization db file_name file_type dir_path
      resolved hints suggested ro ra) n t d = stored_row db n t d :=
  upsert_rows_find_other db.file_categorization
    (fresh_row file_name file_type dir_path resolved hints suggested ro ra) n t d h

theorem get_categorized_file_eq (db : DatabaseManager) (dir_path file_name : Str)
    (file_type : FileType) :
    get_categorized_file db dir_path file_name file_type =
      (stored_row db file_name (file_type_code file_type) dir_path).bind
        build_categorized_entry := by
  unfold get_categorized_file stored_row
  have hp : (fun row : CacheRow => decide (row.dir_path = dir_path ∧
      row.file_name = file_name ∧ row.file_type = file_type_code file_type)) =
      (fun row : CacheRow => decide (row.file_name = file_name ∧
        row.file_type = file_type_code file_type ∧ row.dir_path = dir_path)) := by
    funext row
    apply decide_eq_decide.mpr
    tauto
  rw [hp]
  cases db.file_categorization.find? (fun row : CacheRow => decide (row.file_name = file_name ∧
        row.file_type = file_type_code file_type ∧ row.dir_path = dir_path)) <;> rfl

/-! ## C13: the cache round trip -/

/-- C13, as stated, fails.  (1) As in the repository's test, a row with empty labels, an
empty suggestion and `rename_only = 0` is upserted into the empty cache: the read returns
nothing.  (2) Over a row whose `rename_applied` is 1, an upsert with `rename_applied = 0`
reads back with `rename_applied = true`.  (3) A `taxonomy_id` of -1 is stored as NULL and
reads back as 0. -/
theorem C13_counterexample :
    get_categorized_file
      (insert_or_update_file_with_categorization DatabaseManager.empty "empty.png".toList
        "F".toList "/sample".toList ⟨0, [], []⟩ false [] false false)
      "/sample".toList "empty.png".toList FileType.File = none ∧
    (get_categorized_file
      (insert_or_update_file_with_categorization
        { DatabaseManager.empty with
          file_categorization :=
            [⟨"a.jpg".toList, "F".toList, "/d".toList, some "Images".toList,
              some "Photos".toList, some [], some 1, some 0, some 0, some 1⟩] }
        "a.jpg".toList "F".toList "/d".toList ⟨1, "Images".toList, "Photos".toList⟩
        false [] false false)
      "/d".toList "a.jpg".toList FileType.File).map (fun file => file.rename_applied)
      = some true ∧
    (get_categorized_file
      (insert_or_update_file_with_categorization DatabaseManager.empty "a.jpg".toList
        "F".toList "/d".toList ⟨-1, "Images".toList, "Photos".toList⟩ false [] false false)
      "/d".toList "a.jpg".toList FileType.File).map (fun file => file.taxonomy_id)
      = some 0 := by
  decide

/-- C13 (amended): after an upsert, `get_categorized_file` on the key of the row returns
nothing when the row has no rename-only mark, not both labels and no suggestion (a text
counts when something is left of it after trimming white space); otherwise it returns the
directory, name, type, category, subcategory, suggestion, hints flag and rename-only flag
that were upserted, marked `from_cache`, with the taxonomy id that was upserted when that
is positive and 0 otherwise, and with `rename_applied` true exactly when it was upserted
as true or the row stored before under the key had a non-zero `rename_applied`. -/
theorem C13_cache_round_trip (db : DatabaseManager) (file_name dir_path : Str)
    (file_type : FileType) (resolved : ResolvedCategory) (used_consistency_hints : Bool)
    (suggested_name : Str) (rename_only rename_applied : Bool) :
    get_categorized_file
      (insert_or_update_file_with_categorization db file_name (file_type_code file_type)
        dir_path resolved used_consistency_hints suggested_name rename_only rename_applied)
      dir_path file_name file_type =
    if !rename_only &&
        !(has_label_content resolved.category && has_label_content resolved.subcategory) &&
        !has_label_content suggested_name then none
    else some
      { file_path := dir_path
        file_name := file_name
        type := file_type
        category := resolved.category
        subcategory := resolved.subcategory
        taxonomy_id := if resolved.taxonomy_id > 0 then resolved.taxonomy_id else 0
        from_cache := true
        used_consistency_hints := used_consistency_hints
        suggested_name := suggested_name
        rename_only := rename_only
        rename_applied := rename_applied ||
          (match stored_row db file_name (file_type_code file_type) dir_path with
            | some old => column_flag old.rename_applied
            | none => false) } := by
  rw [get_categorized_file_eq, stored_row_upsert_same]
  have hkey : ∀ old : CacheRow,
      stored_row db file_name (file_type_code file_type) dir_path = some old →
      old.file_name = file_name ∧ old.file_type = file_type_code file_type ∧
        old.dir_path = dir_path := by
    intro old hold
    unfold stored_row at hold
    simpa using List.find?_some hold
  have htype : (if file_type_code file_type = "F".toList then FileType.File
      else FileType.Directory) = file_type := by
    cases file_type <;> decide
  cases hrow : stored_row db file_name (file_type_code file_type) dir_path with
  | none =>
    simp only [Option.some_bind, build_categorized_entry, fresh_row, CategorizedFile.init,
      Option.getD_some, column_flag, htype]
    cases rename_only <;> cases rename_applied <;> cases used_consistency_hints <;>
      by_cases ht : resolved.taxonomy_id > 0 <;> simp [ht]
  | some old =>
    obtain ⟨h1, h2, h3⟩ := hkey old hrow
    simp only [Option.some_bind, build_categorized_entry, fresh_row, upsert_update,
      CategorizedFile.init, Option.getD_some, column_flag, htype, h1, h2, h3]
    cases rename_only <;> cases rename_applied <;> cases used_consistency_hints <;>
      by_cases ht : resolved.taxonomy_id > 0 <;> simp [ht, column_flag]

/-! ## C14: `rename_applied` is monotonic -/

theorem upsert_keeps_applied (db : DatabaseManager) (call : UpsertCall)
    (file_name file_type dir_path : Str)
    (h : ∃ row, stored_row db file_name file_type dir_path = some row ∧
      row.rename_applied = some 1) :
    ∃ row, stored_row (insert_or_update_file_with_categorization db call.file_name
        call.file_type call.dir_path call.resolved call.used_consistency_hints
        call.suggested_name call.rename_only call.rename_applied)
        file_name file_type dir_path = some row ∧
      row.rename_applied = some 1 := by
  obtain ⟨row, hrow, happlied⟩ := h
  by_cases hk : call.file_name = file_name ∧ call.file_type = file_type ∧
      call.dir_path = dir_path
  · obtain ⟨h1, h2, h3⟩ := hk
    subst h1 h2 h3
    rw [stored_row_upsert_same, hrow]
    refine ⟨_, rfl, ?_⟩
    simp only [upsert_update, happlied]
    split <;> rfl
  · rw [stored_row_upsert_other _ _ _ _ _ _ _ _ _ _ _ _ hk]
    exact ⟨row, hrow, happlied⟩

theorem run_upserts_keeps_applied (calls : List UpsertCall) (db : DatabaseManager)
    (file_name file_type dir_path : Str)
    (h : ∃ row, stored_row db file_name file_type dir_path = some row ∧
      row.rename_applied = some 1) :
    ∃ row, stored_row (run_upserts db calls) file_name file_type dir_path = some row ∧
      row.rename_applied = some 1 := by
  induction calls generalizing db with
  | nil => exact h
  | cons call rest ih =>
    exact ih _ (upsert_keeps_applied db call file_name file_type dir_path h)

/-- C14: when the row stored under a key has `rename_applied = 1`, an upsert on that key
with `rename_applied = 0` leaves the stored `rename_applied` at 1, while category,
subcategory, suggested name, taxonomy id (NULL if not positive), style and `rename_only`
take the upserted values and the key columns stay; and after any sequence of upserts
(on this key or on others, with any `rename_applied`) the row stored under the key still
has `rename_applied = 1`. -/
theorem C14_rename_applied_monotonic (db : DatabaseManager) (file_name file_type dir_path : Str)
    (old : CacheRow) (hold : stored_row db file_name file_type dir_path = some old)
    (happlied : old.rename_applied = some 1) :
    (∀ (resolved : ResolvedCategory) (used_consistency_hints : Bool) (suggested_name : Str)
        (rename_only : Bool),
      stored_row (insert_or_update_file_with_categorization db file_name file_type dir_path
        resolved used_consistency_hints suggested_name rename_only false)
        file_name file_type dir_path =
      some { file_name := old.file_name
             file_type := old.file_type
             dir_path := old.dir_path
             category := some resolved.category
             subcategory := some resolved.subcategory
             suggested_name := some suggested_name
             taxonomy_id :=
               if resolved.taxonomy_id > 0 then some resolved.taxonomy_id else none
             categorization_style := some (if used_consistency_hints then 1 else 0)
             rename_only := some (if rename_only then 1 else 0)
             rename_applied := some 1 }) ∧
    (∀ calls : List UpsertCall,
      ∃ row, stored_row (run_upserts db calls) file_name file_type dir_path = some row ∧
        row.rename_applied = some 1) := by
  refine ⟨?_, ?_⟩
  · intro resolved hints suggested ro
    rw [stored_row_upsert_same, hold]
    simp only [upsert_update, fresh_row, happlied]
    simp
  · intro calls
    exact run_upserts_keeps_applied calls db file_name file_type dir_path ⟨old, hold, happlied⟩

/-- The monotonicity theorem in a cache that holds one applied rename for
`("/d", "a.jpg", "F")`. -/
theorem C14_rename_applied_monotonic_witness :
    stored_row
      { DatabaseManager.empty with
        file_categorization :=
          [⟨"a.jpg".toList, "F".toList, "/d".toList, some "Images".toList,
            some "Photos".toList, some "b.jpg".toList, some 1, some 0, some 0, some 1⟩] }
      "a.jpg".toList "F".toList "/d".toList =
      some ⟨"a.jpg".toList, "F".toList, "/d".toList, some "Images".toList,
        some "Photos".toList, some "b.jpg".toList, some 1, some 0, some 0, some 1⟩ ∧
    (∀ calls : List UpsertCall,
      ∃ row, stored_row (run_upserts
        { DatabaseManager.empty with
          file_categorization :=
            [⟨"a.jpg".toList, "F".toList, "/d".toList, some "Images".toList,
              some "Photos".toList, some "b.jpg".toList, some 1, some 0, some 0, some 1⟩] }
        calls) "a.jpg".toList "F".toList "/d".toList = some row ∧
        row.rename_applied = some 1) :=
  ⟨by decide,
    (C14_rename_applied_monotonic _ "a.jpg".toList "F".toList "/d".toList
      ⟨"a.jpg".toList, "F".toList, "/d".toList, some "Images".toList,
        some "Photos".toList, some "b.jpg".toList, some 1, some 0, some 0, some 1⟩
      (by decide) rfl).2⟩

/-! ## C15: pruning -/

theorem mem_dropWhile_of_not {α : Type} (p : α → Bool) (c : α) (l : List α)
    (hc : c ∈ l) (hp : p c = false) : c ∈ l.dropWhile p := by
  induction l with
  | nil => exact absurd hc (List.not_mem_nil c)
  | cons d rest ih =>
    rw [List.dropWhile_cons]
    by_cases hd : p d = true
    · rw [if_pos hd]
      rcases List.mem_cons.mp hc with h1 | h1
      · rw [h1, hd] at hp
        exact Bool.noConfusion hp
      · exact ih h1
    · rw [if_neg hd]
      exact hc

/-- C11 at the reply `"Images:Images"` (scenario D): `categorize_single_entry` emits one
`[LLM-ERROR]` message, removes the stale row and calls the recategorization callback once
with the "invalid category/subcategory" reason; but `handle_empty_result` hands back
`std::nullopt` on this path as on every other, so the function goes on to
`update_storage_with_result`: it upserts a row with empty labels for the entry and returns
a `CategorizedFile` with empty labels and taxonomy id -1. -/
theorem C11_failing_input :
    (categorize_single_entry scenarioD_env scenarioD_world true
      ⟨"/d/a.jpg".toList, "a.jpg".toList, FileType.File⟩ []).1.toOption =
      some (some ⟨"/d".toList, "a.jpg".toList, FileType.File, [], [], -1,
        false, false, [], false, false⟩) ∧
    (categorize_single_entry scenarioD_env scenarioD_world true
      ⟨"/d/a.jpg".toList, "a.jpg".toList, FileType.File⟩ []).2.db.file_categorization =
      [⟨"a.jpg".toList, "F".toList, "/d".toList, some [], some [], some [], none,
        some 0, some 0, some 0⟩] ∧
    (categorize_single_entry scenarioD_env scenarioD_world true
      ⟨"/d/a.jpg".toList, "a.jpg".toList, FileType.File⟩ []).2.recategorized.map Prod.snd =
      ["Categorization returned invalid category/subcategory and was skipped.".toList] ∧
    (categorize_single_entry scenarioD_env scenarioD_world true
      ⟨"/d/a.jpg".toList, "a.jpg".toList, FileType.File⟩ []).2.progress =
      [("[LLM-ERROR] a.jpg (invalid category/subcategory: " ++
        "Category and subcategory are identical)").toList] := by
  decide!

/-! ## Lemmas on the retry loop -/

theorem emit_db (env : Env) (w : World) (message : Str) : (emit env w message).db = w.db := by
  unfold emit
  split <;> rfl

theorem emit_stop_loads (env : Env) (w : World) (message : Str) :
    (emit env w message).stop_loads = w.stop_loads := by
  unfold emit
  split <;> rfl

/-- The waiting loop changes neither the database nor the number of model calls; it is
ended by the stop flag exactly when one of its loads sees the flag set, and otherwise it
has made `n` loads. -/
theorem backoff_wait_spec (env : Env) (file_name : Str) (n : Nat) (w : World) :
    (backoff_wait env file_name n w).2.db = w.db ∧
    (backoff_wait env file_name n w).2.llm_calls = w.llm_calls ∧
    ((backoff_wait env file_name n w).1 = true ↔ StopDuring env w.stop_loads n) ∧
    ((backoff_wait env file_name n w).1 = false →
      (backoff_wait env file_name n w).2.stop_loads = w.stop_loads + n) := by
  induction n generalizing w with
  | zero =>
    refine ⟨rfl, rfl, ?_, fun _ => rfl⟩
    constructor
    · intro h
      exact absurd h (by simp [backoff_wait])
    · rintro ⟨i, hi, _⟩
      exact absurd hi (Nat.not_lt_zero i)
  | succ n ih =>
    unfold backoff_wait load_stop_flag
    cases hflag : env.stop_flag w.stop_loads with
    | true =>
      simp only
      refine ⟨trivial, trivial, ?_, fun h => absurd h (by simp)⟩
      constructor
      · intro _
        exact ⟨0, Nat.succ_pos n, hflag⟩
      · intro _
        trivial
    | false =>
      simp only
      generalize hw2 : ({ (if (n + 1) % 10 = 0 ∨ n + 1 ≤ 3 then
          emit env { w with stop_loads := w.stop_loads + 1 }
            ("[REMOTE] Retrying ".toList ++ file_name ++ " in ".toList ++
              (Nat.repr (n + 1)).toList ++ "s...".toList)
          else { w with stop_loads := w.stop_loads + 1 }) with
          slept := (if (n + 1) % 10 = 0 ∨ n + 1 ≤ 3 then
            emit env { w with stop_loads := w.stop_loads + 1 }
              ("[REMOTE] Retrying ".toList ++ file_name ++ " in ".toList ++
                (Nat.repr (n + 1)).toList ++ "s...".toList)
            else { w with stop_loads := w.stop_loads + 1 }).slept + 1 } : World) = w2
      have hdb : w2.db = w.db := by
        rw [← hw2]
        simp only
        split
        · rw [emit_db]
        · rfl
      have hcalls : w2.llm_calls = w.llm_calls := by
        rw [← hw2]
        simp only
        split
        · rw [emit_llm_calls]
        · rfl
      have hloads : w2.stop_loads = w.stop_loads + 1 := by
        rw [← hw2]
        simp only
        split
        · rw [emit_stop_loads]
        · rfl
      obtain ⟨h1, h2, h3, h4⟩ := ih w2
      refine ⟨h1.trans hdb, h2.trans hcalls, ?_, ?_⟩
      · rw [h3, hloads]
        constructor
        · rintro ⟨i, hi, hset⟩
          exact ⟨i + 1, Nat.succ_lt_succ hi, by rw [← hset]; congr 1; omega⟩
        · rintro ⟨i, hi, hset⟩
          cases i with
          | zero =>
            rw [Nat.add_zero, hflag] at hset
            exact Bool.noConfusion hset
          | succ j =>
            exact ⟨j, Nat.lt_of_succ_lt_succ hi, by rw [← hset]; congr 1; omega⟩
      · intro hf
        rw [h4 hf, hloads]
        omega

theorem backoff_handler_spec (env : Env) (w : World) (file_name : Str) (seconds : Int) :
    (backoff_handler env w file_name seconds).2.db = w.db ∧
    (backoff_handler env w file_name seconds).2.llm_calls = w.llm_calls ∧
    ((backoff_handler env w file_name seconds).1 = true ↔
      StopDuring env w.stop_loads (wait_seconds seconds)) ∧
    ((backoff_handler env w file_name seconds).1 = false →
      (backoff_handler env w file_name seconds).2.stop_loads =
        w.stop_loads + wait_seconds seconds) := by
  unfold backoff_handler
  simp only
  obtain ⟨h1, h2, h3, h4⟩ := backoff_wait_spec env file_name
    (if seconds > 0 then seconds else 60).toNat
    (emit env w ("[REMOTE] Rate limit hit. Waiting ".toList ++
      (Nat.repr (if seconds > 0 then seconds else 60).toNat).toList ++
      "s before retrying ".toList ++ file_name ++ "...".toList))
  rw [emit_db] at h1
  rw [emit_llm_calls] at h2
  rw [emit_stop_loads] at h3 h4
  exact ⟨h1, h2, h3, h4⟩
theorem ensure_remote_true (env : Env) (w : World) (name : Str)
    (h : (ensure_remote_credentials_for_request env w name).1 = true) (w2 : World) :
    ensure_remote_credentials_for_request env w2 name = (true, w2) := by
  unfold ensure_remote_credentials_for_request at h ⊢
  by_cases h1 : (!is_remote_choice env.settings.llm_choice) = true
  · rw [if_pos h1]
  · rw [if_neg h1] at h ⊢
    by_cases h2 : env.settings.llm_choice = LLMChoice.Remote_Custom
    · rw [if_pos h2] at h ⊢
      by_cases h3 : env.settings.custom_endpoint_valid = true
      · rw [if_pos h3]
      · rw [if_neg h3] at h
        exact absurd h (by simp)
    · rw [if_neg h2] at h ⊢
      simp only at h ⊢
      by_cases h3 : (if env.settings.llm_choice = LLMChoice.Remote_OpenAI then
          !env.settings.openai_api_key.isEmpty
          else !env.settings.gemini_api_key.isEmpty) = true
      · rw [if_pos h3]
      · rw [if_neg h3] at h
        exact absurd h (by simp)

theorem ensure_remote_calls (env : Env) (w : World) (name : Str) :
    (ensure_remote_credentials_for_request env w name).2.llm_calls = w.llm_calls := by
  unfold ensure_remote_credentials_for_request
  split_ifs <;> simp only [emit_llm_calls] <;> split <;> simp only [emit_llm_calls]

/-- On a cache miss with usable credentials `categorize_with_cache` is
`categorize_via_llm`, in every world with the same database. -/
theorem categorize_with_cache_miss (env : Env) (w : World) (is_local_llm : Bool)
    (name path dir : Str) (type : FileType)
    (hmiss : ¬ CacheAccepted env w.db dir name type)
    (hcred : is_local_llm = true ∨ (ensure_remote_credentials_for_request env w name).1 = true)
    (w2 : World) (hdb : w2.db = w.db) :
    categorize_with_cache env w2 is_local_llm name path dir type =
      categorize_via_llm env w2 name path := by
  unfold categorize_with_cache
  rw [try_cached_miss env w2 name path dir type (by rw [hdb]; exact hmiss)]
  simp only
  unfold categorize_uncached
  cases is_local_llm with
  | true => rfl
  | false =>
    rcases hcred with h | h
    · exact absurd h (by simp)
    · rw [ensure_remote_true env w name h w2]
      rfl

theorem via_llm_backoff (env : Env) (w : World) (name path : Str) (seconds : Int) (what : Str)
    (h : env.llm w.llm_calls = LlmOutcome.backoff seconds what) :
    categorize_via_llm env w name path =
      (Except.error (Exn.backoff seconds what),
        emit env { w with llm_calls := w.llm_calls + 1 }
          ("[LLM-ERROR] ".toList ++ name ++ " (".toList ++ what ++ ")".toList)) := by
  unfold categorize_via_llm run_llm_with_timeout
  rw [h]
  rfl

theorem via_llm_reply_valid (env : Env) (w : World) (name path text : Str)
    (h : env.llm w.llm_calls = LlmOutcome.reply text)
    (hv : (validate_labels (reply_labels env w.db text).category
      (reply_labels env w.db text).subcategory).valid = true) :
    (categorize_via_llm env w name path).1 = Except.ok (reply_labels env w.db text) ∧
    (categorize_via_llm env w name path).2.llm_calls = w.llm_calls + 1 := by
  have hne : (reply_labels env w.db text).category.isEmpty = false :=
    ((validate_labels_valid _ _).mp hv).1.1
  unfold reply_labels at hv hne
  unfold categorize_via_llm run_llm_with_timeout
  rw [h]
  simp only [hv, hne, Bool.not_true, Bool.false_eq_true, if_false]
  refine ⟨rfl, ?_⟩
  unfold emit_progress_message
  rw [emit_llm_calls]

theorem via_llm_reply_invalid (env : Env) (w : World) (name path text : Str)
    (h : env.llm w.llm_calls = LlmOutcome.reply text)
    (hv : (validate_labels (reply_labels env w.db text).category
      (reply_labels env w.db text).subcategory).valid = false) :
    categorize_via_llm env w name path =
      (Except.ok ⟨-1, [], []⟩,
        emit env { w with
            llm_calls := w.llm_calls + 1
            db := (resolve_category w.db (split_category_subcategory env.sanitize text).1
              (split_category_subcategory env.sanitize text).2).2 }
          ("[LLM-ERROR] ".toList ++ name ++ " (invalid category/subcategory: ".toList ++
            (validate_labels (reply_labels env w.db text).category
              (reply_labels env w.db text).subcategory).error.toList ++ ")".toList)) := by
  unfold reply_labels at hv ⊢
  unfold categorize_via_llm run_llm_with_timeout
  rw [h]
  simp only [hv, Bool.not_false, if_true]

theorem via_llm_calls (env : Env) (w : World) (name path : Str) :
    (categorize_via_llm env w name path).2.llm_calls = w.llm_calls + 1 := by
  unfold categorize_via_llm run_llm_with_timeout
  cases env.llm w.llm_calls <;> simp only [emit_llm_calls]
  split
  · rw [emit_llm_calls]
  · unfold emit_progress_message
    rw [emit_llm_calls]

theorem categorize_with_cache_calls (env : Env) (w : World) (is_local_llm : Bool)
    (name path dir : Str) (type : FileType) :
    (categorize_with_cache env w is_local_llm name path dir type).2.llm_calls
      ≤ w.llm_calls + 1 := by
  by_cases hacc : CacheAccepted env w.db dir name type
  · obtain ⟨row, hrow, hc, hs, hv⟩ := hacc
    rw [categorize_with_cache_hit env w is_local_llm name path dir type row hrow hc hs hv]
    unfold emit_progress_message
    rw [emit_llm_calls]
    exact Nat.le_succ _
  · unfold categorize_with_cache
    rw [try_cached_miss env w name path dir type hacc]
    simp only
    unfold categorize_uncached
    cases is_local_llm with
    | true =>
      simp only [if_true]
      rw [via_llm_calls]
    | false =>
      simp only [Bool.false_eq_true, if_false]
      have hc := ensure_remote_calls env w name
      rcases hres : ensure_remote_credentials_for_request env w name with ⟨ok, w2⟩
      rw [hres] at hc
      simp only at hc
      cases ok with
      | false =>
        simp only
        omega
      | true =>
        simp only
        rw [via_llm_calls, hc]
/-! ## C12: the retry after a rate-limit error -/

theorem single_entry_calls (env : Env) (w : World) (is_local_llm : Bool) (entry : FileEntry)
    (suggested_name : Str) :
    (categorize_single_entry env w is_local_llm entry suggested_name).2.llm_calls
      ≤ w.llm_calls + 2 := by
  unfold categorize_single_entry
  simp only
  have h1 := categorize_with_cache_calls env w is_local_llm entry.file_name
    (env.abbreviate_user_path entry.full_path) (env.parent_path entry.full_path) entry.type
  rcases hr1 : categorize_with_cache env w is_local_llm entry.file_name
    (env.abbreviate_user_path entry.full_path) (env.parent_path entry.full_path) entry.type
    with ⟨r1, w1⟩
  rw [hr1] at h1
  simp only at h1
  cases r1 with
  | ok resolved =>
    simp only
    rw [(finish_single_entry_result env w1 entry _ resolved suggested_name).2]
    omega
  | error ex =>
    cases ex with
    | runtime what =>
      simp only
      omega
    | backoff seconds what =>
      simp only
      have h2 := (backoff_handler_spec env w1 entry.file_name seconds).2.1
      rcases hh : backoff_handler env w1 entry.file_name seconds with ⟨b, w2⟩
      rw [hh] at h2
      simp only at h2
      cases b with
      | true =>
        simp only
        omega
      | false =>
        simp only
        have h3 := categorize_with_cache_calls env w2 is_local_llm entry.file_name
          (env.abbreviate_user_path entry.full_path) (env.parent_path entry.full_path)
          entry.type
        rcases hr2 : categorize_with_cache env w2 is_local_llm entry.file_name
          (env.abbreviate_user_path entry.full_path) (env.parent_path entry.full_path)
          entry.type with ⟨r2, w3⟩
        rw [hr2] at h3
        simp only at h3
        cases r2 with
        | ok resolved =>
          simp only
          rw [(finish_single_entry_result env w3 entry _ resolved suggested_name).2]
          omega
        | error ex =>
          cases ex with
          | runtime what =>
            simp only
            omega
          | backoff seconds2 what2 =>
            simp only
            have h4 := (backoff_handler_spec env w3 entry.file_name seconds2).2.1
            rcases hh2 : backoff_handler env w3 entry.file_name seconds2 with ⟨b2, w4⟩
            rw [hh2] at h4
            simp only at h4
            cases b2 <;> simp only <;> omega

/-- What `categorize_single_entry` does after a first call that raised a rate-limit error,
in terms of the world `w1` left by that call. -/
theorem single_entry_after_backoff (env : Env) (w w1 : World) (is_local_llm : Bool)
    (entry : FileEntry) (suggested_name : Str) (seconds : Int) (what : Str)
    (h1 : categorize_with_cache env w is_local_llm entry.file_name
      (env.abbreviate_user_path entry.full_path) (env.parent_path entry.full_path) entry.type
      = (Except.error (Exn.backoff seconds what), w1)) :
    categorize_single_entry env w is_local_llm entry suggested_name =
      match backoff_handler env w1 entry.file_name seconds with
      | (true, w2) => (Except.ok none, w2)
      | (false, w2) =>
        match categorize_with_cache env w2 is_local_llm entry.file_name
            (env.abbreviate_user_path entry.full_path) (env.parent_path entry.full_path)
            entry.type with
        | (Except.ok resolved, w3) =>
          (Except.ok (finish_single_entry env w3 entry (env.parent_path entry.full_path)
              resolved suggested_name).1,
            (finish_single_entry env w3 entry (env.parent_path entry.full_path) resolved
              suggested_name).2)
        | (Except.error (Exn.runtime what2), w3) => (Except.error (Exn.runtime what2), w3)
        | (Except.error (Exn.backoff seconds2 what2), w3) =>
          match backoff_handler env w3 entry.file_name seconds2 with
          | (true, w4) => (Except.ok none, w4)
          | (false, w4) => (Except.error (Exn.backoff seconds2 what2), w4) := by
  unfold categorize_single_entry
  simp only
  rw [h1]

/-- C12, as stated, fails in one case: when the second call raises a rate-limit error too,
the wait loop runs a second time before the error is rethrown, and a stop flag that is set
during that second wait makes `categorize_single_entry` return `std::nullopt` instead of
propagating the error.  Here every call raises a rate-limit error with `retry_after = 2`
and the stop flag is set from its third load on: two calls are made and the result is
"no result", not an error. -/
theorem C12_counterexample :
    (categorize_single_entry stoppedRetry_env fresh_world false
      ⟨"/d/a.jpg".toList, "a.jpg".toList, FileType.File⟩ []).1.toOption = some none ∧
    (categorize_single_entry stoppedRetry_env fresh_world false
      ⟨"/d/a.jpg".toList, "a.jpg".toList, FileType.File⟩ []).2.llm_calls = 2 := by
  decide!

/-- C12 (amended): `categorize_single_entry` calls the model at most twice.  When the
first call (made on a cache miss, with usable credentials) raises a rate-limit error:
if the stop flag is seen set during the wait, no result is returned, the database is
unchanged and one call was made; otherwise a second call is made, and
(1) if it answers with labels that pass the validation, the result carries these labels
and exactly two calls were made;
(2) if it raises a rate-limit error again, the database is unchanged, two calls were made,
and after a second wait the error propagates, unless the stop flag is seen set during
that second wait, in which case no result is returned and no error propagates. -/
theorem C12_backoff_retry (env : Env) (w : World) (is_local_llm : Bool) (entry : FileEntry)
    (suggested_name : Str) :
    (categorize_single_entry env w is_local_llm entry suggested_name).2.llm_calls
      ≤ w.llm_calls + 2 ∧
    (∀ (seconds : Int) (what : Str),
      ¬ CacheAccepted env w.db (env.parent_path entry.full_path) entry.file_name entry.type →
      (is_local_llm = true ∨
        (ensure_remote_credentials_for_request env w entry.file_name).1 = true) →
      env.llm w.llm_calls = LlmOutcome.backoff seconds what →
      (StopDuring env w.stop_loads (wait_seconds seconds) →
        (categorize_single_entry env w is_local_llm entry suggested_name).1 = Except.ok none ∧
        (categorize_single_entry env w is_local_llm entry suggested_name).2.db = w.db ∧
        (categorize_single_entry env w is_local_llm entry suggested_name).2.llm_calls
          = w.llm_calls + 1) ∧
      (¬ StopDuring env w.stop_loads (wait_seconds seconds) →
        (∀ text, env.llm (w.llm_calls + 1) = LlmOutcome.reply text →
          (validate_labels (reply_labels env w.db text).category
            (reply_labels env w.db text).subcategory).valid = true →
          (categorize_single_entry env w is_local_llm entry suggested_name).1 =
            Except.ok (some
              { CategorizedFile.init (env.parent_path entry.full_path) entry.file_name
                  entry.type (reply_labels env w.db text).category
                  (reply_labels env w.db text).subcategory
                  (reply_labels env w.db text).taxonomy_id with
                used_consistency_hints := env.settings.use_consistency_hints
                suggested_name := suggested_name }) ∧
          (categorize_single_entry env w is_local_llm entry suggested_name).2.llm_calls
            = w.llm_calls + 2) ∧
        (∀ (seconds2 : Int) (what2 : Str),
          env.llm (w.llm_calls + 1) = LlmOutcome.backoff seconds2 what2 →
          (categorize_single_entry env w is_local_llm entry suggested_name).2.llm_calls
            = w.llm_calls + 2 ∧
          (categorize_single_entry env w is_local_llm entry suggested_name).2.db = w.db ∧
          (¬ StopDuring env (w.stop_loads + wait_seconds seconds) (wait_seconds seconds2) →
            (categorize_single_entry env w is_local_llm entry suggested_name).1 =
              Except.error (Exn.backoff seconds2 what2)) ∧
          (StopDuring env (w.stop_loads + wait_seconds seconds) (wait_seconds seconds2) →
            (categorize_single_entry env w is_local_llm entry suggested_name).1 =
              Except.ok none)))) := by
  refine ⟨single_entry_calls env w is_local_llm entry suggested_name, ?_⟩
  intro seconds what hmiss hcred hfirst
  have hcwc1 := categorize_with_cache_miss env w is_local_llm entry.file_name
    (env.abbreviate_user_path entry.full_path) (env.parent_path entry.full_path) entry.type
    hmiss hcred w rfl
  rw [via_llm_backoff env w _ _ seconds what hfirst] at hcwc1
  rw [single_entry_after_backoff env w _ is_local_llm entry suggested_name seconds what hcwc1]
  obtain ⟨hdb, hcalls, hstop, hloads⟩ := backoff_handler_spec env
    (emit env { w with llm_calls := w.llm_calls + 1 }
      ("[LLM-ERROR] ".toList ++ entry.file_name ++ " (".toList ++ what ++ ")".toList))
    entry.file_name seconds
  rw [emit_db] at hdb
  rw [emit_llm_calls] at hcalls
  rw [emit_stop_loads] at hstop hloads
  simp only at hdb hcalls hstop hloads
  rcases hh : backoff_handler env
    (emit env { w with llm_calls := w.llm_calls + 1 }
      ("[LLM-ERROR] ".toList ++ entry.file_name ++ " (".toList ++ what ++ ")".toList))
    entry.file_name seconds with ⟨b, w2⟩
  rw [hh] at hdb hcalls hstop hloads
  simp only at hdb hcalls hstop hloads
  cases b with
  | true =>
    simp only
    refine ⟨fun _ => ⟨trivial, hdb, hcalls⟩, fun hn => absurd (hstop.mp rfl) hn⟩
  | false =>
    simp only
    have hloads2 := hloads rfl
    refine ⟨fun hs => absurd (hstop.mpr hs) (by simp), fun _ => ⟨?_, ?_⟩⟩
    · intro text hreply hvalid
      rw [categorize_with_cache_miss env w is_local_llm entry.file_name
        (env.abbreviate_user_path entry.full_path) (env.parent_path entry.full_path)
        entry.type hmiss hcred w2 hdb]
      have hreply2 : env.llm w2.llm_calls = LlmOutcome.reply text := by
        rw [hcalls]
        exact hreply
      have hvalid2 : (validate_labels (reply_labels env w2.db text).category
          (reply_labels env w2.db text).subcategory).valid = true := by
        rw [hdb]
        exact hvalid
      obtain ⟨hres, hc⟩ := via_llm_reply_valid env w2 entry.file_name
        (env.abbreviate_user_path entry.full_path) text hreply2 hvalid2
      rcases hv : categorize_via_llm env w2 entry.file_name
        (env.abbreviate_user_path entry.full_path) with ⟨r, w3⟩
      rw [hv] at hres hc
      simp only at hres hc
      subst hres
      simp only
      obtain ⟨hf1, hf2⟩ := finish_single_entry_result env w3 entry
        (env.parent_path entry.full_path) (reply_labels env w2.db text) suggested_name
      rw [hf1, hf2, hc, hcalls, hdb]
      exact ⟨rfl, rfl⟩
    · intro seconds2 what2 hsecond
      rw [categorize_with_cache_miss env w is_local_llm entry.file_name
        (env.abbreviate_user_path entry.full_path) (env.parent_path entry.full_path)
        entry.type hmiss hcred w2 hdb]
      have hsecond2 : env.llm w2.llm_calls = LlmOutcome.backoff seconds2 what2 := by
        rw [hcalls]
        exact hsecond
      rw [via_llm_backoff env w2 _ _ seconds2 what2 hsecond2]
      simp only
      obtain ⟨hdb2, hcalls2, hstop2, _⟩ := backoff_handler_spec env
        (emit env { w2 with llm_calls := w2.llm_calls + 1 }
          ("[LLM-ERROR] ".toList ++ entry.file_name ++ " (".toList ++ what2 ++ ")".toList))
        entry.file_name seconds2
      rw [emit_db] at hdb2
      rw [emit_llm_calls] at hcalls2
      rw [emit_stop_loads] at hstop2
      simp only at hdb2 hcalls2 hstop2
      rcases hh2 : backoff_handler env
        (emit env { w2 with llm_calls := w2.llm_calls + 1 }
          ("[LLM-ERROR] ".toList ++ entry.file_name ++ " (".toList ++ what2 ++ ")".toList))
        entry.file_name seconds2 with ⟨b2, w4⟩
      rw [hh2] at hdb2 hcalls2 hstop2
      simp only at hdb2 hcalls2 hstop2
      rw [hloads2] at hstop2
      cases b2 with
      | true =>
        simp only
        refine ⟨by rw [hcalls2, hcalls], hdb2.trans hdb,
          fun hn => absurd (hstop2.mp rfl) hn, fun _ => trivial⟩
      | false =>
        simp only
        refine ⟨by rw [hcalls2, hcalls], hdb2.trans hdb, fun _ => trivial,
          fun hs => absurd (hstop2.mpr hs) (by simp)⟩
/-- The retry theorem in scenario C: the first call raises a rate-limit error with
`retry_after = 2`, the second answers `"Images:Photos"`, the stop flag is never set; the
result carries `Images` / `Photos` (entry 1 of the fresh taxonomy) and two calls were
made. -/
theorem C12_backoff_retry_witness :
    scenarioC_env.llm fresh_world.llm_calls = LlmOutcome.backoff 2 "rate limit".toList ∧
    scenarioC_env.llm (fresh_world.llm_calls + 1) = LlmOutcome.reply "Images:Photos".toList ∧
    reply_labels scenarioC_env fresh_world.db "Images:Photos".toList =
      ⟨1, "Images".toList, "Photos".toList⟩ ∧
    ((categorize_single_entry scenarioC_env fresh_world false
        ⟨"/d/a.jpg".toList, "a.jpg".toList, FileType.File⟩ []).1 =
      Except.ok (some
        { CategorizedFile.init
            (scenarioC_env.parent_path "/d/a.jpg".toList) "a.jpg".toList FileType.File
            (reply_labels scenarioC_env fresh_world.db "Images:Photos".toList).category
            (reply_labels scenarioC_env fresh_world.db "Images:Photos".toList).subcategory
            (reply_labels scenarioC_env fresh_world.db "Images:Photos".toList).taxonomy_id with
          used_consistency_hints := scenarioC_env.settings.use_consistency_hints
          suggested_name := [] }) ∧
      (categorize_single_entry scenarioC_env fresh_world false
        ⟨"/d/a.jpg".toList, "a.jpg".toList, FileType.File⟩ []).2.llm_calls
        = fresh_world.llm_calls + 2) :=
  ⟨rfl, rfl, by decide!,
    ((((C12_backoff_retry scenarioC_env fresh_world false
        ⟨"/d/a.jpg".toList, "a.jpg".toList, FileType.File⟩ []).2 2 "rate limit".toList
      (by rintro ⟨row, h, _⟩; cases h) (Or.inr (by decide)) rfl).2
      (by rintro ⟨i, _, h⟩; cases h)).1 "Images:Photos".toList rfl (by decide!))⟩

/-! ## The path after a rejected reply, in general -/

theorem stored_row_removed (db : DatabaseManager) (dir_path file_name : Str)
    (file_type : FileType) :
    stored_row (remove_file_categorization db dir_path file_name file_type) file_name
      (file_type_code file_type) dir_path = none := by
  unfold stored_row remove_file_categorization
  simp only
  rw [List.find?_eq_none]
  intro row hrow
  rw [List.mem_filter] at hrow
  have h := hrow.2
  simp only [Bool.not_eq_true', decide_eq_false_iff_not] at h
  simp only [decide_eq_true_eq]
  rintro ⟨h1, h2, h3⟩
  exact h ⟨h3, h1, h2⟩

/-- After any reply whose labels fail the validation (on a cache miss, with usable
credentials), `categorize_single_entry` returns a `CategorizedFile` with empty labels and
taxonomy id -1, and the cache holds a freshly inserted row with empty labels under the key
of the entry. -/
theorem invalid_reply_is_stored (env : Env) (w : World) (is_local_llm : Bool)
    (entry : FileEntry) (suggested_name text : Str)
    (hmiss : ¬ CacheAccepted env w.db (env.parent_path entry.full_path) entry.file_name
      entry.type)
    (hcred : is_local_llm = true ∨
      (ensure_remote_credentials_for_request env w entry.file_name).1 = true)
    (hreply : env.llm w.llm_calls = LlmOutcome.reply text)
    (hinvalid : (validate_labels (reply_labels env w.db text).category
      (reply_labels env w.db text).subcategory).valid = false) :
    (categorize_single_entry env w is_local_llm entry suggested_name).1 =
      Except.ok (some
        { CategorizedFile.init (env.parent_path entry.full_path) entry.file_name entry.type
            [] [] (-1) with
          used_consistency_hints := env.settings.use_consistency_hints
          suggested_name := suggested_name }) ∧
    stored_row (categorize_single_entry env w is_local_llm entry suggested_name).2.db
      entry.file_name (file_type_code entry.type) (env.parent_path entry.full_path) =
      some (fresh_row entry.file_name (file_type_code entry.type)
        (env.parent_path entry.full_path) ⟨-1, [], []⟩ env.settings.use_consistency_hints
        suggested_name false false) := by
  have hcwc := categorize_with_cache_miss env w is_local_llm entry.file_name
    (env.abbreviate_user_path entry.full_path) (env.parent_path entry.full_path) entry.type
    hmiss hcred w rfl
  rw [via_llm_reply_invalid env w _ _ text hreply hinvalid] at hcwc
  unfold categorize_single_entry
  simp only
  rw [hcwc]
  simp only
  refine ⟨by rw [(finish_single_entry_result _ _ _ _ _ _).1], ?_⟩
  unfold finish_single_entry handle_empty_result update_storage_with_result
  simp only [List.isEmpty_nil, Bool.not_true, Bool.false_and, Bool.false_eq_true, if_false]
  split <;> simp only <;> rw [stored_row_upsert_same, stored_row_removed]

/-! ## C17: the layer estimate for CUDA and Vulkan -/

theorem compute_cuda_budget_ok (memory : CudaMemoryInfo) (bytes_per_layer : ℚ)
    (hmem : 0 < memory.total_bytes ∨ 0 < memory.free_bytes) (hbpl : 0 < bytes_per_layer) :
    ∃ budget, compute_cuda_budget true memory bytes_per_layer = Except.ok budget ∧
      0 < budget.budget_bytes := by
  unfold compute_cuda_budget
  simp only [Bool.not_true, Bool.false_eq_true, if_false]
  have hf : (0 : ℚ) ≤ memory.free_bytes := Nat.cast_nonneg _
  have ht : (0 : ℚ) ≤ memory.total_bytes := Nat.cast_nonneg _
  have hpos : 0 < (memory.total_bytes : ℚ) ∨ 0 < (memory.free_bytes : ℚ) := by
    rcases hmem with h | h
    · exact Or.inl (by exact_mod_cast h)
    · exact Or.inr (by exact_mod_cast h)
  generalize (memory.free_bytes : ℚ) = f at hf hpos ⊢
  generalize (memory.total_bytes : ℚ) = t at ht hpos ⊢
  have husable : 0 < max (if t ≤ 0 then f else t) f := by
    rw [lt_max_iff]
    by_cases h : t ≤ 0
    · rw [if_pos h]
      rcases hpos with h2 | h2
      · exact absurd h2 (not_lt.mpr h)
      · exact Or.inl h2
    · rw [if_neg h]
      exact Or.inl (not_le.mp h)
  generalize max (if t ≤ 0 then f else t) f = u at husable ⊢
  rw [if_neg (not_le.mpr husable)]
  have hfree : 0 < (if f ≤ 0 then u * (80 / 100) else if f > u then u else f) := by
    by_cases h : f ≤ 0
    · rw [if_pos h]
      positivity
    · rw [if_neg h]
      by_cases h2 : f > u
      · rw [if_pos h2]
        exact husable
      · rw [if_neg h2]
        exact not_le.mp h
  rw [if_neg (by
    rintro (h | h)
    · exact absurd hfree (not_lt.mpr h)
    · exact absurd hbpl (not_lt.mpr h))]
  refine ⟨_, rfl, ?_⟩
  generalize (if f ≤ 0 then u * (80 / 100) else if f > u then u else f) = fr at hfree ⊢
  have hlo : 0 < u * (45 / 100) := by positivity
  have hhi : 0 < min (fr * (98 / 100)) (u * (90 / 100)) := by
    rw [lt_min_iff]
    constructor <;> positivity
  simp only [std_clamp]
  split_ifs <;> linarith

theorem finalize_cuda_estimate_layers (metrics : LayerMetrics) (budget : CudaBudget)
    (hbpl : 0 < metrics.bytes_per_layer) :
    (finalize_cuda_estimate metrics budget).2.layers =
      (if double_to_int32
          (Rat.floor (budget.budget_bytes / (metrics.bytes_per_layer * (108 / 100)))) ≤ 0
       then 0
       else min (double_to_int32
          (Rat.floor (budget.budget_bytes / (metrics.bytes_per_layer * (108 / 100)))))
         metrics.total_layers) := by
  unfold finalize_cuda_estimate
  have hden : ¬ metrics.bytes_per_layer * (108 / 100) ≤ 0 := by
    apply not_le.mpr
    positivity
  simp only [hden, if_false]
  split
  · rfl
  · rename_i h
    simp only [std_clamp]
    generalize double_to_int32
      (Rat.floor (budget.budget_bytes / (metrics.bytes_per_layer * (108 / 100)))) = v at h ⊢
    have h1 : ¬ v < 1 := by omega
    rw [if_neg h1]
    split
    · rename_i h2
      exact (min_eq_right (le_of_lt h2)).symm
    · rename_i h2
      exact (min_eq_left (not_lt.mp h2)).symm

/-- The conversion keeps a value from 0 to `INT_MAX` and turns a larger one into
`INT_MIN`. -/
theorem double_to_int32_cases (value : Int) (h0 : 0 ≤ value) :
    (value ≤ INT_MAX → double_to_int32 value = value) ∧
    (INT_MAX < value → double_to_int32 value = INT_MIN) := by
  unfold double_to_int32 INT_MIN INT_MAX
  constructor
  · intro h
    rw [if_pos ⟨by omega, h⟩]
  · intro h
    rw [if_neg (fun hh => absurd hh.2 (not_le.mpr h))]

/-- C17, as stated, fails: for a device that reports 1 GiB total and free and a model of
100 GiB with 10 blocks, the budget (832 MiB) is below the cost of one layer, the floor is 0,
and `finalize_cuda_estimate` answers 0 layers ("insufficient CUDA memory budget"), not 1.
The bounds of the clamp are in order here (0.45 GiB and 0.9 GiB) and the floor fits
`int32_t`, so every step of the computation is defined. -/
theorem C17_counterexample :
    (estimate_gpu_layers_for_cuda large_model_host
      ⟨1024 * 1024 * 1024, 1024 * 1024 * 1024⟩).layers = 0 ∧
    (compute_cuda_budget true ⟨1024 * 1024 * 1024, 1024 * 1024 * 1024⟩
      ((100 * 1024 * 1024 * 1024 : ℚ) / 10)).toOption.map (fun budget => budget.budget_bytes)
      = some (832 * 1024 * 1024) ∧
    cuda_clamp_arguments true ⟨1024 * 1024 * 1024, 1024 * 1024 * 1024⟩
      ((100 * 1024 * 1024 * 1024 : ℚ) / 10) =
      some (832 * 1024 * 1024, 1024 * 1024 * 1024 * (45 / 100),
        1024 * 1024 * 1024 * (90 / 100)) ∧
    Rat.floor ((832 * 1024 * 1024 : ℚ) /
      ((100 * 1024 * 1024 * 1024 : ℚ) / 10 * (108 / 100))) = 0 := by
  decide!

/-- C17 (amended): for a valid memory report with a positive total or free size, a model
file of positive size and a positive block count, `compute_cuda_budget` succeeds with a
positive budget.  Let `q = floor(budget / (bytes_per_layer * 1.08))`.  When `q` fits
`int32_t` (`q <= INT_MAX`), the estimate is 0 if `q` is 0 (that is, if the budget is below
`bytes_per_layer * 1.08`) and otherwise `q` capped at the block count.  When `q` exceeds
`INT_MAX`, the conversion to `int32_t` is undefined in C++ and the program built for
x86-64 answers 0 layers.  In both cases the layer count is at least 0 and at most the
block count, and it is at least 1 exactly when one layer fits the budget and `q` fits
`int32_t`. -/
theorem C17_layer_estimate_in_range (host : GpuHost) (memory : CudaMemoryInfo)
    (file_size : Nat) (block_count : Int)
    (hvalid : host.memory_valid memory = true)
    (hmem : 0 < memory.total_bytes ∨ 0 < memory.free_bytes)
    (hfile : host.file_size = some file_size) (hsize : 0 < file_size)
    (hblocks : host.block_count = some block_count) (hcount : 0 < block_count) :
    ∃ budget,
      compute_cuda_budget true memory ((file_size : ℚ) / (block_count : ℚ))
        = Except.ok budget ∧
      0 < budget.budget_bytes ∧
      (Rat.floor (budget.budget_bytes /
          ((file_size : ℚ) / (block_count : ℚ) * (108 / 100))) ≤ INT_MAX →
        (estimate_gpu_layers_for_cuda host memory).layers =
          (if Rat.floor (budget.budget_bytes /
              ((file_size : ℚ) / (block_count : ℚ) * (108 / 100))) ≤ 0 then 0
           else min (Rat.floor (budget.budget_bytes /
              ((file_size : ℚ) / (block_count : ℚ) * (108 / 100)))) block_count)) ∧
      (INT_MAX < Rat.floor (budget.budget_bytes /
          ((file_size : ℚ) / (block_count : ℚ) * (108 / 100))) →
        (estimate_gpu_layers_for_cuda host memory).layers = 0) ∧
      0 ≤ (estimate_gpu_layers_for_cuda host memory).layers ∧
      (estimate_gpu_layers_for_cuda host memory).layers ≤ block_count ∧
      (1 ≤ (estimate_gpu_layers_for_cuda host memory).layers ↔
        ((file_size : ℚ) / (block_count : ℚ) * (108 / 100) ≤ budget.budget_bytes ∧
          Rat.floor (budget.budget_bytes /
            ((file_size : ℚ) / (block_count : ℚ) * (108 / 100))) ≤ INT_MAX)) := by
  have hbpl : (0 : ℚ) < (file_size : ℚ) / (block_count : ℚ) := by
    have h1 : (0 : ℚ) < file_size := by exact_mod_cast hsize
    have h2 : (0 : ℚ) < block_count := by exact_mod_cast hcount
    positivity
  have hden : (0 : ℚ) < (file_size : ℚ) / (block_count : ℚ) * (108 / 100) := by positivity
  obtain ⟨budget, hbudget, hpos⟩ := compute_cuda_budget_ok memory _ hmem hbpl
  have hlayers : (estimate_gpu_layers_for_cuda host memory).layers =
      (if double_to_int32 (Rat.floor (budget.budget_bytes /
          ((file_size : ℚ) / (block_count : ℚ) * (108 / 100)))) ≤ 0 then 0
       else min (double_to_int32 (Rat.floor (budget.budget_bytes /
          ((file_size : ℚ) / (block_count : ℚ) * (108 / 100))))) block_count) := by
    unfold estimate_gpu_layers_for_cuda populate_layer_metrics
    rw [hfile, hblocks]
    simp only [not_le.mpr hcount, if_false, hvalid, hbudget]
    exact finalize_cuda_estimate_layers ⟨block_count, _⟩ budget hbpl
  have hq0 : 0 ≤ Rat.floor (budget.budget_bytes /
      ((file_size : ℚ) / (block_count : ℚ) * (108 / 100))) := by
    rw [Rat.le_floor]
    simp only [Int.cast_zero]
    exact le_of_lt (div_pos hpos hden)
  have hfloor : (1 ≤ Rat.floor (budget.budget_bytes /
      ((file_size : ℚ) / (block_count : ℚ) * (108 / 100)))) ↔
      (file_size : ℚ) / (block_count : ℚ) * (108 / 100) ≤ budget.budget_bytes := by
    rw [Rat.le_floor, le_div_iff₀ hden]
    simp
  obtain ⟨hfit, hover⟩ := double_to_int32_cases _ hq0
  refine ⟨budget, hbudget, hpos, ?_⟩
  generalize Rat.floor (budget.budget_bytes /
      ((file_size : ℚ) / (block_count : ℚ) * (108 / 100))) = q
    at hlayers hq0 hfloor hfit hover ⊢
  rw [← hfloor]
  have hmin : INT_MIN ≤ 0 := by decide
  by_cases hq : q ≤ INT_MAX
  · rw [hfit hq] at hlayers
    refine ⟨fun _ => hlayers, fun h => absurd hq (not_le.mpr h), ?_, ?_, ?_⟩
    · rw [hlayers]
      split
      · exact le_refl 0
      · exact le_min hq0 (le_of_lt hcount)
    · rw [hlayers]
      split
      · exact le_of_lt hcount
      · exact min_le_right _ _
    · rw [hlayers]
      split
      · rename_i h
        constructor
        · intro h2
          omega
        · intro h2
          omega
      · rename_i h
        constructor
        · intro _
          exact ⟨by omega, hq⟩
        · intro h2
          exact le_min h2.1 hcount
  · have hq2 : INT_MAX < q := not_le.mp hq
    rw [hover hq2, if_pos hmin] at hlayers
    refine ⟨fun h => absurd h hq, fun _ => hlayers, ?_, ?_, ?_⟩
    · rw [hlayers]
    · rw [hlayers]
      exact le_of_lt hcount
    · rw [hlayers]
      constructor
      · intro h2
        omega
      · intro h2
        exact absurd h2.2 hq

/-- The estimate theorem on the machine of the repository's Vulkan test (3 GiB, a model of
8 MiB with 48 blocks): the floor is 15360, which fits `int32_t`, and all 48 layers are
offloaded. -/
theorem C17_layer_estimate_in_range_witness :
    (estimate_gpu_layers_for_cuda test_host
      ⟨3 * 1024 * 1024 * 1024, 3 * 1024 * 1024 * 1024⟩).layers = 48 ∧
    0 ≤ (estimate_gpu_layers_for_cuda test_host
      ⟨3 * 1024 * 1024 * 1024, 3 * 1024 * 1024 * 1024⟩).layers ∧
    (estimate_gpu_layers_for_cuda test_host
      ⟨3 * 1024 * 1024 * 1024, 3 * 1024 * 1024 * 1024⟩).layers ≤ 48 :=
  ⟨by decide!,
    (C17_layer_estimate_in_range test_host
      ⟨3 * 1024 * 1024 * 1024, 3 * 1024 * 1024 * 1024⟩ (8 * 1024 * 1024) 48
      (by decide) (by decide) rfl (by decide) rfl (by decide)).elim
      (fun _ h => ⟨h.2.2.2.2.1, h.2.2.2.2.2.1⟩)⟩

/-- A quotient beyond `int32_t`: a device with 3 GiB and a model of 27 bytes in 27 blocks
(one byte per layer).  The budget is 2764.8 MiB and the floor is 2684354560, more than
`INT_MAX`; the conversion delivers `INT_MIN`, the test `estimated_layers <= 0` holds and
the estimate is 0 layers. -/
theorem estimate_beyond_int32 :
    (compute_cuda_budget true ⟨3 * 1024 * 1024 * 1024, 3 * 1024 * 1024 * 1024⟩
      ((27 : ℚ) / 27)).toOption.map (fun budget => budget.budget_bytes)
      = some (3 * 1024 * 1024 * 1024 * (90 / 100)) ∧
    Rat.floor ((3 * 1024 * 1024 * 1024 * (90 / 100) : ℚ) / ((27 : ℚ) / 27 * (108 / 100))) =
      2684354560 ∧
    INT_MAX < 2684354560 ∧
    (estimate_gpu_layers_for_cuda
      { test_host with file_size := some 27, block_count := some 27 }
      ⟨3 * 1024 * 1024 * 1024, 3 * 1024 * 1024 * 1024⟩).layers = 0 := by
  decide!

/-- Bounds out of order: a device with 1 GiB free of 8 GiB and a model of 4 GiB in 32
blocks (128 MiB per layer).  The clamp is called with the lower bound 3.6 GiB above the
upper bound 0.98 GiB; the `std::clamp` of libstdc++ yields the upper bound, the floor is 7
and the estimate is 7 layers.  (The lower bound as budget would give 26 layers.) -/
theorem estimate_with_bounds_out_of_order :
    (compute_cuda_budget true ⟨1024 * 1024 * 1024, 8 * 1024 * 1024 * 1024⟩
      ((4 * 1024 * 1024 * 1024 : ℚ) / 32)).toOption.map (fun budget => budget.budget_bytes)
      = some (1024 * 1024 * 1024 * (98 / 100)) ∧
    Rat.floor ((1024 * 1024 * 1024 * (98 / 100) : ℚ) /
      ((4 * 1024 * 1024 * 1024 : ℚ) / 32 * (108 / 100))) = 7 ∧
    Rat.floor ((8 * 1024 * 1024 * 1024 * (45 / 100) : ℚ) /
      ((4 * 1024 * 1024 * 1024 : ℚ) / 32 * (108 / 100))) = 26 ∧
    (estimate_gpu_layers_for_cuda
      { test_host with file_size := some (4 * 1024 * 1024 * 1024), block_count := some 32 }
      ⟨1024 * 1024 * 1024, 8 * 1024 * 1024 * 1024⟩).layers = 7 := by
  decide!

/-! ## Lemmas on the backend selection -/

theorem getenv_set_other (env : ProcessEnv) (key value other : String)
    (h : key.toList ≠ other.toList) :
    getenv (set_env_var env key value) other = getenv env other := by
  unfold getenv set_env_var map_set
  simp only [map_find, h, if_false]

theorem override_set_env (env : ProcessEnv) (key value : String)
    (h1 : key.toList ≠ "AI_FILE_SORTER_N_GPU_LAYERS".toList)
    (h2 : key.toList ≠ "LLAMA_CPP_N_GPU_LAYERS".toList) :
    resolve_gpu_layer_override (set_env_var env key value) = resolve_gpu_layer_override env := by
  unfold resolve_gpu_layer_override try_parse_env_int
  rw [getenv_set_other env key value _ h1, getenv_set_other env key value _ h2]

theorem override_steer (env : ProcessEnv) (device : String) :
    resolve_gpu_layer_override (steer_device env device) = resolve_gpu_layer_override env := by
  unfold steer_device
  rw [override_set_env _ _ _ (by decide) (by decide),
    override_set_env _ _ _ (by decide) (by decide)]

theorem override_disable (env : ProcessEnv) :
    resolve_gpu_layer_override (set_env_var env "GGML_DISABLE_CUDA" "1") =
      resolve_gpu_layer_override env :=
  override_set_env _ _ _ (by decide) (by decide)

/-- What `apply_vulkan_backend` leaves in `n_gpu_layers`. -/
theorem apply_vulkan_backend_layers (host : GpuHost) (s : BackendState) :
    (host.vulkan_available = false →
      (apply_vulkan_backend host s).2.params.n_gpu_layers = 0) ∧
    (host.vulkan_available = true → resolve_gpu_layer_override s.env ≠ INT_MIN →
      (apply_vulkan_backend host s).2.params.n_gpu_layers =
        if resolve_gpu_layer_override s.env > 0 then resolve_gpu_layer_override s.env else 0) ∧
    (host.vulkan_available = true → resolve_gpu_layer_override s.env = INT_MIN →
      host.vulkan_memory = none →
      (apply_vulkan_backend host s).2.params.n_gpu_layers = 0) := by
  unfold apply_vulkan_backend apply_vulkan_override
  simp only [override_disable]
  refine ⟨?_, ?_, ?_⟩
  · intro h
    simp only [h, Bool.not_false, if_true]
  · intro h hne
    simp only [h, Bool.not_true, Bool.false_eq_true, if_false, hne]
    by_cases hpos : resolve_gpu_layer_override s.env > 0
    · rw [if_neg (not_le.mpr hpos), if_pos hpos]
    · rw [if_pos (not_lt.mp hpos), if_neg hpos]
  · intro h heq hmem
    simp only [h, Bool.not_true, Bool.false_eq_true, if_false, heq, if_true, hmem]

/-- `build_model_params_for_path` when Vulkan is requested. -/
theorem build_vulkan (host : GpuHost) (env : ProcessEnv)
    (h : detect_preferred_backend env = PreferredBackend.Vulkan) :
    build_model_params_for_path host env =
      (apply_vulkan_backend host ⟨⟨host.default_n_gpu_layers⟩, env⟩).2 := by
  unfold build_model_params_for_path apply_cpu_backend
  simp [h]

/-- `build_model_params_for_path` when `GGML_DISABLE_CUDA` forces CUDA off and Vulkan is
not requested. -/
theorem build_forced_off (host : GpuHost) (env : ProcessEnv)
    (h : detect_preferred_backend env = PreferredBackend.Auto ∨
      detect_preferred_backend env = PreferredBackend.Cuda)
    (hforced : cuda_forced_off env = true) :
    (build_model_params_for_path host env).params.n_gpu_layers = 0 := by
  unfold build_model_params_for_path apply_cpu_backend handle_cuda_forced_off
  rcases h with h | h <;> simp [h, hforced]

/-- `build_model_params_for_path` in automatic mode, CUDA not forced off. -/
theorem build_auto (host : GpuHost) (env : ProcessEnv)
    (h : detect_preferred_backend env = PreferredBackend.Auto)
    (hforced : cuda_forced_off env = false) :
    build_model_params_for_path host env =
      (apply_vulkan_backend host
        ⟨⟨host.default_n_gpu_layers⟩, steer_device env "vulkan"⟩).2 := by
  unfold build_model_params_for_path apply_cpu_backend handle_cuda_forced_off
  simp [h, hforced]

/-- `build_model_params_for_path` when CUDA is requested and not forced off. -/
theorem build_cuda (host : GpuHost) (env : ProcessEnv)
    (h : detect_preferred_backend env = PreferredBackend.Cuda)
    (hforced : cuda_forced_off env = false) :
    build_model_params_for_path host env =
      if (configure_cuda_backend host ⟨⟨host.default_n_gpu_layers⟩, env⟩).1 = true then
        (configure_cuda_backend host ⟨⟨host.default_n_gpu_layers⟩, env⟩).2
      else
        (apply_vulkan_backend host
          ⟨(configure_cuda_backend host ⟨⟨host.default_n_gpu_layers⟩, env⟩).2.params,
            steer_device (configure_cuda_backend host ⟨⟨host.default_n_gpu_layers⟩, env⟩).2.env
              "vulkan"⟩).2 := by
  unfold build_model_params_for_path apply_cpu_backend handle_cuda_forced_off
  simp only [h, hforced, ne_eq, reduceCtorEq, not_false_eq_true, if_true, Bool.not_false,
    if_false, false_or]
  rcases configure_cuda_backend host ⟨⟨host.default_n_gpu_layers⟩, env⟩ with ⟨b, s⟩
  cases b <;> simp

/-- What `configure_cuda_backend` does with an override when CUDA is available. -/
theorem configure_cuda_override (host : GpuHost) (s : BackendState)
    (havail : host.cuda_available = true)
    (hne : resolve_gpu_layer_override s.env ≠ INT_MIN) :
    (configure_cuda_backend host s).1 = true ∧
    (configure_cuda_backend host s).2.params.n_gpu_layers =
      if resolve_gpu_layer_override s.env > 0 then resolve_gpu_layer_override s.env else 0 := by
  unfold configure_cuda_backend ensure_cuda_available apply_ngl_override disable_cuda_backend
  simp only [havail, if_true, hne, if_false]
  by_cases hpos : resolve_gpu_layer_override s.env > 0
  · rw [if_neg (not_le.mpr hpos), if_pos hpos]
    exact ⟨rfl, rfl⟩
  · rw [if_pos (not_lt.mp hpos), if_neg hpos]
    exact ⟨rfl, rfl⟩

/-- When CUDA is not available `configure_cuda_backend` fails and leaves the environment
with `GGML_DISABLE_CUDA` set. -/
theorem configure_cuda_unavailable (host : GpuHost) (s : BackendState)
    (havail : host.cuda_available = false) :
    configure_cuda_backend host s = (false, disable_cuda_backend s) := by
  unfold configure_cuda_backend ensure_cuda_available
  simp only [havail, Bool.false_eq_true, if_false]
/-! ## C18: the explicit layer override -/

theorem resolve_of_parse (env : ProcessEnv) (v : Int)
    (hparse : try_parse_env_int env "AI_FILE_SORTER_N_GPU_LAYERS" = some v ∨
      (try_parse_env_int env "AI_FILE_SORTER_N_GPU_LAYERS" = none ∧
        try_parse_env_int env "LLAMA_CPP_N_GPU_LAYERS" = some v)) :
    resolve_gpu_layer_override env = v := by
  unfold resolve_gpu_layer_override
  rcases hparse with h | ⟨h1, h2⟩
  · rw [h]
  · rw [h1, h2]

/-- C18, as stated, fails for one value: `INT_MIN` is the mark that
`resolve_gpu_layer_override` uses for "no override", so the override `-2147483648`
(which `try_parse_env_int` accepts) is not applied; with Vulkan requested and available on
the test machine the estimate is used and `n_gpu_layers` is 48, not 0. -/
theorem C18_counterexample :
    try_parse_env_int
      (make_env [("AI_FILE_SORTER_GPU_BACKEND", "vulkan"),
        ("AI_FILE_SORTER_N_GPU_LAYERS", "-2147483648")])
      "AI_FILE_SORTER_N_GPU_LAYERS" = some (-2147483648) ∧
    detect_preferred_backend
      (make_env [("AI_FILE_SORTER_GPU_BACKEND", "vulkan"),
        ("AI_FILE_SORTER_N_GPU_LAYERS", "-2147483648")]) = PreferredBackend.Vulkan ∧
    (build_model_params_for_path test_host
      (make_env [("AI_FILE_SORTER_GPU_BACKEND", "vulkan"),
        ("AI_FILE_SORTER_N_GPU_LAYERS", "-2147483648")])).params.n_gpu_layers = 48 := by
  decide!

/-- C18 (amended): let `v` be the value parsed from `AI_FILE_SORTER_N_GPU_LAYERS` or, when
that variable is unset or does not parse, from `LLAMA_CPP_N_GPU_LAYERS`.  When Vulkan is
requested and a Vulkan device is available, or CUDA is requested, CUDA is available and
`GGML_DISABLE_CUDA` does not force it off, `build_model_params_for_path` sets
`n_gpu_layers = v` if `v > 0`, whatever the memory probes report, and `n_gpu_layers = 0`
if `v <= 0` and `v` is not `INT_MIN`. -/
theorem C18_layer_override (host : GpuHost) (env : ProcessEnv) (v : Int)
    (hparse : try_parse_env_int env "AI_FILE_SORTER_N_GPU_LAYERS" = some v ∨
      (try_parse_env_int env "AI_FILE_SORTER_N_GPU_LAYERS" = none ∧
        try_parse_env_int env "LLAMA_CPP_N_GPU_LAYERS" = some v))
    (hsel : (detect_preferred_backend env = PreferredBackend.Vulkan ∧
        host.vulkan_available = true) ∨
      (detect_preferred_backend env = PreferredBackend.Cuda ∧ host.cuda_available = true ∧
        cuda_forced_off env = false)) :
    (0 < v → (build_model_params_for_path host env).params.n_gpu_layers = v) ∧
    (v ≤ 0 → v ≠ INT_MIN → (build_model_params_for_path host env).params.n_gpu_layers = 0) := by
  have hv := resolve_of_parse env v hparse
  have key : v ≠ INT_MIN →
      (build_model_params_for_path host env).params.n_gpu_layers = if v > 0 then v else 0 := by
    intro hne
    rcases hsel with ⟨hpref, havail⟩ | ⟨hpref, havail, hforced⟩
    · rw [build_vulkan host env hpref]
      have h := (apply_vulkan_backend_layers host ⟨⟨host.default_n_gpu_layers⟩, env⟩).2.1 havail
      simp only [hv] at h
      exact h hne
    · rw [build_cuda host env hpref hforced]
      have h := configure_cuda_override host ⟨⟨host.default_n_gpu_layers⟩, env⟩ havail
      simp only [hv] at h
      obtain ⟨h1, h2⟩ := h hne
      rw [if_pos h1, h2]
  constructor
  · intro hpos
    rw [key (by unfold INT_MIN; omega), if_pos hpos]
  · intro hle hne
    rw [key hne, if_neg (not_lt.mpr hle)]

/-- The override theorem for the repository's CUDA test: `AI_FILE_SORTER_GPU_BACKEND=cuda`,
`AI_FILE_SORTER_N_GPU_LAYERS=7`, CUDA available: `n_gpu_layers = 7`. -/
theorem C18_layer_override_witness :
    try_parse_env_int
      (make_env [("AI_FILE_SORTER_GPU_BACKEND", "cuda"), ("AI_FILE_SORTER_N_GPU_LAYERS", "7")])
      "AI_FILE_SORTER_N_GPU_LAYERS" = some 7 ∧
    (build_model_params_for_path test_host
      (make_env [("AI_FILE_SORTER_GPU_BACKEND", "cuda"),
        ("AI_FILE_SORTER_N_GPU_LAYERS", "7")])).params.n_gpu_layers = 7 :=
  ⟨by decide,
    (C18_layer_override test_host
      (make_env [("AI_FILE_SORTER_GPU_BACKEND", "cuda"), ("AI_FILE_SORTER_N_GPU_LAYERS", "7")])
      7 (Or.inl (by decide)) (Or.inr ⟨by decide, rfl, by decide⟩)).1 (by decide)⟩

/-! ## C19: Vulkan without a device or without memory metrics -/

/-- C19, as stated, fails in its scenario: with `AI_FILE_SORTER_GPU_BACKEND=vulkan`,
`AI_FILE_SORTER_N_GPU_LAYERS=12`, a Vulkan device reported available and no memory
metrics, the override is applied before the memory metrics are looked at, and
`n_gpu_layers` is 12, as the repository's test "Vulkan backend honors explicit override"
requires. -/
theorem C19_counterexample :
    (build_model_params_for_path { test_host with vulkan_memory := none }
      (make_env [("AI_FILE_SORTER_GPU_BACKEND", "vulkan"),
        ("AI_FILE_SORTER_N_GPU_LAYERS", "12")])).params.n_gpu_layers = 12 := by
  decide

/-- C19 (amended): whenever `build_model_params_for_path` goes to the Vulkan backend
(Vulkan is requested; or the mode is automatic and CUDA is not forced off; or CUDA is
requested, not forced off and not available), it sets `n_gpu_layers = 0` if the
availability probe reports no Vulkan device, and also if a device is reported, no layer
override is set and the memory probe reports no metrics; if a device is reported and an
override `v` is set, `n_gpu_layers` is `v` for `v > 0` and 0 otherwise, with or without
memory metrics. -/
theorem C19_vulkan_cpu_fallback (host : GpuHost) (env : ProcessEnv)
    (hsel : detect_preferred_backend env = PreferredBackend.Vulkan ∨
      (detect_preferred_backend env = PreferredBackend.Auto ∧ cuda_forced_off env = false) ∨
      (detect_preferred_backend env = PreferredBackend.Cuda ∧ cuda_forced_off env = false ∧
        host.cuda_available = false)) :
    (host.vulkan_available = false →
      (build_model_params_for_path host env).params.n_gpu_layers = 0) ∧
    (host.vulkan_available = true → resolve_gpu_layer_override env = INT_MIN →
      host.vulkan_memory = none →
      (build_model_params_for_path host env).params.n_gpu_layers = 0) ∧
    (host.vulkan_available = true → resolve_gpu_layer_override env ≠ INT_MIN →
      (build_model_params_for_path host env).params.n_gpu_layers =
        if resolve_gpu_layer_override env > 0 then resolve_gpu_layer_override env else 0) := by
  have hgen : ∃ s : BackendState, build_model_params_for_path host env =
      (apply_vulkan_backend host s).2 ∧
      resolve_gpu_layer_override s.env = resolve_gpu_layer_override env := by
    rcases hsel with hpref | ⟨hpref, hforced⟩ | ⟨hpref, hforced, havail⟩
    · exact ⟨_, build_vulkan host env hpref, rfl⟩
    · exact ⟨_, build_auto host env hpref hforced, override_steer env "vulkan"⟩
    · refine ⟨⟨(disable_cuda_backend ⟨⟨host.default_n_gpu_layers⟩, env⟩).params,
        steer_device (disable_cuda_backend ⟨⟨host.default_n_gpu_layers⟩, env⟩).env "vulkan"⟩,
        ?_, ?_⟩
      · rw [build_cuda host env hpref hforced, configure_cuda_unavailable host _ havail]
        simp only [Bool.false_eq_true, if_false]
      · simp only [disable_cuda_backend]
        rw [override_steer, override_disable]
  obtain ⟨s, hbuild, hover⟩ := hgen
  obtain ⟨h1, h2, h3⟩ := apply_vulkan_backend_layers host s
  rw [hbuild, ← hover]
  exact ⟨h1, h3, h2⟩

/-- The fallback theorem for the repository's test "falls back to CPU when memory metrics
are unavailable": Vulkan requested, a device available, no override, no memory metrics. -/
theorem C19_vulkan_cpu_fallback_witness :
    detect_preferred_backend (make_env [("AI_FILE_SORTER_GPU_BACKEND", "vulkan")])
      = PreferredBackend.Vulkan ∧
    (build_model_params_for_path { test_host with vulkan_memory := none }
      (make_env [("AI_FILE_SORTER_GPU_BACKEND", "vulkan")])).params.n_gpu_layers = 0 :=
  ⟨by decide,
    (C19_vulkan_cpu_fallback { test_host with vulkan_memory := none }
      (make_env [("AI_FILE_SORTER_GPU_BACKEND", "vulkan")]) (Or.inl (by decide))).2.1
      rfl (by decide) rfl⟩

/-! ## C20: `GGML_DISABLE_CUDA` -/

/-- C20, as stated, fails.  (1) When Vulkan is requested, `apply_vulkan_backend` runs
before `GGML_DISABLE_CUDA` is looked at: with `GGML_DISABLE_CUDA=1` and a Vulkan device
available, `n_gpu_layers` is the override 12, or the estimate 48 without override.
(2) The test on the variable is "non-empty and the first character is not `0`": the value
`00` is non-empty and is not `0`, but does not force CUDA off. -/
theorem C20_counterexample :
    (build_model_params_for_path test_host
      (make_env [("AI_FILE_SORTER_GPU_BACKEND", "vulkan"), ("GGML_DISABLE_CUDA", "1"),
        ("AI_FILE_SORTER_N_GPU_LAYERS", "12")])).params.n_gpu_layers = 12 ∧
    (build_model_params_for_path test_host
      (make_env [("AI_FILE_SORTER_GPU_BACKEND", "vulkan"),
        ("GGML_DISABLE_CUDA", "1")])).params.n_gpu_layers = 48 ∧
    (build_model_params_for_path test_host
      (make_env [("GGML_DISABLE_CUDA", "00"),
        ("AI_FILE_SORTER_N_GPU_LAYERS", "12")])).params.n_gpu_layers = 12 := by
  decide!

/-- C20 (amended): `GGML_DISABLE_CUDA` forces CUDA off exactly when it is set, non-empty
and its first character is not `0`; when it does and the backend preference is automatic
or CUDA, `build_model_params_for_path` sets `n_gpu_layers = 0`, whatever the probes
report. -/
theorem C20_cuda_forced_off (host : GpuHost) (env : ProcessEnv) :
    (cuda_forced_off env = true ↔
      ∃ first rest, getenv env "GGML_DISABLE_CUDA" = some (first :: rest) ∧ first ≠ '0') ∧
    (cuda_forced_off env = true →
      (detect_preferred_backend env = PreferredBackend.Auto ∨
        detect_preferred_backend env = PreferredBackend.Cuda) →
      (build_model_params_for_path host env).params.n_gpu_layers = 0) := by
  constructor
  · unfold cuda_forced_off
    cases h : getenv env "GGML_DISABLE_CUDA" with
    | none => simp
    | some value =>
      cases value with
      | nil => simp
      | cons first rest => simp
  · intro hforced hpref
    exact build_forced_off host env hpref hforced

/-- The theorem for the repository's test "CUDA backend can be forced off via
GGML_DISABLE_CUDA": CUDA requested and available, `GGML_DISABLE_CUDA=1`. -/
theorem C20_cuda_forced_off_witness :
    cuda_forced_off
      (make_env [("AI_FILE_SORTER_GPU_BACKEND", "cuda"), ("GGML_DISABLE_CUDA", "1")]) = true ∧
    (build_model_params_for_path test_host
      (make_env [("AI_FILE_SORTER_GPU_BACKEND", "cuda"),
        ("GGML_DISABLE_CUDA", "1")])).params.n_gpu_layers = 0 :=
  ⟨by decide,
    (C20_cuda_forced_off test_host
      (make_env [("AI_FILE_SORTER_GPU_BACKEND", "cuda"), ("GGML_DISABLE_CUDA", "1")])).2
      (by decide) (Or.inr (by decide))⟩

/-! ## C28: the bounds of the budget clamp -/

/-- `cuda_clamp_arguments` gives the arguments of the clamp inside `compute_cuda_budget`. -/
theorem compute_cuda_budget_clamp (valid : Bool) (memory : CudaMemoryInfo)
    (bytes_per_layer : ℚ) :
    (compute_cuda_budget valid memory bytes_per_layer).toOption.map
        (fun budget => budget.budget_bytes) =
      (cuda_clamp_arguments valid memory bytes_per_layer).map
        (fun args => std_clamp args.1 args.2.1 args.2.2) := by
  unfold compute_cuda_budget cuda_clamp_arguments
  dsimp only
  split_ifs <;> rfl

/-- C28 at the memory report `free = 1 GiB`, `total = 8 GiB` (valid, one byte per layer):
the clamp is reached with `budget_bytes = 0.6 GiB`, `min_budget = 3.6 GiB` and
`max_budget = 0.98 GiB`, so the lower bound exceeds the upper bound and the call is
undefined; the `std::clamp` of libstdc++ then yields the upper bound, 0.98 GiB. -/
theorem C28_failing_input :
    cuda_clamp_arguments true ⟨1024 * 1024 * 1024, 8 * 1024 * 1024 * 1024⟩ 1 =
      some (1024 * 1024 * 1024 * (60 / 100), 1024 * 1024 * 1024 * (360 / 100),
        1024 * 1024 * 1024 * (98 / 100)) ∧
    (1024 * 1024 * 1024 * (98 / 100) : ℚ) < 1024 * 1024 * 1024 * (360 / 100) ∧
    (compute_cuda_budget true ⟨1024 * 1024 * 1024, 8 * 1024 * 1024 * 1024⟩ 1).toOption.map
      (fun budget => budget.budget_bytes) = some (1024 * 1024 * 1024 * (98 / 100)) := by
  decide!

/-- When the clamp is reached, its bounds are in order exactly when the free memory that
the function works with is at least 45/98 of the usable total. -/
theorem clamp_bounds_ordered (memory : CudaMemoryInfo) (bytes_per_layer v lo hi : ℚ)
    (h : cuda_clamp_arguments true memory bytes_per_layer = some (v, lo, hi)) :
    ∃ approx_free usable_total : ℚ, 0 < approx_free ∧ approx_free ≤ usable_total ∧
      lo = usable_total * (45 / 100) ∧
      hi = min (approx_free * (98 / 100)) (usable_total * (90 / 100)) ∧
      (lo ≤ hi ↔ usable_total * (45 / 98) ≤ approx_free) := by
  unfold cuda_clamp_arguments at h
  simp only [Bool.not_true, Bool.false_eq_true, if_false] at h
  generalize (memory.free_bytes : ℚ) = f at h
  generalize (memory.total_bytes : ℚ) = t at h
  generalize max (if t ≤ 0 then f else t) f = u at h
  by_cases hu : u ≤ 0
  · rw [if_pos hu] at h
    exact Option.noConfusion h
  · rw [if_neg hu] at h
    have hupos : 0 < u := not_le.mp hu
    generalize hF : (if f ≤ 0 then u * (80 / 100) else if f > u then u else f) = fr at h
    have hle : fr ≤ u := by
      rw [← hF]
      split_ifs with h1 h2
      · linarith
      · exact le_refl u
      · exact not_lt.mp h2
    by_cases hc : fr ≤ 0 ∨ bytes_per_layer ≤ 0
    · rw [if_pos hc] at h
      exact Option.noConfusion h
    · rw [if_neg hc] at h
      have hfpos : 0 < fr := not_le.mp (fun hh => hc (Or.inl hh))
      simp only [Option.some.injEq, Prod.mk.injEq] at h
      obtain ⟨_, hlo, hhi⟩ := h
      refine ⟨fr, u, hfpos, hle, hlo.symm, hhi.symm, ?_⟩
      rw [← hlo, ← hhi, le_min_iff]
      constructor
      · rintro ⟨h1, _⟩
        linarith
      · intro h1
        constructor <;> linarith

/-! ## C29: the rows that the listing hides and the rows that the pruning deletes -/

/-- C29 at a row of `/d` whose category is one tab character (subcategory `Docs`, no
suggestion, `rename_only = 0`): `has_label_content` trims with `isspace`, so
`build_categorized_entry` hides the row; SQLite's `TRIM` removes spaces only, so the
`WHERE` clause of `remove_empty_categorizations` does not select it.  After the pruning the
row is still stored and `get_categorized_files` does not return it. -/
theorem C29_failing_input :
    build_categorized_entry
      ⟨"a.txt".toList, "F".toList, "/d".toList, some ['\t'], some "Docs".toList, some [],
        none, some 0, some 0, some 0⟩ = none ∧
    empty_categorization_filter "/d".toList
      ⟨"a.txt".toList, "F".toList, "/d".toList, some ['\t'], some "Docs".toList, some [],
        none, some 0, some 0, some 0⟩ = false ∧
    (remove_empty_categorizations
      { DatabaseManager.empty with
        file_categorization :=
          [⟨"a.txt".toList, "F".toList, "/d".toList, some ['\t'], some "Docs".toList,
            some [], none, some 0, some 0, some 0⟩] }
      "/d".toList).2.file_categorization =
      [⟨"a.txt".toList, "F".toList, "/d".toList, some ['\t'], some "Docs".toList, some [],
        none, some 0, some 0, some 0⟩] ∧
    get_categorized_files
      (remove_empty_categorizations
        { DatabaseManager.empty with
          file_categorization :=
            [⟨"a.txt".toList, "F".toList, "/d".toList, some ['\t'], some "Docs".toList,
              some [], none, some 0, some 0, some 0⟩] }
        "/d".toList).2 "/d".toList = [] := by
  decide

theorem sql_blank_no_content (value : Option Str) (h : sql_null_or_blank value = true) :
    has_label_content (value.getD []) = false := by
  cases value with
  | none => rfl
  | some text =>
    simp only [sql_null_or_blank, sql_trim, List.isEmpty_eq_true, List.reverse_eq_nil_iff,
      List.dropWhile_eq_nil_iff, List.mem_reverse, decide_eq_true_eq] at h
    have hall : ∀ c ∈ text, c = ' ' := by
      intro c hc
      by_contra hne
      exact hne (h c (mem_dropWhile_of_not _ c text hc (by simpa using hne)))
    have hdrop : text.dropWhile isspace = [] := by
      rw [List.dropWhile_eq_nil_iff]
      intro c hc
      rw [hall c hc]
      decide
    simp only [has_label_content, Option.getD_some, trim_copy_eq, hdrop, Bool.not_eq_false',
      List.isEmpty_eq_true]
    rfl

/-- One half of the agreement holds: a row that the pruning selects is a row that the
listing hides. -/
theorem pruned_is_hidden (dir_path : Str) (row : CacheRow)
    (h : empty_categorization_filter dir_path row = true) :
    build_categorized_entry row = none := by
  simp only [empty_categorization_filter, Bool.and_eq_true, Bool.or_eq_true,
    decide_eq_true_eq] at h
  obtain ⟨⟨⟨_, hlabels⟩, hsuggested⟩, hrename⟩ := h
  have h1 : (has_label_content (row.category.getD []) &&
      has_label_content (row.subcategory.getD [])) = false := by
    rcases hlabels with hl | hl
    · rw [sql_blank_no_content _ hl]
      rfl
    · rw [sql_blank_no_content _ hl]
      exact Bool.and_false _
  have h2 := sql_blank_no_content _ hsuggested
  have h3 : column_flag row.rename_only = false := by
    cases hr : row.rename_only with
    | none => rfl
    | some n =>
      rw [hr] at hrename
      simp only [Option.getD_some] at hrename
      simp [column_flag, hrename]
  unfold build_categorized_entry
  simp only [h1, h2, h3, Bool.not_false, Bool.and_self, if_true]

/-! ## C24: the best fuzzy match -/

theorem fuzzy_step_eq (nc ns : Str) (best : Int × ℚ) (e : TaxonomyEntry) :
    fuzzy_step nc ns best e =
      if fuzzy_score nc ns e > best.2 then (e.id, fuzzy_score nc ns e) else best := rfl

/-- Entries that do not beat the best score leave the best pair alone. -/
theorem fuzzy_fold_keep (nc ns : Str) (l : List TaxonomyEntry) (best : Int × ℚ)
    (h : ∀ x ∈ l, fuzzy_score nc ns x ≤ best.2) :
    l.foldl (fuzzy_step nc ns) best = best := by
  induction l with
  | nil => rfl
  | cons x rest ih =>
    rw [List.foldl_cons, fuzzy_step_eq,
      if_neg (not_lt.mpr (h x (List.mem_cons_self x rest)))]
    exact ih (fun y hy => h y (List.mem_cons_of_mem x hy))

/-- Entries below a bound keep the best score below that bound. -/
theorem fuzzy_fold_below (nc ns : Str) (l : List TaxonomyEntry) (best : Int × ℚ) (bound : ℚ)
    (hbest : best.2 < bound) (h : ∀ x ∈ l, fuzzy_score nc ns x < bound) :
    (l.foldl (fuzzy_step nc ns) best).2 < bound := by
  induction l generalizing best with
  | nil => exact hbest
  | cons x rest ih =>
    rw [List.foldl_cons]
    apply ih
    · rw [fuzzy_step_eq]
      split
      · exact h x (List.mem_cons_self x rest)
      · exact hbest
    · exact fun y hy => h y (List.mem_cons_of_mem x hy)

/-- A non-empty list has a first entry of maximal score. -/
theorem first_maximum (nc ns : Str) (l : List TaxonomyEntry) (hne : l ≠ []) :
    ∃ pre e post, l = pre ++ e :: post ∧
      (∀ x ∈ pre, fuzzy_score nc ns x < fuzzy_score nc ns e) ∧
      (∀ x ∈ post, fuzzy_score nc ns x ≤ fuzzy_score nc ns e) := by
  induction l with
  | nil => exact absurd rfl hne
  | cons a rest ih =>
    by_cases hrest : rest = []
    · subst hrest
      exact ⟨[], a, [], rfl, fun x hx => absurd hx (List.not_mem_nil x),
        fun x hx => absurd hx (List.not_mem_nil x)⟩
    · obtain ⟨pre, e, post, hl, hpre, hpost⟩ := ih hrest
      by_cases hcmp : fuzzy_score nc ns a < fuzzy_score nc ns e
      · refine ⟨a :: pre, e, post, by rw [hl]; rfl, ?_, hpost⟩
        intro x hx
        rcases List.mem_cons.mp hx with h1 | h1
        · rw [h1]
          exact hcmp
        · exact hpre x h1
      · refine ⟨[], a, rest, rfl, fun x hx => absurd hx (List.not_mem_nil x), ?_⟩
        intro x hx
        rw [hl] at hx
        have hea : fuzzy_score nc ns e ≤ fuzzy_score nc ns a := not_lt.mp hcmp
        rcases List.mem_append.mp hx with h1 | h1
        · exact le_trans (le_of_lt (hpre x h1)) hea
        · rcases List.mem_cons.mp h1 with h2 | h2
          · rw [h2]
            exact hea
          · exact le_trans (hpost x h2) hea

/-- C24: let the score of an entry be
`(similarity(cat, entry.norm_cat) + similarity(sub, entry.norm_sub)) / 2` as the program
computes it, in `double` arithmetic (`fuzzy_score`), and let 0.85 be the `double`
`kSimilarityThreshold`.  For every list of taxonomy entries:
if every score is below 0.85 (in particular if the list is empty) `find_fuzzy_match`
returns the id -1; if `e` is the first entry of maximal score (every entry before it scores
less, every entry after it scores at most as much) and its score is at least 0.85,
`find_fuzzy_match` returns the id of `e` with that score; and whenever some score is at
least 0.85 there is such a first entry of maximal score. -/
theorem C24_fuzzy_match_best_first (db : DatabaseManager) (nc ns : Str) :
    ((∀ e ∈ db.taxonomy_entries, fuzzy_score nc ns e < kSimilarityThreshold) →
      (find_fuzzy_match db nc ns).1 = -1) ∧
    (∀ pre e post, db.taxonomy_entries = pre ++ e :: post →
      (∀ x ∈ pre, fuzzy_score nc ns x < fuzzy_score nc ns e) →
      (∀ x ∈ post, fuzzy_score nc ns x ≤ fuzzy_score nc ns e) →
      kSimilarityThreshold ≤ fuzzy_score nc ns e →
      find_fuzzy_match db nc ns = (e.id, fuzzy_score nc ns e)) ∧
    ((∃ x ∈ db.taxonomy_entries, kSimilarityThreshold ≤ fuzzy_score nc ns x) →
      ∃ pre e post, db.taxonomy_entries = pre ++ e :: post ∧
        (∀ x ∈ pre, fuzzy_score nc ns x < fuzzy_score nc ns e) ∧
        (∀ x ∈ post, fuzzy_score nc ns x ≤ fuzzy_score nc ns e) ∧
        kSimilarityThreshold ≤ fuzzy_score nc ns e) := by
  have hthr : (0 : ℚ) < kSimilarityThreshold := by decide!
  refine ⟨?_, ?_, ?_⟩
  · intro hlow
    unfold find_fuzzy_match
    split
    · rfl
    · have hb := fuzzy_fold_below nc ns db.taxonomy_entries (-1, 0) kSimilarityThreshold
        hthr hlow
      simp only
      rw [if_neg (fun hh => absurd hh.2 (not_le.mpr hb))]
  · intro pre e post hl hpre hpost hscore
    have hpos : (0 : ℚ) < fuzzy_score nc ns e := lt_of_lt_of_le hthr hscore
    have hfold : db.taxonomy_entries.foldl (fuzzy_step nc ns) (-1, 0) =
        (e.id, fuzzy_score nc ns e) := by
      rw [hl, List.foldl_append, List.foldl_cons, fuzzy_step_eq,
        if_pos (fuzzy_fold_below nc ns pre (-1, 0) _ hpos hpre)]
      exact fuzzy_fold_keep nc ns post _ hpost
    unfold find_fuzzy_match
    have hne : db.taxonomy_entries.isEmpty = false := by
      rw [hl]
      cases pre <;> rfl
    simp only [hne, Bool.false_eq_true, if_false, hfold]
    by_cases heid : e.id = -1
    · rw [if_neg (fun hh => hh.1 heid), heid]
    · rw [if_pos ⟨heid, hscore⟩]
  · rintro ⟨x, hx, hxs⟩
    obtain ⟨pre, e, post, hl, hpre, hpost⟩ := first_maximum nc ns db.taxonomy_entries
      (List.ne_nil_of_mem hx)
    refine ⟨pre, e, post, hl, hpre, hpost, ?_⟩
    rw [hl] at hx
    rcases List.mem_append.mp hx with h1 | h1
    · exact le_trans hxs (le_of_lt (hpre x h1))
    · rcases List.mem_cons.mp h1 with h2 | h2
      · rw [← h2]
        exact hxs
      · exact le_trans hxs (hpost x h2)

/-- The theorem on a taxonomy with the entries `images::photos` (id 1) and
`images::photo` (id 2) for the pair `("images", "photoz")`: both entries have the same
score (each subcategory is one edit away from `photoz`), which is above 0.85, and the
first is returned. -/
theorem C24_fuzzy_match_best_first_witness :
    (find_fuzzy_match
      { DatabaseManager.empty with
        taxonomy_entries :=
          [⟨1, "Images".toList, "Photos".toList, "images".toList, "photos".toList⟩,
           ⟨2, "Images".toList, "Photo".toList, "images".toList, "photo".toList⟩] }
      "images".toList "photoz".toList).1 = 1 :=
  congrArg Prod.fst
    ((C24_fuzzy_match_best_first
      { DatabaseManager.empty with
        taxonomy_entries :=
          [⟨1, "Images".toList, "Photos".toList, "images".toList, "photos".toList⟩,
           ⟨2, "Images".toList, "Photo".toList, "images".toList, "photo".toList⟩] }
      "images".toList "photoz".toList).2.1 []
      ⟨1, "Images".toList, "Photos".toList, "images".toList, "photos".toList⟩
      [⟨2, "Images".toList, "Photo".toList, "images".toList, "photo".toList⟩] rfl
      (by decide) (by decide!) (by decide!))

/-- Two entries whose scores are equal in exact arithmetic (17/20 each) and differ as
`double`s: for the pair `("abcdefghij", "klmnopqrst")` the entry
`abcdefghij::xyznopqrst` (id 1) scores `(1.0 + 0.7) / 2`, which is the `double` 0.85, and
the entry `abcdefghiz::klmxypqrst` (id 2) scores `(0.9 + 0.8) / 2`, which is the next
`double` above it; the comparison `combined > best_score` is then true at the second entry,
and `find_fuzzy_match` returns the id 2. -/
theorem fuzzy_match_rounding_example :
    ((string_similarity exact_arithmetic "abcdefghij".toList "abcdefghij".toList +
      string_similarity exact_arithmetic "klmnopqrst".toList "xyznopqrst".toList) / 2 =
        17 / 20 ∧
     (string_similarity exact_arithmetic "abcdefghij".toList "abcdefghiz".toList +
      string_similarity exact_arithmetic "klmnopqrst".toList "klmxypqrst".toList) / 2 =
        17 / 20) ∧
    fuzzy_score "abcdefghij".toList "klmnopqrst".toList
      ⟨1, "Abcdefghij".toList, "Xyznopqrst".toList, "abcdefghij".toList,
        "xyznopqrst".toList⟩ = kSimilarityThreshold ∧
    fuzzy_score "abcdefghij".toList "klmnopqrst".toList
      ⟨2, "Abcdefghiz".toList, "Klmxypqrst".toList, "abcdefghiz".toList,
        "klmxypqrst".toList⟩ = kSimilarityThreshold + 1 / 2 ^ 53 ∧
    find_fuzzy_match
      { DatabaseManager.empty with
        taxonomy_entries :=
          [⟨1, "Abcdefghij".toList, "Xyznopqrst".toList, "abcdefghij".toList,
             "xyznopqrst".toList⟩,
           ⟨2, "Abcdefghiz".toList, "Klmxypqrst".toList, "abcdefghiz".toList,
             "klmxypqrst".toList⟩] }
      "abcdefghij".toList "klmnopqrst".toList =
      (2, kSimilarityThreshold + 1 / 2 ^ 53) := by
  decide!

/-! ## C26: the session history -/

/-- What one call of `record_session_assignment` does, by the sanitized category. -/
theorem record_step (sanitize : Str → Str) (history : List (Str × Str))
    (assignment : Str × Str) :
    (sanitize assignment.1 = [] →
      record_session_assignment sanitize history assignment = history) ∧
    (sanitize assignment.1 ≠ [] →
      (record_session_assignment sanitize history assignment).head? =
        some (sanitize assignment.1,
          if (sanitize assignment.2).isEmpty then sanitize assignment.1
          else sanitize assignment.2)) ∧
    (history.length ≤ kMaxConsistencyHints → history.Nodup →
      (record_session_assignment sanitize history assignment).length ≤ kMaxConsistencyHints ∧
      (record_session_assignment sanitize history assignment).Nodup) := by
  unfold record_session_assignment
  refine ⟨?_, ?_, ?_⟩
  · intro h
    simp only [h, List.isEmpty_nil, if_true]
  · intro h
    have h1 : (sanitize assignment.1).isEmpty = false := by
      simpa using h
    simp only [h1, Bool.false_eq_true, if_false]
    have hpair : (if (sanitize assignment.2).isEmpty = true then
        (sanitize assignment.1, sanitize assignment.1)
        else (sanitize assignment.1, sanitize assignment.2)) =
        (sanitize assignment.1,
          if (sanitize assignment.2).isEmpty then sanitize assignment.1
          else sanitize assignment.2) := by
      split <;> rfl
    rw [hpair]
    generalize (sanitize assignment.1,
      if (sanitize assignment.2).isEmpty then sanitize assignment.1
      else sanitize assignment.2) = normalized
    by_cases hgt : (normalized ::
        history.filter (fun pair => decide (pair ≠ normalized))).length > kMaxConsistencyHints
    · rw [if_pos hgt]
      cases hf : history.filter (fun pair => decide (pair ≠ normalized)) with
      | nil =>
        rw [hf] at hgt
        simp [kMaxConsistencyHints] at hgt
      | cons a rest => rfl
    · rw [if_neg hgt]
      rfl
  · intro hlen hnodup
    by_cases h : (sanitize assignment.1).isEmpty = true
    · simp only [h, if_true]
      exact ⟨hlen, hnodup⟩
    · simp only [h, Bool.false_eq_true, if_false]
      generalize (if (sanitize assignment.2).isEmpty = true then
        (sanitize assignment.1, sanitize assignment.1)
        else (sanitize assignment.1, sanitize assignment.2)) = normalized
      have hflen : (history.filter (fun pair => decide (pair ≠ normalized))).length
          ≤ history.length := List.length_filter_le _ _
      have hnd : (normalized :: history.filter (fun pair => decide (pair ≠ normalized))).Nodup := by
        rw [List.nodup_cons]
        constructor
        · intro hmem
          have := (List.mem_filter.mp hmem).2
          simp at this
        · exact hnodup.filter _
      split
      · constructor
        · rw [List.length_dropLast, List.length_cons]
          omega
        · exact hnd.sublist (List.dropLast_sublist _)
      · rename_i hgt
        exact ⟨not_lt.mp hgt, hnd⟩

theorem record_all_bounded (sanitize : Str → Str) (assignments : List (Str × Str))
    (history : List (Str × Str)) (hlen : history.length ≤ kMaxConsistencyHints)
    (hnodup : history.Nodup) :
    (record_all sanitize history assignments).length ≤ kMaxConsistencyHints ∧
    (record_all sanitize history assignments).Nodup := by
  induction assignments generalizing history with
  | nil => exact ⟨hlen, hnodup⟩
  | cons a rest ih =>
    obtain ⟨h1, h2⟩ := (record_step sanitize history a).2.2 hlen hnodup
    exact ih _ h1 h2

/-- C26, as stated, fails in one case: when the sanitized subcategory is empty, the pair
that is put at the front has the category in both places, so it is not the sanitized pair.
Here `("Images", "")` is recorded in the empty history. -/
theorem C26_counterexample :
    record_session_assignment sanitize_path_label [] ("Images".toList, []) =
      [("Images".toList, "Images".toList)] ∧
    (sanitize_path_label "Images".toList, sanitize_path_label []) =
      ("Images".toList, []) := by
  decide

/-- C26 (amended): starting from the empty history, after any sequence of
`record_session_assignment` calls the history holds at most 5 pairs and no pair twice;
a further call with a pair whose sanitized category is non-empty puts at the front the
sanitized pair, in which an empty sanitized subcategory is replaced by the sanitized
category; a call with a pair whose sanitized category is empty leaves the history as it
is. -/
theorem C26_session_history (sanitize : Str → Str) (assignments : List (Str × Str))
    (assignment : Str × Str) :
    (record_all sanitize [] assignments).length ≤ 5 ∧
    (record_all sanitize [] assignments).Nodup ∧
    (sanitize assignment.1 ≠ [] →
      (record_session_assignment sanitize (record_all sanitize [] assignments)
        assignment).head? =
        some (sanitize assignment.1,
          if (sanitize assignment.2).isEmpty then sanitize assignment.1
          else sanitize assignment.2)) ∧
    (sanitize assignment.1 = [] →
      record_session_assignment sanitize (record_all sanitize [] assignments) assignment =
        record_all sanitize [] assignments) := by
  obtain ⟨h1, h2⟩ := record_all_bounded sanitize assignments [] (Nat.zero_le _) List.nodup_nil
  exact ⟨h1, h2, (record_step sanitize _ assignment).2.1, (record_step sanitize _ assignment).1⟩

/-- The theorem for seven calls with six different pairs: the history holds the five most
recent pairs, the repeated pair once, the last recorded pair first. -/
theorem C26_session_history_witness :
    record_all sanitize_path_label []
      [("A".toList, "1".toList), ("B".toList, "2".toList), ("C".toList, "3".toList),
       ("D".toList, "4".toList), ("B".toList, "2".toList), ("E".toList, "5".toList),
       ("F".toList, "6".toList)] =
      [("F".toList, "6".toList), ("E".toList, "5".toList), ("B".toList, "2".toList),
       ("D".toList, "4".toList), ("C".toList, "3".toList)] ∧
    (record_all sanitize_path_label []
      [("A".toList, "1".toList), ("B".toList, "2".toList), ("C".toList, "3".toList),
       ("D".toList, "4".toList), ("B".toList, "2".toList), ("E".toList, "5".toList),
       ("F".toList, "6".toList)]).length ≤ 5 :=
  ⟨by decide,
    (C26_session_history sanitize_path_label
      [("A".toList, "1".toList), ("B".toList, "2".toList), ("C".toList, "3".toList),
       ("D".toList, "4".toList), ("B".toList, "2".toList), ("E".toList, "5".toList),
       ("F".toList, "6".toList)] ([], [])).1⟩

/-! ## C30: the taxonomy id of a result and its labels -/

theorem apply_whitelist_keep (settings : Settings) (resolved : ResolvedCategory)
    (h : settings.use_whitelist = false ∨
      (is_allowed resolved.category settings.allowed_categories = true ∧
        is_allowed resolved.subcategory settings.allowed_subcategories = true)) :
    apply_whitelist settings resolved = resolved := by
  unfold apply_whitelist
  rcases h with h | ⟨h1, h2⟩
  · simp only [h, Bool.false_eq_true, if_false]
  · simp only [h1, h2, Bool.not_true, Bool.false_eq_true, if_false, ite_self]

/-- C30, as stated, fails with the whitelist on: for the reply `"Images:Photos"` on a
fresh taxonomy, with `Documents` as the only allowed category, `categorize_via_llm`
returns taxonomy id 1 with the category `Documents`, while the taxonomy entry 1 carries
the category `Images`. -/
theorem C30_counterexample :
    (categorize_via_llm whitelist_env fresh_world "a.jpg".toList "/d/a.jpg".toList).1.toOption =
      some ⟨1, "Documents".toList, "Photos".toList⟩ ∧
    find_taxonomy_entry
      (categorize_via_llm whitelist_env fresh_world "a.jpg".toList "/d/a.jpg".toList).2.db 1 =
      some ⟨1, "Images".toList, "Photos".toList, "images".toList, "photos".toList⟩ := by
  decide!

/-- C30 (amended): on a taxonomy state reachable from the empty one, for every reply whose
labels pass the validation, when whitelisting is off, or is on and leaves both resolved
labels as they are (each is allowed), `categorize_via_llm` returns the category and the
subcategory of the taxonomy entry whose id is the returned taxonomy id, and the row that
`update_storage_with_result` then writes carries this id and these labels. -/
theorem C30_result_names_labels (env : Env) (w : World) (name path text : Str)
    (hreach : Reachable w.db)
    (hreply : env.llm w.llm_calls = LlmOutcome.reply text)
    (hvalid : (validate_labels (reply_labels env w.db text).category
      (reply_labels env w.db text).subcategory).valid = true)
    (hkeep : env.settings.use_whitelist = false ∨
      (is_allowed (resolve_category w.db (split_category_subcategory env.sanitize text).1
          (split_category_subcategory env.sanitize text).2).1.category
        env.settings.allowed_categories = true ∧
       is_allowed (resolve_category w.db (split_category_subcategory env.sanitize text).1
          (split_category_subcategory env.sanitize text).2).1.subcategory
        env.settings.allowed_subcategories = true)) :
    ∃ resolved e,
      (categorize_via_llm env w name path).1 = Except.ok resolved ∧
      find_taxonomy_entry (categorize_via_llm env w name path).2.db resolved.taxonomy_id
        = some e ∧
      e.category = resolved.category ∧ e.subcategory = resolved.subcategory ∧
      ∀ (entry : FileEntry) (dir_path : Str) (hints : Bool) (suggested_name : Str),
        ∃ row, stored_row
            (update_storage_with_result env (categorize_via_llm env w name path).2 entry
              dir_path resolved hints suggested_name).db
            entry.file_name (file_type_code entry.type) dir_path = some row ∧
          row.taxonomy_id = some e.id ∧ row.category = some e.category ∧
          row.subcategory = some e.subcategory := by
  have hok := resolve_category_ok w.db (reachable_inv w.db hreach)
    (split_category_subcategory env.sanitize text).1
    (split_category_subcategory env.sanitize text).2
  obtain ⟨e, he, hres, _⟩ := hok.entry
  have hlabels : reply_labels env w.db text = ⟨e.id, e.category, e.subcategory⟩ := by
    unfold reply_labels
    rw [apply_whitelist_keep env.settings _ hkeep, hres]
  obtain ⟨h1, _⟩ := via_llm_reply_valid env w name path text hreply hvalid
  have hdb : (categorize_via_llm env w name path).2.db =
      (resolve_category w.db (split_category_subcategory env.sanitize text).1
        (split_category_subcategory env.sanitize text).2).2 := by
    unfold categorize_via_llm run_llm_with_timeout
    rw [hreply]
    simp only
    split
    · rw [emit_db]
    · unfold emit_progress_message
      rw [emit_db]
  refine ⟨⟨e.id, e.category, e.subcategory⟩, e, ?_, ?_, rfl, rfl, ?_⟩
  · rw [h1, hlabels]
  · rw [hdb]
    exact hok.inv.index_ok e he
  · intro entry dir_path hints suggested_name
    have hpos : e.id > 0 := (hok.inv.ids_pos e he).1
    unfold update_storage_with_result
    simp only
    rw [stored_row_upsert_same]
    cases stored_row (categorize_via_llm env w name path).2.db entry.file_name
        (file_type_code entry.type) dir_path with
    | none =>
      refine ⟨_, rfl, ?_, rfl, rfl⟩
      simp only [fresh_row, hpos, if_true]
    | some old =>
      refine ⟨_, rfl, ?_, rfl, rfl⟩
      simp only [upsert_update, fresh_row, hpos, if_true]

/-- The theorem in scenario A's environment (no whitelist) for the reply
`"Images : Photos"` on a fresh taxonomy. -/
theorem C30_result_names_labels_witness :
    Reachable fresh_world.db ∧
    ∃ resolved e,
      (categorize_via_llm scenarioA_env fresh_world "a.jpg".toList "/d/a.jpg".toList).1
        = Except.ok resolved ∧
      find_taxonomy_entry
        (categorize_via_llm scenarioA_env fresh_world "a.jpg".toList "/d/a.jpg".toList).2.db
        resolved.taxonomy_id = some e ∧
      e.category = resolved.category ∧ e.subcategory = resolved.subcategory :=
  ⟨Reachable.empty,
    (C30_result_names_labels scenarioA_env fresh_world "a.jpg".toList "/d/a.jpg".toList
      "Images : Photos".toList Reachable.empty rfl (by decide!) (Or.inl rfl)).elim
      (fun resolved h => h.elim (fun e he => ⟨resolved, e, he.1, he.2.1, he.2.2.1, he.2.2.2.1⟩))⟩

/-! ## C22: the whitelist block of the prompt -/

theorem numbered_loop_eq (items : List Str) (i : Nat) :
    numbered_loop items i =
      ((List.range items.length).map (fun k =>
        (Nat.repr (i + k + 1)).toList ++ ") ".toList ++ items.getD k [] ++ "\n".toList)).flatten := by
  induction items generalizing i with
  | nil => rfl
  | cons item rest ih =>
    rw [numbered_loop, ih (i + 1), List.length_cons, List.range_succ_eq_map, List.map_cons,
      List.flatten_cons, List.map_map]
    have hmap : List.map (fun k => (Nat.repr (i + 1 + k + 1)).toList ++ ") ".toList ++
          rest.getD k [] ++ "\n".toList) (List.range rest.length) =
        List.map ((fun k => (Nat.repr (i + k + 1)).toList ++ ") ".toList ++
          (item :: rest).getD k [] ++ "\n".toList) ∘ Nat.succ) (List.range rest.length) := by
      apply List.map_congr_left
      intro k _
      simp only [Function.comp, List.getD_cons_succ]
      have : i + 1 + k + 1 = i + k.succ + 1 := by omega
      rw [this]
    rw [hmap]
    rfl

/-- C22: for a non-empty list of allowed categories, `build_whitelist_context` emits the
heading "Allowed main categories (pick exactly one label from the numbered list):"
followed by the lines "i) c_i" for i = 1..n in list order; then, for a non-empty list of
allowed subcategories, the heading "Allowed subcategories (pick exactly one label from the
numbered list):" and their numbered lines, and for an empty list the line that begins
"Allowed subcategories: any". -/
theorem C22_whitelist_block (settings : Settings)
    (hcats : settings.allowed_categories ≠ []) :
    build_whitelist_context settings =
      "Allowed main categories (pick exactly one label from the numbered list):\n".toList ++
        numbered_lines settings.allowed_categories ++
        (if settings.allowed_subcategories = [] then
          ("Allowed subcategories: any (pick a specific, relevant subcategory; " ++
            "do not repeat the main category).").toList
         else
          "Allowed subcategories (pick exactly one label from the numbered list):\n".toList ++
            numbered_lines settings.allowed_subcategories) := by
  have h1 : settings.allowed_categories.isEmpty = false := by
    simpa using hcats
  have hnum : ∀ items : List Str, numbered_loop items 0 = numbered_lines items := by
    intro items
    rw [numbered_loop_eq]
    unfold numbered_lines
    simp only [Nat.zero_add]
  unfold build_whitelist_context
  simp only [h1, Bool.not_false, if_true, hnum]
  by_cases hs : settings.allowed_subcategories = []
  · simp only [hs, List.isEmpty_nil, Bool.not_true, Bool.false_eq_true, if_false, if_true]
  · have h2 : settings.allowed_subcategories.isEmpty = false := by
      simpa using hs
    simp only [h2, Bool.not_false, if_true, hs, if_false, List.append_assoc]

/-- The theorem for the settings of the repository's test: the categories `CatA`, `CatB`
and no allowed subcategories. -/
theorem C22_whitelist_block_witness :
    numbered_lines ["CatA".toList, "CatB".toList] = "1) CatA\n2) CatB\n".toList ∧
    build_whitelist_context
      ⟨LLMChoice.Local, [], [], false, true, ["CatA".toList, "CatB".toList], [], false⟩ =
      "Allowed main categories (pick exactly one label from the numbered list):\n".toList ++
        numbered_lines ["CatA".toList, "CatB".toList] ++
        ("Allowed subcategories: any (pick a specific, relevant subcategory; " ++
          "do not repeat the main category).").toList :=
  ⟨by decide!,
    C22_whitelist_block
      ⟨LLMChoice.Local, [], [], false, true, ["CatA".toList, "CatB".toList], [], false⟩
      (by decide)⟩

/-! ## C21: the fallback when the model does not load -/

/-- The inner loop only adds to the record of the reads. -/
theorem scan_digits_appends (mem : Nat → Char) (fuel p : Nat) (value : Int)
    (reads : List Nat) :
    ∃ rest, (scan_digits mem fuel p value reads).2.2 = reads ++ rest := by
  induction fuel generalizing p value reads with
  | zero => exact ⟨[], (List.append_nil _).symm⟩
  | succ k ih =>
    unfold scan_digits
    split
    · obtain ⟨rest, hrest⟩ := ih (p + 1)
        (value * 10 + ((mem p).toNat - '0'.toNat : Nat)) (reads ++ [p])
      exact ⟨p :: rest, by rw [hrest, List.append_assoc]; rfl⟩
    · exact ⟨[p], rfl⟩

/-- The scan of a name only adds to the record of the reads. -/
theorem scan_name_appends (mem : Nat → Char) (fuel : Nat) (s : ScanState) :
    ∃ rest, (scan_name mem fuel s).reads = s.reads ++ rest := by
  induction fuel generalizing s with
  | zero => exact ⟨[], (List.append_nil _).symm⟩
  | succ n ih =>
    unfold scan_name
    split
    · exact ⟨[s.p], rfl⟩
    · simp only
      split
      · obtain ⟨r1, h1⟩ := scan_digits_appends mem (n + 1) s.p 0 (s.reads ++ [s.p])
        obtain ⟨r2, h2⟩ := ih ⟨(scan_digits mem (n + 1) s.p 0 (s.reads ++ [s.p])).1 + 1,
          max s.current (scan_digits mem (n + 1) s.p 0 (s.reads ++ [s.p])).2.1,
          (scan_digits mem (n + 1) s.p 0 (s.reads ++ [s.p])).2.2⟩
        refine ⟨s.p :: (r1 ++ r2), ?_⟩
        rw [h2]
        simp only
        rw [h1]
        simp
      · obtain ⟨r2, h2⟩ := ih ⟨s.p + 1, s.current, s.reads ++ [s.p]⟩
        exact ⟨s.p :: r2, by rw [h2]; simp⟩

/-- The scan of a name reads the character under its pointer first. -/
theorem scan_name_first_read (mem : Nat → Char) (fuel : Nat) (s : ScanState) :
    ∃ rest, (scan_name mem (fuel + 1) s).reads = s.reads ++ s.p :: rest := by
  unfold scan_name
  split
  · exact ⟨[], rfl⟩
  · simp only
    split
    · obtain ⟨r1, h1⟩ := scan_digits_appends mem (fuel + 1) s.p 0 (s.reads ++ [s.p])
      obtain ⟨r2, h2⟩ := scan_name_appends mem fuel
        ⟨(scan_digits mem (fuel + 1) s.p 0 (s.reads ++ [s.p])).1 + 1,
          max s.current (scan_digits mem (fuel + 1) s.p 0 (s.reads ++ [s.p])).2.1,
          (scan_digits mem (fuel + 1) s.p 0 (s.reads ++ [s.p])).2.2⟩
      refine ⟨r1 ++ r2, ?_⟩
      rw [h2]
      simp only
      rw [h1]
      simp
    · obtain ⟨r2, h2⟩ := scan_name_appends mem fuel ⟨s.p + 1, s.current, s.reads ++ [s.p]⟩
      exact ⟨r2, by rw [h2]; simp⟩

/-- C27 at the tensor name `"blk.12"` (6 characters, terminator at index 6): after the
inner loop has run over `12` and stopped at the terminator, the `++p` of the outer loop
moves the pointer to index 7, and the loop test reads that character, whatever the memory
after the terminator holds.  With zero bytes after the terminator the scan reads the
indices 0, 1, 2, 3, 4, 4, 5, 6, 7 and ends there. -/
theorem C27_failing_input :
    (∀ beyond : Nat → Char,
      7 ∈ (scan_name (c_string_at "blk.12".toList beyond) 10 ⟨0, -1, []⟩).reads) ∧
    (scan_name (c_string_at "blk.12".toList (fun _ => Char.ofNat 0)) 10 ⟨0, -1, []⟩).reads =
      [0, 1, 2, 3, 4, 4, 5, 6, 7] ∧
    (scan_name (c_string_at "blk.12".toList (fun _ => Char.ofNat 0)) 10 ⟨0, -1, []⟩).current
      = 12 ∧
    "blk.12".toList.length = 6 := by
  refine ⟨?_, by decide, by decide, by decide⟩
  intro beyond
  have hstep : scan_name (c_string_at "blk.12".toList beyond) 10 ⟨0, -1, []⟩ =
      scan_name (c_string_at "blk.12".toList beyond) 5 ⟨7, 12, [0, 1, 2, 3, 4, 4, 5, 6]⟩ := by
    rfl
  rw [hstep]
  obtain ⟨rest, hrest⟩ := scan_name_first_read (c_string_at "blk.12".toList beyond) 4
    ⟨7, 12, [0, 1, 2, 3, 4, 4, 5, 6]⟩
  rw [hrest]
  simp

/-! ## C25: trailing stop-words -/

theorem read_tokens_token (t rest cur : Str) (ht : ∀ c ∈ t, isspace c = false) :
    read_tokens (t ++ rest) cur = read_tokens rest (cur ++ t) := by
  induction t generalizing cur with
  | nil => simp
  | cons c cs ih =>
    have hc : isspace c = false := ht c (List.mem_cons_self c cs)
    rw [List.cons_append, read_tokens]
    simp only [hc, Bool.false_eq_true, if_false]
    rw [ih (cur ++ [c]) (fun x hx => ht x (List.mem_cons_of_mem c hx))]
    simp

/-- Reading back the tokens of a string made of tokens joined by single spaces. -/
theorem read_tokens_join (t : Str) (ts : List Str) (cur : Str)
    (ht : IsToken t) (hts : ∀ u ∈ ts, IsToken u) :
    read_tokens (join_tokens (t :: ts)) cur = (cur ++ t) :: ts := by
  induction ts generalizing t cur with
  | nil =>
    have h := read_tokens_token t [] cur ht.2
    rw [List.append_nil] at h
    rw [join_tokens, h, read_tokens]
    have hne : (cur ++ t).isEmpty = false := by
      cases cur <;> cases t <;> simp_all [IsToken]
    simp only [hne, Bool.false_eq_true, if_false]
  | cons u us ih =>
    rw [join_tokens, read_tokens_token t _ cur ht.2, read_tokens]
    have hsp : isspace ' ' = true := by decide
    have hne : (cur ++ t).isEmpty = false := by
      cases cur <;> cases t <;> simp_all [IsToken]
    simp only [hsp, if_true, hne, Bool.false_eq_true, if_false]
    rw [ih u [] (hts u (List.mem_cons_self u us))
      (fun v hv => hts v (List.mem_cons_of_mem u hv))]
    rfl

/-- What the popping loop leaves: the reversed vector splits into the popped stop-words
and the kept part, which is not empty and is a single token or starts with a token that is
not a stop-word. -/
theorem pop_stopwords_spec (r : List Str) (hne : r ≠ []) :
    ∃ dropped, r = dropped ++ pop_stopwords r ∧ pop_stopwords r ≠ [] ∧
      (∀ t ∈ dropped, t ∈ kStopwords) ∧
      ((pop_stopwords r).length = 1 ∨
        ∃ h rest, pop_stopwords r = h :: rest ∧ h ∉ kStopwords) := by
  induction r with
  | nil => exact absurd rfl hne
  | cons t rest ih =>
    cases rest with
    | nil =>
      exact ⟨[], rfl, by simp [pop_stopwords], fun x hx => absurd hx (List.not_mem_nil x),
        Or.inl rfl⟩
    | cons u us =>
      rw [pop_stopwords]
      by_cases hstop : kStopwords.contains t = true
      · rw [if_pos hstop]
        obtain ⟨dropped, h1, h2, h3, h4⟩ := ih (List.cons_ne_nil u us)
        refine ⟨t :: dropped, ?_, h2, ?_, h4⟩
        · rw [List.cons_append, ← h1]
        · intro x hx
          rcases List.mem_cons.mp hx with hxt | hxd
          · rw [hxt]
            simpa using hstop
          · exact h3 x hxd
      · rw [if_neg hstop]
        refine ⟨[], rfl, List.cons_ne_nil _ _, fun x hx => absurd hx (List.not_mem_nil x),
          Or.inr ⟨t, u :: us, rfl, ?_⟩⟩
        simpa using hstop

theorem pop_stopwords_idem (r : List Str) : pop_stopwords (pop_stopwords r) = pop_stopwords r := by
  induction r with
  | nil => rfl
  | cons t rest ih =>
    cases rest with
    | nil => rfl
    | cons u us =>
      rw [pop_stopwords]
      by_cases hstop : kStopwords.contains t = true
      · rw [if_pos hstop]
        exact ih
      · rw [if_neg hstop, pop_stopwords, if_neg hstop]

theorem join_tokens_ne_nil (t : Str) (ts : List Str) (ht : t ≠ []) :
    join_tokens (t :: ts) ≠ [] := by
  cases ts with
  | nil => exact ht
  | cons u us =>
    rw [join_tokens]
    cases t with
    | nil => exact absurd rfl ht
    | cons c cs => exact List.cons_ne_nil _ _

/-- On a string made of tokens joined by single spaces, `strip_trailing_stopwords` joins
what the popping loop leaves of the tokens. -/
theorem strip_join (tokens : List Str) (hne : tokens ≠ [])
    (htok : ∀ t ∈ tokens, IsToken t) :
    strip_trailing_stopwords (join_tokens tokens) =
      join_tokens (pop_stopwords tokens.reverse).reverse := by
  cases tokens with
  | nil => exact absurd rfl hne
  | cons t ts =>
    have ht := htok t (List.mem_cons_self t ts)
    have hread := read_tokens_join t ts [] ht (fun u hu => htok u (List.mem_cons_of_mem t hu))
    rw [List.nil_append] at hread
    have hnonempty : (join_tokens (t :: ts)).isEmpty = false := by
      have := join_tokens_ne_nil t ts ht.1
      simpa using this
    unfold strip_trailing_stopwords
    simp only [hnonempty, Bool.false_eq_true, if_false, hread]
    cases ts with
    | nil => rfl
    | cons u us =>
      have hlen : ¬ (t :: u :: us).length ≤ 1 := by
        simp
      rw [if_neg hlen]
      obtain ⟨_, _, hkept, _, _⟩ := pop_stopwords_spec (t :: u :: us).reverse (by simp)
      have hk : (pop_stopwords (t :: u :: us).reverse).reverse.isEmpty = false := by
        simpa using hkept
      simp only [hk, Bool.false_eq_true, if_false]

/-- C25: for every string made of tokens t_1..t_n (n >= 1, each non-empty and without
white space, joined by single spaces), `strip_trailing_stopwords` returns t_1..t_k joined
by single spaces, where k >= 1 is the least index such that every token after t_k is a
stop-word; the result is not empty, a string of one token (a stop-word or not) is returned
as it is, and stripping twice gives what stripping once gives. -/
theorem C25_strip_trailing_stopwords (tokens : List Str) (hne : tokens ≠ [])
    (htok : ∀ t ∈ tokens, IsToken t) :
    (∃ k, 1 ≤ k ∧ k ≤ tokens.length ∧
      strip_trailing_stopwords (join_tokens tokens) = join_tokens (tokens.take k) ∧
      (∀ t ∈ tokens.drop k, t ∈ kStopwords) ∧
      (∀ j, 1 ≤ j → j < k → ∃ t ∈ tokens.drop j, t ∉ kStopwords)) ∧
    strip_trailing_stopwords (join_tokens tokens) ≠ [] ∧
    (tokens.length = 1 →
      strip_trailing_stopwords (join_tokens tokens) = join_tokens tokens) ∧
    strip_trailing_stopwords (strip_trailing_stopwords (join_tokens tokens)) =
      strip_trailing_stopwords (join_tokens tokens) := by
  have hstrip := strip_join tokens hne htok
  obtain ⟨dropped, h1, h2, h3, h4⟩ := pop_stopwords_spec tokens.reverse (by simpa using hne)
  generalize hkept : pop_stopwords tokens.reverse = kept at hstrip h1 h2 h4
  have htokens : tokens = kept.reverse ++ dropped.reverse := by
    have := congrArg List.reverse h1
    rw [List.reverse_reverse, List.reverse_append] at this
    exact this
  have hlenpos : 1 ≤ kept.length := by
    cases kept with
    | nil => exact absurd rfl h2
    | cons a l => simp
  have htake : tokens.take kept.length = kept.reverse := by
    rw [htokens]
    have : kept.length = kept.reverse.length := (List.length_reverse kept).symm
    rw [this, List.take_left']
    rfl
  have hdrop : tokens.drop kept.length = dropped.reverse := by
    rw [htokens]
    have : kept.length = kept.reverse.length := (List.length_reverse kept).symm
    rw [this, List.drop_left']
    rfl
  have hkept_tok : ∀ t ∈ kept.reverse, IsToken t := by
    intro t ht
    apply htok t
    rw [htokens]
    exact List.mem_append_left _ ht
  have hkept_ne : kept.reverse ≠ [] := by
    simpa using h2
  refine ⟨⟨kept.length, hlenpos, ?_, ?_, ?_, ?_⟩, ?_, ?_, ?_⟩
  · rw [htokens, List.length_append, List.length_reverse]
    exact Nat.le_add_right _ _
  · rw [hstrip, htake]
  · rw [hdrop]
    intro t ht
    exact h3 t (List.mem_reverse.mp ht)
  · intro j hj1 hjk
    rcases h4 with hlen | ⟨h, rest, hk, hnot⟩
    · omega
    · refine ⟨h, ?_, hnot⟩
      rw [htokens, hk, List.reverse_cons, List.append_assoc]
      have hjle : j ≤ rest.reverse.length := by
        rw [hk, List.length_cons] at hjk
        rw [List.length_reverse]
        omega
      rw [List.drop_append_of_le_length hjle]
      simp
  · rw [hstrip]
    cases hr : kept.reverse with
    | nil => exact absurd hr hkept_ne
    | cons a l =>
      apply join_tokens_ne_nil
      have := hkept_tok a (by rw [hr]; exact List.mem_cons_self a l)
      exact this.1
  · intro hlen
    cases tokens with
    | nil => exact absurd rfl hne
    | cons t ts =>
      cases ts with
      | nil =>
        rw [hstrip, ← hkept]
        rfl
      | cons u us => simp at hlen
  · rw [hstrip, strip_join kept.reverse hkept_ne hkept_tok, List.reverse_reverse, ← hkept,
      pop_stopwords_idem]

/-- The theorem for the tokens `holiday`, `photos`, `files`, and the single token
`photos`. -/
theorem C25_strip_trailing_stopwords_witness :
    strip_trailing_stopwords "holiday photos files".toList = "holiday".toList ∧
    strip_trailing_stopwords "photos".toList = "photos".toList ∧
    strip_trailing_stopwords (join_tokens ["holiday".toList, "photos".toList, "files".toList])
      ≠ [] :=
  ⟨by decide, by decide,
    (C25_strip_trailing_stopwords ["holiday".toList, "photos".toList, "files".toList]
      (by decide) (by unfold IsToken; decide)).2.1⟩

/-! ## C23: the two-row program computes the Levenshtein distance -/

theorem lev_nil (b : Str) : lev [] b = b.length := rfl

theorem lev_cons_nil (x : Char) (xs : Str) : lev (x :: xs) [] = xs.length + 1 := rfl

theorem lev_cons_cons (x : Char) (xs : Str) (y : Char) (ys : Str) :
    lev (x :: xs) (y :: ys) =
      min (min (lev xs (y :: ys) + 1) (lev (x :: xs) ys + 1))
        (lev xs ys + if x = y then 0 else 1) := rfl

theorem lev_nil_right (a : Str) : lev a [] = a.length := by
  cases a <;> rfl

/-- The recurrence of the distance on the last characters. -/
theorem lev_snoc_snoc (a b : Str) (x y : Char) :
    lev (a ++ [x]) (b ++ [y]) =
      min (min (lev a (b ++ [y]) + 1) (lev (a ++ [x]) b + 1))
        (lev a b + if x = y then 0 else 1) := by
  induction a generalizing b with
  | nil =>
    induction b with
    | nil =>
      simp only [List.nil_append, lev_cons_cons, lev_nil, lev_cons_nil, List.length_nil,
        List.length_cons]
    | cons v b' ihb =>
      have e0 := lev_cons_cons x [] v (b' ++ [y])
      have e1 := lev_cons_cons x [] v b'
      simp only [List.nil_append, List.cons_append, lev_nil, List.length_append,
        List.length_cons, List.length_nil] at e0 e1 ihb ⊢
      rw [e0, ihb, e1]
      generalize (if x = v then 0 else 1) = c1
      generalize (if x = y then 0 else 1) = c2
      generalize lev [x] b' = l
      omega
  | cons u a' iha =>
    induction b with
    | nil =>
      have e0 := lev_cons_cons u (a' ++ [x]) y []
      have e1 := iha []
      have e2 := lev_cons_cons u a' y []
      simp only [List.nil_append, List.cons_append, lev_nil_right, List.length_append,
        List.length_cons, List.length_nil] at e0 e1 e2 ⊢
      rw [e0, e1, e2]
      generalize (if u = y then 0 else 1) = c1
      generalize (if x = y then 0 else 1) = c2
      generalize lev a' [y] = l
      omega
    | cons v b' ihb =>
      have e0 := lev_cons_cons u (a' ++ [x]) v (b' ++ [y])
      have e1 := iha (v :: b')
      have e2 := ihb
      have e3 := iha b'
      have e4 := lev_cons_cons u a' v (b' ++ [y])
      have e5 := lev_cons_cons u (a' ++ [x]) v b'
      have e6 := lev_cons_cons u a' v b'
      simp only [List.cons_append] at e0 e1 e2 e3 e4 e5 e6 ⊢
      rw [e0, e1, e2, e3, e4, e5, e6]
      generalize (if u = v then 0 else 1) = c1
      generalize (if x = y then 0 else 1) = c2
      generalize lev a' (v :: (b' ++ [y])) = l1
      generalize lev (a' ++ [x]) (v :: b') = l2
      generalize lev a' (v :: b') = l3
      generalize lev (u :: a') (b' ++ [y]) = l4
      generalize lev (u :: (a' ++ [x])) b' = l5
      generalize lev (u :: a') b' = l6
      generalize lev a' (b' ++ [y]) = l7
      generalize lev (a' ++ [x]) b' = l8
      generalize lev a' b' = l9
      simp only [← Nat.add_min_add_right]
      apply le_antisymm
      · simp only [le_min_iff, min_le_iff]
        refine ⟨⟨⟨⟨?_, ?_⟩, ?_⟩, ⟨⟨?_, ?_⟩, ?_⟩⟩, ⟨⟨?_, ?_⟩, ?_⟩⟩ <;> omega
      · simp only [le_min_iff, min_le_iff]
        refine ⟨⟨⟨⟨?_, ?_⟩, ?_⟩, ⟨⟨?_, ?_⟩, ?_⟩⟩, ⟨⟨?_, ?_⟩, ?_⟩⟩ <;> omega
theorem row_from_cons (p q s : Str) : row_from p q s = lev p q :: (row_from p q s).tail := by
  cases s <;> rfl

theorem row_from_nil (q s : Str) : row_from [] q s = List.range' q.length (s.length + 1) := by
  induction s generalizing q with
  | nil => rfl
  | cons y s ih =>
    rw [row_from, ih (q ++ [y]), List.length_append, List.length_cons, List.length_nil]
    rfl

theorem lev_row_aux_spec (x : Char) (p q s : Str) :
    lev_row_aux x s (row_from p q s) (lev (p ++ [x]) q) = (row_from (p ++ [x]) q s).tail := by
  induction s generalizing q with
  | nil => rfl
  | cons y s ih =>
    rw [row_from, row_from_cons p (q ++ [y]) s, lev_row_aux]
    rw [← lev_snoc_snoc p q x y, ← row_from_cons p (q ++ [y]) s, ih (q ++ [y])]
    rw [row_from, List.tail_cons, ← row_from_cons]

theorem lev_row_spec (x : Char) (p b : Str) :
    lev_row x (p.length + 1) (row_from p [] b) b = row_from (p ++ [x]) [] b := by
  have h : p.length + 1 = lev (p ++ [x]) [] := by
    rw [lev_nil_right, List.length_append]
    rfl
  unfold lev_row
  rw [h, lev_row_aux_spec, ← row_from_cons]

theorem lev_rows_spec (a p b : Str) :
    lev_rows a (p.length + 1) (row_from p [] b) b = row_from (p ++ a) [] b := by
  induction a generalizing p with
  | nil => rw [lev_rows, List.append_nil]
  | cons x as ih =>
    rw [lev_rows, lev_row_spec]
    have h : p.length + 1 + 1 = (p ++ [x]).length + 1 := by
      rw [List.length_append]
      rfl
    rw [h, ih (p ++ [x]), List.append_assoc]
    rfl

theorem row_from_last (p q s : Str) : (row_from p q s).getD s.length 0 = lev p (q ++ s) := by
  induction s generalizing q with
  | nil => simp [row_from]
  | cons y s ih =>
    rw [row_from, List.length_cons, List.getD_cons_succ, ih (q ++ [y]), List.append_assoc]
    rfl

/-- The two-row program yields the classic distance. -/
theorem edit_distance_eq_lev (a b : Str) : edit_distance a b = lev a b := by
  unfold edit_distance
  have h0 : List.range (b.length + 1) = row_from [] [] b := by
    rw [row_from_nil, List.range_eq_range']
    rfl
  have h := lev_rows_spec a [] b
  rw [List.length_nil, Nat.zero_add, List.nil_append] at h
  rw [h0, h, row_from_last, List.nil_append]

theorem lev_self (a : Str) : lev a a = 0 := by
  induction a with
  | nil => rfl
  | cons x xs ih =>
    rw [lev_cons_cons, ih]
    simp

theorem lev_le_max (a b : Str) : lev a b ≤ max a.length b.length := by
  induction a generalizing b with
  | nil => simp [lev_nil]
  | cons x xs ih =>
    cases b with
    | nil => simp [lev_cons_nil]
    | cons y ys =>
      rw [lev_cons_cons]
      have h := ih ys
      have hc : (if x = y then 0 else 1) ≤ 1 := by split <;> simp
      simp only [List.length_cons]
      have h2 : min (min (lev xs (y :: ys) + 1) (lev (x :: xs) ys + 1))
          (lev xs ys + if x = y then 0 else 1) ≤ lev xs ys + if x = y then 0 else 1 :=
        min_le_right _ _
      omega

/-- The reference `lev` is the Levenshtein distance of Mathlib with the default costs. -/
theorem lev_eq_levenshtein (a b : Str) : lev a b = levenshtein Levenshtein.defaultCost a b := by
  induction a generalizing b with
  | nil =>
    induction b with
    | nil => simp [lev_nil]
    | cons y ys ih =>
      rw [levenshtein_nil_cons, ← ih]
      simp only [lev_nil, List.length_cons, Levenshtein.defaultCost_insert]
      omega
  | cons x xs iha =>
    induction b with
    | nil =>
      rw [levenshtein_cons_nil, ← iha []]
      simp only [lev_nil_right, List.length_cons, Levenshtein.defaultCost_delete]
      omega
    | cons y ys ihb =>
      rw [levenshtein_cons_cons, ← iha (y :: ys), ← ihb, ← iha ys, lev_cons_cons]
      simp only [Levenshtein.defaultCost_delete, Levenshtein.defaultCost_insert,
        Levenshtein.defaultCost_substitute]
      generalize (if x = y then 0 else 1) = c
      omega
theorem similarity_formula (a b : Str) (h : a ≠ [] ∨ b ≠ []) :
    string_similarity exact_arithmetic a b =
      1 - (lev a b : ℚ) / (max a.length b.length : ℚ) := by
  unfold string_similarity exact_arithmetic
  by_cases hab : a = b
  · rw [if_pos hab, hab, lev_self]
    simp
  · rw [if_neg hab]
    by_cases hempty : (a.isEmpty || b.isEmpty) = true
    · rw [if_pos hempty]
      simp only [Bool.or_eq_true, List.isEmpty_eq_true] at hempty
      rcases hempty with ha | hb
      · subst ha
        have hb : b ≠ [] := fun hb => hab hb.symm
        have hlen : (b.length : ℚ) ≠ 0 := by
          have : b.length ≠ 0 := fun h0 => hb (List.length_eq_zero.mp h0)
          exact_mod_cast this
        rw [lev_nil]
        simp [hlen]
      · subst hb
        have ha : a ≠ [] := hab
        have hlen : (a.length : ℚ) ≠ 0 := by
          have : a.length ≠ 0 := fun h0 => ha (List.length_eq_zero.mp h0)
          exact_mod_cast this
        rw [lev_nil_right]
        simp [hlen]
    · rw [if_neg hempty, edit_distance_eq_lev]

/-- C23: for all strings `a` and `b`, the two-row dynamic program of `string_similarity`
yields the classic Levenshtein distance `lev a b` (insert, delete and substitute cost 1
each; it is the `levenshtein` of Mathlib with the default costs), and, unless both strings
are empty, `string_similarity a b = 1 - lev a b / max(|a|, |b|)` in exact arithmetic; the
similarity of two empty strings is 1, that of a non-empty string and the empty string is 0,
and the value always lies in [0, 1].  In every arithmetic `fl` (that of the program's
`double`s included) the two boundary values are the same and the value for two different
non-empty strings is `fl(1 - fl(fl(lev a b) / fl(max(|a|, |b|))))`. -/
theorem C23_string_similarity_is_levenshtein (a b : Str) :
    edit_distance a b = lev a b ∧
    lev a b = levenshtein Levenshtein.defaultCost a b ∧
    ((a ≠ [] ∨ b ≠ []) →
      string_similarity exact_arithmetic a b =
        1 - (lev a b : ℚ) / (max a.length b.length : ℚ)) ∧
    string_similarity exact_arithmetic [] [] = 1 ∧
    (a ≠ [] → string_similarity exact_arithmetic a [] = 0) ∧
    (0 ≤ string_similarity exact_arithmetic a b ∧
      string_similarity exact_arithmetic a b ≤ 1) ∧
    (∀ fl : ℚ → ℚ,
      string_similarity fl [] [] = 1 ∧
      (a ≠ [] → string_similarity fl a [] = 0) ∧
      (a ≠ b → a ≠ [] → b ≠ [] →
        string_similarity fl a b =
          fl (1 - fl (fl (lev a b : ℚ) / fl (max a.length b.length : ℚ))))) := by
  refine ⟨edit_distance_eq_lev a b, lev_eq_levenshtein a b, similarity_formula a b, rfl,
    ?_, ?_, ?_⟩
  · intro ha
    unfold string_similarity
    rw [if_neg ha]
    simp
  · by_cases h : a ≠ [] ∨ b ≠ []
    · rw [similarity_formula a b h]
      have hle : (lev a b : ℚ) ≤ (max a.length b.length : ℚ) := by
        have := lev_le_max a b
        exact_mod_cast this
      have hpos : (0 : ℚ) < (max a.length b.length : ℚ) := by
        have : 0 < max a.length b.length := by
          rcases h with h | h
          · exact lt_of_lt_of_le (List.length_pos.mpr h) (le_max_left _ _)
          · exact lt_of_lt_of_le (List.length_pos.mpr h) (le_max_right _ _)
        exact_mod_cast this
      have h1 : (lev a b : ℚ) / (max a.length b.length : ℚ) ≤ 1 := (div_le_one hpos).mpr hle
      have h0 : (0 : ℚ) ≤ (lev a b : ℚ) / (max a.length b.length : ℚ) :=
        div_nonneg (Nat.cast_nonneg _) (le_of_lt hpos)
      constructor <;> linarith
    · simp only [not_or, not_not] at h
      rw [h.1, h.2]
      exact ⟨by decide!, by decide!⟩
  · intro fl
    refine ⟨rfl, ?_, ?_⟩
    · intro ha
      unfold string_similarity
      rw [if_neg ha]
      simp
    · intro hab ha hb
      unfold string_similarity
      rw [if_neg hab]
      have hempty : ¬ ((a.isEmpty || b.isEmpty) = true) := by
        simp only [Bool.or_eq_true, List.isEmpty_eq_true, not_or]
        exact ⟨ha, hb⟩
      rw [if_neg hempty, edit_distance_eq_lev]

end Sorter
